import Mathlib

/-!
Insight: fragment store, compression and synthesis.

Shallow embedding of the GORM based services under `src/src` of the repository:

* `models/models.go`: the rows `Fragment`, `Document`, `Tag` and the two link tables;
* `usecase/fragment.go`, `usecase/document.go`: the use cases on top of the store;
* `ai/fragment_compressor.go`: `CompressFragments` and the execution of merge and delete actions;
* `ai/document_generator.go`: `GenerateDocuments` and `createDocumentsFromResponse`.

The relational store is a record of tables (lists of rows).  Every SQL statement may be
refused by the driver: a schedule `Faults` (a list of booleans, consumed one entry per
statement, `true` meaning that the statement returns an error, the empty schedule meaning
that no statement fails any more) makes storage failure explicit.  `db.Transaction` runs its
body on the current store and keeps the result only when the body and the commit succeed.
The AI collaborator is a parameter (a function from the prompt data to its decoded answer).
Wall clock readings are parameters as well.  The `UpdatedAt` bookkeeping column of
`gorm.Model` is not represented; `DeletedAt` is represented by the flag `Deleted`.
-/

namespace Insight

/-! ## Data model (`src/src/models/models.go`) -/

/-- Row of table `fragments`: `models.Fragment` with the embedded `gorm.Model`. -/
structure Fragment where
  ID : Nat
  CreatedAt : Nat
  Deleted : Bool
  Content : String
deriving DecidableEq, Repr

/-- Row of table `documents`: `models.Document` with the embedded `gorm.Model`. -/
structure Document where
  ID : Nat
  CreatedAt : Nat
  Deleted : Bool
  Title : String
  Summary : String
  Content : String
  VersionCreatedAt : Nat
deriving DecidableEq, Repr

/-- Row of table `tags`: `models.Tag` with the embedded `gorm.Model`. -/
structure Tag where
  ID : Nat
  CreatedAt : Nat
  Deleted : Bool
  Name : String
  Color : String
deriving DecidableEq, Repr

/-- The relational store: the three entity tables, the link tables `document_fragments`
and `document_tags` (pairs of document id and related id), and for each entity table the
last identifier handed out by the AUTOINCREMENT sequence. -/
structure Store where
  fragments : List Fragment
  documents : List Document
  tags : List Tag
  document_fragments : List (Nat × Nat)
  document_tags : List (Nat × Nat)
  fragmentSeq : Nat
  documentSeq : Nat
  tagSeq : Nat
deriving DecidableEq, Repr

/-- Schedule of storage failures, one entry per upcoming SQL statement. -/
abbrev Faults := List Bool

/-- Whether the next SQL statement is refused by the driver. -/
def stmtFails : Faults → Bool
  | [] => false
  | b :: _ => b

/-- Go conversion `uint(n)` of an `int` on a 64 bit platform. -/
def toUint (n : Int) : Nat := (n % 2 ^ 64).toNat

/-- A fragment row is live when it is not soft deleted (the default GORM scope). -/
def Fragment.live (f : Fragment) : Bool := !f.Deleted

/-- Live rows of the fragment table. -/
def liveFragments (s : Store) : List Fragment := s.fragments.filter Fragment.live

/-- Whether `id` (a Go `int`) identifies a live fragment. -/
def isLiveID (s : Store) (id : Int) : Bool :=
  s.fragments.any fun f => f.live && decide ((f.ID : Int) = id)

/-- Primary key discipline of the fragment table: identifiers are unique and fit a `uint`. -/
def fragmentKeysOk (s : Store) : Prop :=
  (s.fragments.map Fragment.ID).Nodup ∧ ∀ f ∈ s.fragments, f.ID < 2 ^ 64

instance (s : Store) : Decidable (fragmentKeysOk s) := by
  unfold fragmentKeysOk; infer_instance

/-! ## GORM primitives -/

/-- Effect of `db.Transaction(fc)`: begin, run the body, commit; when the begin, the body or
the commit fails the store is the one before the call (rollback). -/
def transaction {α : Type} (body : Store → Faults → Except String (α × Store) × Faults)
    (s : Store) (fs : Faults) : Except String α × Store × Faults :=
  if stmtFails fs then (.error "begin failed", s, fs.tail)
  else
    match body s fs.tail with
    | (.error e, fs1) => (.error e, s, fs1)
    | (.ok (a, s1), fs1) =>
      if stmtFails fs1 then (.error "commit failed", s, fs1.tail)
      else (.ok a, s1, fs1.tail)

/-- Rows after `tx.Model(&models.Fragment).Where("id = ?", firstID).Update("content", c)`:
the live row with that identifier gets the new content. -/
def updateContent (firstID : Nat) (c : String) (rows : List Fragment) : List Fragment :=
  rows.map fun f => if f.live ∧ f.ID = firstID then { f with Content := c } else f

/-- Rows after `tx.Delete(&models.Fragment, id)`: the live row with that identifier is
soft deleted. -/
def softDelete (id : Int) (rows : List Fragment) : List Fragment :=
  rows.map fun f => if f.live ∧ (f.ID : Int) = id then { f with Deleted := true } else f

/-! ## Fragment compressor (`src/src/ai/fragment_compressor.go`) -/

/-- Element of `compressionResponse.Actions`. -/
structure Action where
  Type_ : String
  FragmentIDs : List Int
  NewContent : String
  Reason : String
deriving DecidableEq, Repr

/-- Decoded answer of the AI collaborator to the compression request. -/
structure compressionResponse where
  Actions : List Action
  Summary : String
deriving DecidableEq, Repr

/-- Lines printed by `executeCompressionActions`. -/
inductive LogLine where
  | actionHeader (n : Nat) (a : Action)
  | mergeFailed (ids : List Int) (err : String)
  | merged (ids : List Int)
  | deleteFailed (ids : List Int) (err : String)
  | deleted (ids : List Int)
  | completed
deriving DecidableEq, Repr

/-- The deletion loop shared by `mergeFragments` (over the ids after the first) and
`deleteFragments` (over all ids): one `tx.Delete` per id, stopping at the first error. -/
def deleteLoop : List Int → Store → Faults → Except String (Unit × Store) × Faults
  | [], s, fs => (.ok ((), s), fs)
  | id :: rest, s, fs =>
    if stmtFails fs then (.error "delete failed", fs.tail)
    else deleteLoop rest { s with fragments := softDelete id s.fragments } fs.tail

/-- Body of the transaction of `mergeFragments`. -/
def mergeBody (firstID : Nat) (rest : List Int) (newContent : String)
    (s : Store) (fs : Faults) : Except String (Unit × Store) × Faults :=
  if stmtFails fs then (.error "update failed", fs.tail)
  else deleteLoop rest { s with fragments := updateContent firstID newContent s.fragments } fs.tail

/-- The function `mergeFragments`.  `none` is the run time panic of `fragmentIDs[0]` on an
empty slice; otherwise the returned error (`none` for `nil`), the store and the remaining
fault schedule. -/
def mergeFragments (fragmentIDs : List Int) (newContent : String) (s : Store) (fs : Faults) :
    Option (Option String × Store × Faults) :=
  match fragmentIDs with
  | [] => none
  | first :: rest =>
    match transaction (mergeBody (toUint first) rest newContent) s fs with
    | (.error e, s1, fs1) => some (some e, s1, fs1)
    | (.ok _, s1, fs1) => some (none, s1, fs1)

/-- The function `deleteFragments`. -/
def deleteFragments (fragmentIDs : List Int) (s : Store) (fs : Faults) :
    Option String × Store × Faults :=
  match transaction (deleteLoop fragmentIDs) s fs with
  | (.error e, s1, fs1) => (some e, s1, fs1)
  | (.ok _, s1, fs1) => (none, s1, fs1)

/-- State threaded through the loop of `executeCompressionActions`. -/
structure RunState where
  store : Store
  faults : Faults
  log : List LogLine
deriving DecidableEq, Repr

/-- One iteration of the loop of `executeCompressionActions` on action number `i`
(counted from zero).  `none` is a run time panic. -/
def compressionStep (i : Nat) (action : Action) (st : RunState) : Option RunState :=
  let log1 := st.log ++ [LogLine.actionHeader (i + 1) action]
  if action.Type_ = "merge" ∧ action.FragmentIDs.length > 1 then
    match mergeFragments action.FragmentIDs action.NewContent st.store st.faults with
    | none => none
    | some (some e, s1, fs1) =>
      some ⟨s1, fs1, log1 ++ [LogLine.mergeFailed action.FragmentIDs e]⟩
    | some (none, s1, fs1) =>
      some ⟨s1, fs1, log1 ++ [LogLine.merged action.FragmentIDs]⟩
  else if action.Type_ = "delete" ∧ action.FragmentIDs.length > 0 then
    match deleteFragments action.FragmentIDs st.store st.faults with
    | (some e, s1, fs1) =>
      some ⟨s1, fs1, log1 ++ [LogLine.deleteFailed action.FragmentIDs e]⟩
    | (none, s1, fs1) =>
      some ⟨s1, fs1, log1 ++ [LogLine.deleted action.FragmentIDs]⟩
  else some ⟨st.store, st.faults, log1⟩

/-- The loop `for i, action := range response.Actions` from index `i` on. -/
def actionsLoop : Nat → List Action → RunState → Option RunState
  | _, [], st => some st
  | i, a :: rest, st =>
    match compressionStep i a st with
    | none => none
    | some st1 => actionsLoop (i + 1) rest st1

/-- The function `executeCompressionActions`: the returned error (always `nil`) and the
final state; `none` is a run time panic. -/
def executeCompressionActions (response : compressionResponse) (s : Store) (fs : Faults) :
    Option (Option String × RunState) :=
  match actionsLoop 0 response.Actions ⟨s, fs, []⟩ with
  | none => none
  | some st => some (none, { st with log := st.log ++ [LogLine.completed] })

/-! ## Fragment use case (`src/src/usecase/fragment.go`) -/

/-- Input of `CreateFragment`. -/
structure CreateFragmentInput where
  Content : String
deriving DecidableEq, Repr

/-- Identifier assigned by an AUTOINCREMENT primary key: one more than the largest of the
last identifier handed out and the identifiers present in the table. -/
def nextID (seq : Nat) (ids : List Nat) : Nat := max seq (ids.foldr max 0) + 1

/-- The function `FragmentUsecase.CreateFragment`: one `db.Create`; `now` is the clock
reading GORM stores in `created_at`. -/
def CreateFragment (input : CreateFragmentInput) (now : Nat) (s : Store) (fs : Faults) :
    Except String Fragment × Store × Faults :=
  let fragment : Fragment :=
    { ID := nextID s.fragmentSeq (s.fragments.map Fragment.ID), CreatedAt := now,
      Deleted := false, Content := input.Content }
  if stmtFails fs then (.error "create failed", s, fs.tail)
  else (.ok fragment,
        { s with fragments := s.fragments ++ [fragment], fragmentSeq := fragment.ID }, fs.tail)

/-- The function `FragmentUsecase.GetAllFragments`: the live fragments ordered by
`created_at DESC` (rows of equal creation time keep their table order). -/
def GetAllFragments (s : Store) (fs : Faults) : Except String (List Fragment) × Faults :=
  if stmtFails fs then (.error "query failed", fs.tail)
  else (.ok ((liveFragments s).insertionSort fun a b => b.CreatedAt ≤ a.CreatedAt), fs.tail)

/-- The function `CompressFragments`; `ai` stands for `analyzeFragmentsWithAI`. -/
def CompressFragments (ai : List Fragment → Except String compressionResponse)
    (s : Store) (fs : Faults) : Option (Option String × RunState) :=
  match GetAllFragments s fs with
  | (.error e, fs1) => some (some ("failed to get fragments: " ++ e), ⟨s, fs1, []⟩)
  | (.ok fragments, fs1) =>
    if fragments.length < 2 then some (none, ⟨s, fs1, []⟩)
    else
      match ai fragments with
      | .error e => some (some e, ⟨s, fs1, []⟩)
      | .ok response => executeCompressionActions response s fs1

/-! ## Document use case (`src/src/usecase/document.go`) -/

/-- Input of `CreateDocument`. -/
structure CreateDocumentInput where
  Title : String
  Summary : String
  Content : String
  VersionCreatedAt : Nat
  FragmentIDs : List Nat
  TagIDs : List Nat
deriving DecidableEq, Repr

/-- Rows of a link table after `Association(..).Append` of the rows with the given
identifiers to document `doc`: one row per pair, an existing pair is left alone. -/
def insertLinks (doc : Nat) (ids : List Nat) (links : List (Nat × Nat)) : List (Nat × Nat) :=
  ids.foldl (fun acc id => if (doc, id) ∈ acc then acc else acc ++ [(doc, id)]) links

/-- The block `if len(input.FragmentIDs) > 0` of `CreateDocument`: `tx.Find` of the live
fragments among the ids, then `Append` of the rows found. -/
def linkFragments (doc : Nat) (ids : List Nat) (s : Store) (fs : Faults) :
    Except String Store × Faults :=
  if ids.length > 0 then
    if stmtFails fs then (.error "find fragments failed", fs.tail)
    else
      let fragments := s.fragments.filter fun f => f.live && decide (f.ID ∈ ids)
      if stmtFails fs.tail then (.error "append fragments failed", fs.tail.tail)
      else
        (.ok { s with document_fragments :=
                insertLinks doc (fragments.map Fragment.ID) s.document_fragments },
          fs.tail.tail)
  else (.ok s, fs)

/-- The block `if len(input.TagIDs) > 0` of `CreateDocument`. -/
def linkTags (doc : Nat) (ids : List Nat) (s : Store) (fs : Faults) :
    Except String Store × Faults :=
  if ids.length > 0 then
    if stmtFails fs then (.error "find tags failed", fs.tail)
    else
      let tags := s.tags.filter fun t => !t.Deleted && decide (t.ID ∈ ids)
      if stmtFails fs.tail then (.error "append tags failed", fs.tail.tail)
      else
        (.ok { s with document_tags := insertLinks doc (tags.map Tag.ID) s.document_tags },
          fs.tail.tail)
  else (.ok s, fs)

/-- Body of the transaction of `CreateDocument`; `now` is the clock reading GORM stores in
`created_at`. -/
def createDocumentBody (input : CreateDocumentInput) (now : Nat) (s : Store) (fs : Faults) :
    Except String (Document × Store) × Faults :=
  let document : Document :=
    { ID := nextID s.documentSeq (s.documents.map Document.ID), CreatedAt := now,
      Deleted := false, Title := input.Title, Summary := input.Summary,
      Content := input.Content, VersionCreatedAt := input.VersionCreatedAt }
  if stmtFails fs then (.error "create document failed", fs.tail)
  else
    let s1 := { s with documents := s.documents ++ [document], documentSeq := document.ID }
    match linkFragments document.ID input.FragmentIDs s1 fs.tail with
    | (.error e, fs2) => (.error e, fs2)
    | (.ok s2, fs2) =>
      match linkTags document.ID input.TagIDs s2 fs2 with
      | (.error e, fs3) => (.error e, fs3)
      | (.ok s3, fs3) => (.ok (document, s3), fs3)

/-- The function `DocumentUsecase.CreateDocument`. -/
def CreateDocument (input : CreateDocumentInput) (now : Nat) (s : Store) (fs : Faults) :
    Except String Document × Store × Faults :=
  transaction (createDocumentBody input now) s fs

/-! ## Document generator (`src/src/ai/document_generator.go`) -/

/-- Element of `DocumentsResponse.Documents`. -/
structure DocumentRequest where
  Title : String
  Summary : String
  Content : String
  FragmentIDs : List Int
  Tags : List String
deriving DecidableEq, Repr

/-- Decoded answer of the AI collaborator to the synthesis request. -/
structure DocumentsResponse where
  Documents : List DocumentRequest
  Analysis : String
deriving DecidableEq, Repr

/-- Wrap around of Go `int` arithmetic on a 64 bit platform. -/
def wrapInt64 (x : Int) : Int := (x + 2 ^ 63) % 2 ^ 64 - 2 ^ 63

/-- The palette of `generateTagColor`. -/
def colors : List String := ["#3B82F6", "#EF4444", "#10B981", "#F59E0B", "#8B5CF6", "#EC4899"]

/-- The hash loop of `generateTagColor`: `hash = int(char) + ((hash << 5) - hash)` over the
code points of the name. -/
def tagHash (tagName : String) : Int :=
  tagName.data.foldl
    (fun hash char => wrapInt64 ((char.toNat : Int) + wrapInt64 (wrapInt64 (hash * 32) - hash))) 0

/-- The hue `(hash%360 + 360) % 360` of `generateTagColor` (Go `%` truncates). -/
def tagHue (tagName : String) : Int := Int.tmod (Int.tmod (tagHash tagName) 360 + 360) 360

/-- The function `generateTagColor`; `none` is the run time panic of an index out of
range. -/
def generateTagColor (tagName : String) : Option String :=
  let idx := Int.tmod (tagHue tagName) (colors.length : Int)
  if idx < 0 then none else colors[idx.toNat]?

/-- The loop of `createOrGetTags` with the slice `tagIDs` built so far.  `none` is a run
time panic.  A lookup that returns any error is followed by `Create`, which is refused
when the driver fails or when a row of that name exists (unique index on `name`). -/
def createOrGetTagsLoop (now : Nat) :
    List String → List Nat → Store → Faults → Option (Except String (List Nat) × Store × Faults)
  | [], tagIDs, s, fs => some (.ok tagIDs, s, fs)
  | tagName :: rest, tagIDs, s, fs =>
    if tagName = "" then createOrGetTagsLoop now rest tagIDs s fs
    else
      match (if stmtFails fs then none
             else s.tags.find? fun t => !t.Deleted && t.Name == tagName) with
      | some tag => createOrGetTagsLoop now rest (tagIDs ++ [tag.ID]) s fs.tail
      | none =>
        match generateTagColor tagName with
        | none => none
        | some color =>
          let newTag : Tag :=
            { ID := nextID s.tagSeq (s.tags.map Tag.ID), CreatedAt := now, Deleted := false,
              Name := tagName, Color := color }
          if stmtFails fs.tail ∨ (s.tags.any fun t => t.Name == tagName) = true then
            some (.error ("failed to create tag " ++ tagName), s, fs.tail.tail)
          else
            createOrGetTagsLoop now rest (tagIDs ++ [newTag.ID])
              { s with tags := s.tags ++ [newTag], tagSeq := newTag.ID } fs.tail.tail

/-- The function `createOrGetTags`. -/
def createOrGetTags (now : Nat) (tagNames : List String) (s : Store) (fs : Faults) :
    Option (Except String (List Nat) × Store × Faults) :=
  createOrGetTagsLoop now tagNames [] s fs

/-- Lines printed by `GenerateDocuments` and `createDocumentsFromResponse`; `aiRequest`
records the fragment list handed to `generateDocumentsWithAI`. -/
inductive GenLine where
  | aiRequest (fragments : List Fragment)
  | creating (n : Nat) (title : String) (tags : List String)
  | tagsFailed (title : String) (err : String)
  | createFailed (title : String) (err : String)
  | created (doc : Document) (fragments : Nat) (tags : Nat)
  | completed
deriving DecidableEq, Repr

/-- State threaded through the loop of `createDocumentsFromResponse`. -/
structure GenState where
  store : Store
  faults : Faults
  log : List GenLine
deriving DecidableEq, Repr

/-- One iteration of the loop of `createDocumentsFromResponse` on candidate number `i`
(counted from zero); `versionCreatedAt` is the value read before the loop, `now` the clock
reading GORM takes for the rows created in this iteration. -/
def createCandidate (versionCreatedAt : Nat) (now : Nat) (i : Nat) (docReq : DocumentRequest)
    (st : GenState) : Option GenState :=
  let log1 := st.log ++ [GenLine.creating (i + 1) docReq.Title docReq.Tags]
  let fragmentIDs := docReq.FragmentIDs.map toUint
  match createOrGetTags now docReq.Tags st.store st.faults with
  | none => none
  | some (.error e, s1, fs1) => some ⟨s1, fs1, log1 ++ [GenLine.tagsFailed docReq.Title e]⟩
  | some (.ok tagIDs, s1, fs1) =>
    let input : CreateDocumentInput :=
      { Title := docReq.Title, Summary := docReq.Summary, Content := docReq.Content,
        VersionCreatedAt := versionCreatedAt, FragmentIDs := fragmentIDs, TagIDs := tagIDs }
    match CreateDocument input now s1 fs1 with
    | (.error e, s2, fs2) => some ⟨s2, fs2, log1 ++ [GenLine.createFailed docReq.Title e]⟩
    | (.ok document, s2, fs2) =>
      some ⟨s2, fs2, log1 ++ [GenLine.created document fragmentIDs.length tagIDs.length]⟩

/-- The loop `for i, docReq := range documentsResponse.Documents` from index `i` on;
`clock k` is the clock reading during iteration `k`. -/
def documentsLoop (versionCreatedAt : Nat) (clock : Nat → Nat) :
    Nat → List DocumentRequest → GenState → Option GenState
  | _, [], st => some st
  | i, d :: rest, st =>
    match createCandidate versionCreatedAt (clock i) i d st with
    | none => none
    | some st1 => documentsLoop versionCreatedAt clock (i + 1) rest st1

/-- The function `createDocumentsFromResponse`; `versionCreatedAt` is the result of the one
call `time.Now()` before the loop.  The returned error is always `nil`. -/
def createDocumentsFromResponse (documentsResponse : DocumentsResponse)
    (versionCreatedAt : Nat) (clock : Nat → Nat) (s : Store) (fs : Faults) :
    Option (Option String × GenState) :=
  match documentsLoop versionCreatedAt clock 0 documentsResponse.Documents ⟨s, fs, []⟩ with
  | none => none
  | some st => some (none, { st with log := st.log ++ [GenLine.completed] })

/-- One step `j` of the inner ordering loop of `GenerateDocuments` for outer index `i`:
`if fragments[i].ID > fragments[j].ID then swap`. -/
def sortInner (i : Nat) (l : List Fragment) (j : Nat) : List Fragment :=
  match l[i]?, l[j]? with
  | some x, some y => if x.ID > y.ID then (l.set i y).set j x else l
  | _, _ => l

/-- The ordering loop of `GenerateDocuments` (lines 70 to 76): for every `i` from 0 and
every `j` from `i + 1`, below `len(fragments)`. -/
def sortFragmentsByID (fragments : List Fragment) : List Fragment :=
  (List.range fragments.length).foldl
    (fun l i => (List.range' (i + 1) (l.length - (i + 1))).foldl (sortInner i) l) fragments

/-- The function `GenerateDocuments`; `ai` stands for `generateDocumentsWithAI`. -/
def GenerateDocuments (ai : List Fragment → Except String DocumentsResponse)
    (versionCreatedAt : Nat) (clock : Nat → Nat) (s : Store) (fs : Faults) :
    Option (Option String × GenState) :=
  match GetAllFragments s fs with
  | (.error e, fs1) => some (some ("failed to get fragments: " ++ e), ⟨s, fs1, []⟩)
  | (.ok fragments, fs1) =>
    if fragments.length = 0 then some (none, ⟨s, fs1, []⟩)
    else
      let sorted := sortFragmentsByID fragments
      match ai sorted with
      | .error e => some (some e, ⟨s, fs1, [GenLine.aiRequest sorted]⟩)
      | .ok response =>
        match createDocumentsFromResponse response versionCreatedAt clock s fs1 with
        | none => none
        | some (err, st) => some (err, { st with log := GenLine.aiRequest sorted :: st.log })

/-! ## Example data -/

/-- A fragment table row that is live. -/
def mkFragment (id : Nat) (content : String) : Fragment :=
  { ID := id, CreatedAt := id, Deleted := false, Content := content }

/-- A store holding only the given fragments. -/
def fragmentStore (rows : List Fragment) : Store :=
  { fragments := rows, documents := [], tags := [], document_fragments := [],
    document_tags := [], fragmentSeq := rows.length, documentSeq := 0, tagSeq := 0 }

/-- Two fragments, ids 1 and 2. -/
def store2 : Store := fragmentStore [mkFragment 1 "alpha", mkFragment 2 "beta"]

/-- Four fragments, ids 1 to 4. -/
def store4 : Store :=
  fragmentStore [mkFragment 1 "alpha", mkFragment 2 "beta", mkFragment 3 "gamma",
    mkFragment 4 "delta"]

/-! ## Auxiliary definitions and lemmas for the compressor -/

/-- Identifiers of the live fragments, in table order. -/
def liveIDs (s : Store) : List Nat := (liveFragments s).map Fragment.ID

/-- Rows after the deletions of a whole id list (the effect of a fault free `deleteLoop`). -/
def deleteAll (ids : List Int) (rows : List Fragment) : List Fragment :=
  ids.foldl (fun r id => softDelete id r) rows

/-- Fragment ids that an action removes when it is executed: all ids of a `delete`, the ids
after the first one of a `merge` of at least two ids, nothing for any other action. -/
def Action.targets (a : Action) : List Int :=
  if a.Type_ = "merge" ∧ a.FragmentIDs.length > 1 then a.FragmentIDs.tail
  else if a.Type_ = "delete" ∧ a.FragmentIDs.length > 0 then a.FragmentIDs
  else []

/-- Removal total that the specification attributes to the actions reported as applied:
every id of a reported `delete`, all but one id of a reported `merge`. -/
def appliedRemovals : List LogLine → Nat
  | [] => 0
  | LogLine.merged ids :: rest => (ids.length - 1) + appliedRemovals rest
  | LogLine.deleted ids :: rest => ids.length + appliedRemovals rest
  | _ :: rest => appliedRemovals rest

/-- Effect of a successful merge on one fragment row: the content update of the row
identified by `k`, then the soft deletion of the rows named in `rest`. -/
def mergeRow (k : Nat) (rest : List Int) (c : String) (f : Fragment) : Fragment :=
  let f1 := if f.live ∧ f.ID = k then { f with Content := c } else f
  if f1.live ∧ (f1.ID : Int) ∈ rest then { f1 with Deleted := true } else f1

/-- Actions announced in a log (the `Action n: ...` lines), in order. -/
def headersOf : List LogLine → List Action
  | [] => []
  | LogLine.actionHeader _ a :: rest => a :: headersOf rest
  | _ :: rest => headersOf rest

/-- Whether the last line of a log reports a failed merge or a failed delete. -/
def endsInFailure (log : List LogLine) : Bool :=
  match log.getLast? with
  | some (LogLine.mergeFailed _ _) => true
  | some (LogLine.deleteFailed _ _) => true
  | _ => false

/-- Whether the last line of a log reports a merge that was applied. -/
def endsInMerged (log : List LogLine) : Bool :=
  match log.getLast? with
  | some (LogLine.merged _) => true
  | _ => false

/-- The property claimed of an applied merge action: of the ids it names exactly the first
one identifies a live fragment of store `s`, and that fragment holds the new content. -/
def mergeRetainsFirst (a : Action) (s : Store) : Prop :=
  (∀ id ∈ a.FragmentIDs, isLiveID s id = true ↔ some id = a.FragmentIDs.head?) ∧
  (∀ f ∈ liveFragments s, some (f.ID : Int) = a.FragmentIDs.head? → f.Content = a.NewContent)

instance (a : Action) (s : Store) : Decidable (mergeRetainsFirst a s) := by
  unfold mergeRetainsFirst; infer_instance

/-- Answer of the collaborator proposing two single deletions. -/
def twoDeletions : compressionResponse :=
  ⟨[⟨"delete", [1], "", "noise"⟩, ⟨"delete", [2], "", "noise"⟩], "two deletions"⟩

/-- A merge action whose first id identifies no fragment of `store2`. -/
def danglingMerge : Action := ⟨"merge", [3, 2], "combined", "similar"⟩

/-- The store `store2` after `danglingMerge`: fragment 2 is soft deleted, nothing else
changed. -/
def store2AfterDanglingMerge : Store :=
  { store2 with fragments := [mkFragment 1 "alpha", { mkFragment 2 "beta" with Deleted := true }] }

/-- The store `store2` after merging fragments 1 and 2 into "combined". -/
def store2Merged : Store :=
  { store2 with
    fragments := [mkFragment 1 "combined", { mkFragment 2 "beta" with Deleted := true }] }

/-- Three actions on `store4`: a deletion, a merge, a deletion. -/
def threeActions : compressionResponse :=
  ⟨[⟨"delete", [1], "", "noise"⟩, ⟨"merge", [2, 3], "merged", "similar"⟩,
    ⟨"delete", [4], "", "noise"⟩], "three actions"⟩

/-- A fault schedule under which the content update of the second action of `threeActions`
is refused and every other statement succeeds. -/
def faultInSecondAction : Faults := [false, false, false, false, true]

/-- Identifier of the fragment at position `p` of a list (0 past the end). -/
def idAt (l : List Fragment) (p : Nat) : Nat :=
  match l[p]? with
  | some f => f.ID
  | none => 0

/-- Loop invariant of the ordering loop: every position before `i` holds an identifier that
is at most the identifier at every later position. -/
def settledBefore (i : Nat) (l : List Fragment) : Prop :=
  ∀ p q, p < i → p < q → q < l.length → idAt l p ≤ idAt l q

/-- Documents reported as created in a log of `createDocumentsFromResponse`, in order. -/
def createdOf : List GenLine → List Document
  | [] => []
  | GenLine.created doc _ _ :: rest => doc :: createdOf rest
  | _ :: rest => createdOf rest

/-- Whether a fragment occurs in some row of the link table `document_fragments`. -/
def isLinked (s : Store) (f : Fragment) : Bool :=
  s.document_fragments.any fun p => p.2 == f.ID

/-- A store with one document that is linked to the only fragment. -/
def linkedStore : Store :=
  { fragments := [mkFragment 1 "A simple text fragment."],
    documents := [{ ID := 1, CreatedAt := 5, Deleted := false, Title := "Notes",
                    Summary := "A note.", Content := "# Notes", VersionCreatedAt := 5 }],
    tags := [], document_fragments := [(1, 1)], document_tags := [],
    fragmentSeq := 1, documentSeq := 1, tagSeq := 0 }

/-- A collaborator that answers every synthesis request with no candidate. -/
def silentAI : List Fragment → Except String DocumentsResponse :=
  fun _ => .ok ⟨[], "nothing to add"⟩

/-- Two candidates without fragments and tags. -/
def twoCandidates : DocumentsResponse :=
  ⟨[⟨"First", "One.", "# First", [], []⟩, ⟨"Second", "Two.", "# Second", [], []⟩], "two"⟩

/-- The row that `CreateDocument` inserts for an input in a given store. -/
def newDocument (input : CreateDocumentInput) (now : Nat) (s : Store) : Document :=
  { ID := nextID s.documentSeq (s.documents.map Document.ID), CreatedAt := now,
    Deleted := false, Title := input.Title, Summary := input.Summary,
    Content := input.Content, VersionCreatedAt := input.VersionCreatedAt }

/-- The store after a `CreateDocument` in which no statement fails. -/
def storeWithDocument (input : CreateDocumentInput) (now : Nat) (s : Store) : Store :=
  { s with
    documents := s.documents ++ [newDocument input now s],
    documentSeq := (newDocument input now s).ID,
    document_fragments :=
      insertLinks (newDocument input now s).ID
        ((s.fragments.filter fun f => f.live && decide (f.ID ∈ input.FragmentIDs)).map
          Fragment.ID) s.document_fragments,
    document_tags :=
      insertLinks (newDocument input now s).ID
        ((s.tags.filter fun t => !t.Deleted && decide (t.ID ∈ input.TagIDs)).map Tag.ID)
        s.document_tags }

/-- A store holding the single fragment of the end to end scenario. -/
def noteStore : Store := fragmentStore [mkFragment 1 "A simple text fragment."]

/-- The candidate of the end to end scenario: fragment 1, tag "notes". -/
def noteCandidate : DocumentRequest :=
  ⟨"Notes", "A note.", "# Notes", [1], ["notes"]⟩

/-! ## Auxiliary definitions for the partial success policy of synthesis -/

/-- Referential integrity of `document_fragments`: every row names the id of a row of the
document table. -/
def linkRefsOk (s : Store) : Prop :=
  ∀ p ∈ s.document_fragments, p.1 ∈ s.documents.map Document.ID

instance (s : Store) : Decidable (linkRefsOk s) := by
  unfold linkRefsOk; infer_instance

/-- Whether the last line of a log reports a candidate that was skipped (failed tag
resolution or failed document creation). -/
def endsInSkipped (log : List GenLine) : Bool :=
  match log.getLast? with
  | some (GenLine.tagsFailed _ _) => true
  | some (GenLine.createFailed _ _) => true
  | _ => false

/-- Candidates announced in a log (the `Creating document n: ...` lines): title and tag
names, in order. -/
def announcedOf : List GenLine → List (String × List String)
  | [] => []
  | GenLine.creating _ title tags :: rest => (title, tags) :: announcedOf rest
  | _ :: rest => announcedOf rest

/-- An input of `CreateDocument` that references the fragments 1 and 2 of `store2` and the
ids 7 and 99, which identify no fragment. -/
def mixedInput : CreateDocumentInput :=
  { Title := "Mixed", Summary := "Some ids do not resolve.", Content := "# Mixed",
    VersionCreatedAt := 100, FragmentIDs := [7, 2, 99, 1], TagIDs := [] }

/-- Two candidates with one tag each. -/
def taggedCandidates : DocumentsResponse :=
  ⟨[⟨"First", "One.", "# First", [], ["x"]⟩, ⟨"Second", "Two.", "# Second", [], ["y"]⟩], "two"⟩

/-- The second candidate of `taggedCandidates` alone. -/
def secondCandidateOnly : DocumentsResponse :=
  ⟨[⟨"Second", "Two.", "# Second", [], ["y"]⟩], "one"⟩

/-- A fault schedule under which the tag of the first candidate of `taggedCandidates` is
looked up and created, the transaction of its `CreateDocument` cannot begin, and every
later statement succeeds. -/
def faultInFirstDocument : Faults := [false, false, true]

/-! ## Question answering (`src/src/ai/qa_service.go`)

A Go `string` is a sequence of bytes, `len` counts bytes and slicing cuts bytes; the
contexts built for the AI collaborator are therefore modelled as byte lists.  The iteration
order of a Go map is unspecified: `buildGlobalContext` takes the order in which
`range tagCounts` visits the entries as a parameter. -/

/-- A Go string, as its bytes. -/
abbrev GoString := List UInt8

/-- The bytes (UTF-8) of a text. -/
def gs (s : String) : GoString := s.data.flatMap String.utf8EncodeChar

/-- A `models.Document` with the associations loaded by
`Preload("Fragments").Preload("Tags")`. -/
structure LoadedDocument where
  row : Document
  Fragments : List Fragment
  Tags : List Tag
deriving DecidableEq, Repr

/-- The associations of a document row: the live fragments and the live tags linked to it,
in table order. -/
def preload (s : Store) (d : Document) : LoadedDocument :=
  { row := d,
    Fragments := s.fragments.filter fun f => f.live && decide ((d.ID, f.ID) ∈ s.document_fragments),
    Tags := s.tags.filter fun t => !t.Deleted && decide ((d.ID, t.ID) ∈ s.document_tags) }

/-- The request `QARequest`. -/
structure QARequest where
  DocumentID : Nat
  Question : String
  UseWebSearch : Bool
deriving DecidableEq, Repr

/-- The request `GlobalQARequest`. -/
structure GlobalQARequest where
  Question : String
  UseWebSearch : Bool
deriving DecidableEq, Repr

/-- The response `QAResponse`. -/
structure QAResponse where
  Answer : String
  Sources : List String
  WebSearch : Bool
deriving DecidableEq, Repr

/-- One call of `generateAnswer`, with its arguments. -/
structure AICall where
  question : String
  documentContext : GoString
  webContext : GoString
  useWebSearch : Bool
deriving DecidableEq, Repr

/-- Outcome of `AskQuestion` and `AskGlobalQuestion`: the returned response or error, the
calls of `generateAnswer` made on the way, and the remaining fault schedule. -/
structure QARun where
  response : Except String QAResponse
  calls : List AICall
  faults : Faults

/-- The loop `for i, fragment := range document.Fragments` of `buildContext`. -/
def fragmentLinesLoop : Nat → List Fragment → GoString → GoString
  | _, [], context => context
  | i, fragment :: rest, context =>
    fragmentLinesLoop (i + 1) rest
      (context ++ gs "Fragment " ++ gs (toString (i + 1)) ++ gs ": " ++ gs fragment.Content ++
        gs "\n")

/-- The function `buildContext`. -/
def buildContext (document : LoadedDocument) : GoString :=
  let context := gs "=== Document Information ===\nTitle: " ++ gs document.row.Title ++
    gs "\nSummary: " ++ gs document.row.Summary ++ gs "\n\n=== Content ===\n" ++
    gs document.row.Content ++ gs "\n\n=== Related Fragments ===\n"
  let context := fragmentLinesLoop 0 document.Fragments context
  if document.Tags.length > 0 then
    document.Tags.foldl (fun context tag => context ++ gs "- " ++ gs tag.Name ++ gs "\n")
      (context ++ gs "\n=== Tags ===\n")
  else context

/-- The function `AskQuestion`; `generateAnswer` stands for the method of that name, the
boundary to the AI collaborator. -/
def AskQuestion (generateAnswer : String → GoString → GoString → Bool → Except String String)
    (req : QARequest) (s : Store) (fs : Faults) : QARun :=
  if stmtFails fs then ⟨.error "failed to find document: query failed", [], fs.tail⟩
  else
    match s.documents.find? fun d => !d.Deleted && d.ID == req.DocumentID with
    | none => ⟨.error "failed to find document: record not found", [], fs.tail⟩
    | some row =>
      let document := preload s row
      let context := buildContext document
      let call : AICall := ⟨req.Question, context, [], req.UseWebSearch⟩
      match generateAnswer req.Question context [] req.UseWebSearch with
      | .error e => ⟨.error ("failed to generate answer: " ++ e), [call], fs.tail⟩
      | .ok response =>
        ⟨.ok { Answer := response,
               Sources := ["Document: " ++ document.row.Title] ++
                 (if req.UseWebSearch then ["Web search results (when available)"] else []),
               WebSearch := req.UseWebSearch }, [call], fs.tail⟩

/-- The loop `for j, tag := range document.Tags` of `buildGlobalContext`. -/
def tagNamesLoop : Nat → List Tag → GoString → GoString
  | _, [], context => context
  | j, tag :: rest, context =>
    tagNamesLoop (j + 1) rest ((if j > 0 then context ++ gs ", " else context) ++ gs tag.Name)

/-- Lines 271 to 274 of `buildGlobalContext`: `if len(content) > 500` the content is cut
to `content[:500] + "..."`. -/
def truncateContent (content : GoString) : GoString :=
  if content.length > 500 then content.take 500 ++ gs "..." else content

/-- The body of the detail loop of `buildGlobalContext` after the `maxDocs` test (lines 255
to 275): what one document appends to the context. -/
def appendDocument (context : GoString) (i : Nat) (document : LoadedDocument) : GoString :=
  let context := context ++ gs "=== Document " ++ gs (toString (i + 1)) ++ gs ": " ++
    gs document.row.Title ++ gs " ===\n"
  let context := context ++ gs "Summary: " ++ gs document.row.Summary ++ gs "\n"
  let context :=
    if document.Tags.length > 0 then
      tagNamesLoop 0 document.Tags (context ++ gs "Tags: ") ++ gs "\n"
    else context
  let content := truncateContent (gs document.row.Content)
  context ++ gs "Content: " ++ content ++ gs "\n\n"

/-- The detail loop of `buildGlobalContext` from index `i` on; `n` is `len(documents)`. -/
def detailLoop (n : Nat) : Nat → List LoadedDocument → GoString → GoString
  | _, [], context => context
  | i, document :: rest, context =>
    if i ≥ 10 then
      context ++ gs "... and " ++ gs (toString ((n : Int) - 10)) ++ gs " more documents\n"
    else detailLoop n (i + 1) rest (appendDocument context i document)

/-- The statement `tagCounts[tag.Name]++` on a map held as an association list. -/
def incrCount : List (String × Nat) → String → List (String × Nat)
  | [], k => [(k, 1)]
  | (k1, c) :: rest, k => if k1 = k then (k1, c + 1) :: rest else (k1, c) :: incrCount rest k

/-- The map `tagCounts` of `buildGlobalContext` after the counting loops. -/
def tagCounts (documents : List LoadedDocument) : List (String × Nat) :=
  documents.foldl
    (fun m document => document.Tags.foldl (fun m tag => incrCount m tag.Name) m) []

/-- The function `buildGlobalContext`; `mapOrder` gives the order in which
`range tagCounts` visits the entries of the map. -/
def buildGlobalContext (mapOrder : List (String × Nat) → List (String × Nat))
    (documents : List LoadedDocument) : GoString :=
  let context := gs "=== Latest Version Document Collection ===\nDocuments in latest version: " ++
    gs (toString documents.length) ++ gs "\n\n"
  let context := detailLoop documents.length 0 documents context
  let counts := tagCounts documents
  if counts.length > 0 then
    (mapOrder counts).foldl
        (fun context entry =>
          context ++ gs "- " ++ gs entry.1 ++ gs " (" ++ gs (toString entry.2) ++
            gs " documents)\n")
        (context ++ gs "=== Available Tags ===\n") ++ gs "\n"
  else context

/-- The order of sqlite on two texts (collation BINARY): the bytes are compared from the
left, and a text is less than every proper extension of it. -/
def bytesLess : GoString → GoString → Bool
  | [], [] => false
  | [], _ :: _ => true
  | _ :: _, [] => false
  | a :: as, b :: bs =>
    if a.toNat < b.toNat then true else if b.toNat < a.toNat then false else bytesLess as bs

/-- Whether text `a` comes before text `b` in an `ORDER BY` of sqlite. -/
def textLess (a b : String) : Bool := bytesLess (gs a) (gs b)

/-- The value scanned by the query `Select("version_created_at").Order("version_created_at
DESC").Limit(1)`.  The column holds the text that the sqlite driver writes for a time value
(`timeText`: the format `2006-01-02 15:04:05.999999999-07:00`, with the zone offset of the
value), and the database orders these texts as texts, not as instants.  The result is the
version timestamp of the live document whose text is the largest (of the first such row
when several rows hold that text), the zero time (0) when there is no live document. -/
def latestVersionOf (timeText : Nat → String) (s : Store) : Nat :=
  match (s.documents.filter fun d => !d.Deleted).map Document.VersionCreatedAt with
  | [] => 0
  | v :: rest =>
    rest.foldl (fun best w => if textLess (timeText best) (timeText w) then w else best) v

/-- The function `AskGlobalQuestion`; `timeText` is the text that the sqlite driver writes
for the time value of a clock reading.  The second query, `Where("version_created_at = ?",
latestVersion)`, selects the rows whose stored text is the text of the scanned value. -/
def AskGlobalQuestion
    (generateAnswer : String → GoString → GoString → Bool → Except String String)
    (mapOrder : List (String × Nat) → List (String × Nat)) (timeText : Nat → String)
    (req : GlobalQARequest) (s : Store) (fs : Faults) : QARun :=
  if stmtFails fs then ⟨.error "failed to get latest version: query failed", [], fs.tail⟩
  else
    let latestVersion := latestVersionOf timeText s
    if latestVersion = 0 then
      ⟨.ok { Answer := "現在、ドキュメントが存在しません。", Sources := ["No documents found"],
             WebSearch := req.UseWebSearch }, [], fs.tail⟩
    else if stmtFails fs.tail then
      ⟨.error "failed to find documents: query failed", [], fs.tail.tail⟩
    else
      let documents :=
        (s.documents.filter fun d =>
          !d.Deleted && timeText d.VersionCreatedAt == timeText latestVersion).map (preload s)
      if documents.length = 0 then
        ⟨.ok { Answer := "現在、最新バージョンにドキュメントが存在しません。",
               Sources := ["No documents found in latest version"],
               WebSearch := req.UseWebSearch }, [], fs.tail.tail⟩
      else
        let context := buildGlobalContext mapOrder documents
        let call : AICall := ⟨req.Question, context, [], req.UseWebSearch⟩
        match generateAnswer req.Question context [] req.UseWebSearch with
        | .error e => ⟨.error ("failed to generate answer: " ++ e), [call], fs.tail.tail⟩
        | .ok response =>
          ⟨.ok { Answer := response,
                 Sources := ["Latest version documents (" ++ toString documents.length ++
                     " total)"] ++
                   (if req.UseWebSearch then ["Web search results (when available)"] else []),
                 WebSearch := req.UseWebSearch }, [call], fs.tail.tail⟩

/-! ## Auxiliary definitions for question answering -/

/-- Live rows of the document table. -/
def liveDocuments (s : Store) : List Document := s.documents.filter fun d => !d.Deleted

/-- A store with three live documents of two version batches (5 and 9) and one soft deleted
document of a later batch. -/
def versionedStore : Store :=
  { fragments := [],
    documents :=
      [{ ID := 1, CreatedAt := 5, Deleted := false, Title := "Old", Summary := "Old batch.",
         Content := "# Old", VersionCreatedAt := 5 },
       { ID := 2, CreatedAt := 9, Deleted := false, Title := "New A", Summary := "New batch.",
         Content := "# New A", VersionCreatedAt := 9 },
       { ID := 3, CreatedAt := 9, Deleted := false, Title := "New B", Summary := "New batch.",
         Content := "# New B", VersionCreatedAt := 9 },
       { ID := 4, CreatedAt := 12, Deleted := true, Title := "Gone", Summary := "Deleted.",
         Content := "# Gone", VersionCreatedAt := 12 }],
    tags := [], document_fragments := [], document_tags := [],
    fragmentSeq := 0, documentSeq := 4, tagSeq := 0 }

/-- The texts of two time values taken in New York around the end of daylight saving time:
reading 11 is 2025-11-02 05:30:00 UTC, written with the offset -04:00 then in force;
reading 12 is 2025-11-02 06:10:00 UTC, forty minutes later, written with the offset -05:00.
Every other reading is given the text of the zero time. -/
def autumnText (reading : Nat) : String :=
  if reading = 11 then "2025-11-02 01:30:00-04:00"
  else if reading = 12 then "2025-11-02 01:10:00-05:00"
  else "0001-01-01 00:00:00+00:00"

/-- Two version batches of one live document each: document 1 of the batch with reading 11,
document 2 of the later batch with reading 12. -/
def autumnStore : Store :=
  { fragments := [],
    documents :=
      [{ ID := 1, CreatedAt := 11, Deleted := false, Title := "Before",
         Summary := "Older batch.", Content := "# Before", VersionCreatedAt := 11 },
       { ID := 2, CreatedAt := 12, Deleted := false, Title := "After",
         Summary := "Newer batch.", Content := "# After", VersionCreatedAt := 12 }],
    tags := [], document_fragments := [], document_tags := [],
    fragmentSeq := 0, documentSeq := 2, tagSeq := 0 }

/-- A collaborator that answers every question with the same text. -/
def fixedAnswer : String → GoString → GoString → Bool → Except String String :=
  fun _ _ _ _ => .ok "answer"

/-- Specification side: the heading of the global context for `n` documents. -/
def collectionHeader (n : Nat) : GoString :=
  gs "=== Latest Version Document Collection ===\nDocuments in latest version: " ++
    gs (toString n) ++ gs "\n\n"

/-- Specification side: the detailed section of the document with number `i` (counted from
one): the line `=== Document i: <title> ===`, the summary, the tag names separated by
", " when there are tags, and the content within its budget. -/
def detailedSection (i : Nat) (d : LoadedDocument) : GoString :=
  gs "=== Document " ++ gs (toString i) ++ gs ": " ++ gs d.row.Title ++ gs " ===\n" ++
    gs "Summary: " ++ gs d.row.Summary ++ gs "\n" ++
    (if d.Tags = [] then []
     else gs "Tags: " ++ List.intercalate (gs ", ") (d.Tags.map fun t => gs t.Name) ++ gs "\n") ++
    gs "Content: " ++ truncateContent (gs d.row.Content) ++ gs "\n\n"

/-- Specification side: the note that stands for the documents after the tenth. -/
def moreDocumentsNote (n : Nat) : GoString :=
  gs "... and " ++ gs (toString (n - 10)) ++ gs " more documents\n"

/-- Specification side: the detailed sections of the first ten documents, numbered from
one in list order, followed by the note when there are more than ten documents. -/
def cappedDetail (docs : List LoadedDocument) : GoString :=
  ((docs.take 10).enumFrom 1).flatMap (fun p => detailedSection p.1 p.2) ++
    (if docs.length > 10 then moreDocumentsNote docs.length else [])

/-- Specification side: one line of the section "Available Tags". -/
def tagLine (e : String × Nat) : GoString :=
  gs "- " ++ gs e.1 ++ gs " (" ++ gs (toString e.2) ++ gs " documents)\n"

/-- Specification side: the section "Available Tags": one line per entry of the map in the
order the map yields them; nothing when the map is empty. -/
def tagStatistics (mapOrder : List (String × Nat) → List (String × Nat))
    (docs : List LoadedDocument) : GoString :=
  if tagCounts docs = [] then []
  else gs "=== Available Tags ===\n" ++ (mapOrder (tagCounts docs)).flatMap tagLine ++ gs "\n"

/-- Specification side: the number of tag entries named `t` over all documents of a list. -/
def tagOccurrences (t : String) (docs : List LoadedDocument) : Nat :=
  (docs.flatMap fun d => d.Tags.map Tag.Name).count t

/-- The count recorded for a key in a map held as an association list (0 when absent). -/
def countOf (m : List (String × Nat)) (k : String) : Nat :=
  match m.find? fun e => e.1 == k with
  | some e => e.2
  | none => 0

/-- A content of 167 characters of three bytes each: 501 bytes. -/
def wideContent : String := String.mk (List.replicate 167 'あ')

/-- A document row without associations. -/
def plainDocument (id : Nat) (title : String) (tags : List Tag) : LoadedDocument :=
  { row := { ID := id, CreatedAt := 9, Deleted := false, Title := title, Summary := "S",
             Content := "C", VersionCreatedAt := 9 },
    Fragments := [], Tags := tags }

/-- Eleven documents; the first carries the tags "x" and "y", the eleventh the tag "x". -/
def elevenDocuments : List LoadedDocument :=
  plainDocument 1 "D1" [⟨1, 9, false, "x", ""⟩, ⟨2, 9, false, "y", ""⟩] ::
    ((List.range' 2 9).map fun i => plainDocument i "D" []) ++
    [plainDocument 11 "D11" [⟨1, 9, false, "x", ""⟩]]

/-! ## The package internal/database: raw SQL over sqlite -/

namespace Database

/-- Row of the table `fragments`. -/
structure Fragment where
  ID : Int
  Content : String
  CreatedAt : Nat
deriving DecidableEq, Repr

/-- Row of the table `documents`; the column `summary` admits NULL. -/
structure Document where
  ID : Int
  Title : String
  Content : String
  Summary : Option String
  CreatedAt : Nat
  UpdatedAt : Nat
deriving DecidableEq, Repr

/-- Row of the table `tags`; the column `name` is UNIQUE. -/
structure Tag where
  ID : Int
  Name : String
deriving DecidableEq, Repr

/-- Row of the table `questions`; the columns that admit NULL hold an `Option`. -/
structure Question where
  ID : Int
  QuestionText : String
  ContextFragmentIDs : Option String
  ContextDocumentIDs : Option String
  Status : String
  CreatedAt : Nat
  AnsweredAt : Option Nat
  AnswerFragmentID : Option Int
deriving DecidableEq, Repr

/-- The sqlite database of `InitDB`: the entity tables, the link tables (pairs of
`document_id` and related id, the pair being the primary key) and the AUTOINCREMENT
sequences.  Foreign keys are declared but not enforced (no `PRAGMA foreign_keys`). -/
structure DB where
  fragments : List Fragment
  documents : List Document
  document_fragment_links : List (Int × Int)
  tags : List Tag
  document_tag_links : List (Int × Int)
  questions : List Question
  fragmentSeq : Int
  documentSeq : Int
  tagSeq : Int
  questionSeq : Int
deriving DecidableEq, Repr

/-- The database right after `InitDB` on a new file. -/
def empty : DB :=
  { fragments := [], documents := [], document_fragment_links := [], tags := [],
    document_tag_links := [], questions := [], fragmentSeq := 0, documentSeq := 0,
    tagSeq := 0, questionSeq := 0 }

/-- The rowid chosen by AUTOINCREMENT: one more than the largest rowid ever used. -/
def nextRowID (seq : Int) (ids : List Int) : Int := max seq (ids.foldr max 0) + 1

/-- The function `InsertDocument`; `now` is the reading of `time.Now()`.  Two driver calls
can fail: `Prepare` and `Exec`; `LastInsertId` of the sqlite driver does not fail. -/
def InsertDocument (now : Nat) (db : DB) (title content summary : String) (fs : Faults) :
    Except String Int × DB × Faults :=
  if stmtFails fs then (.error "failed to prepare statement", db, fs.tail)
  else if stmtFails fs.tail then (.error "failed to execute statement", db, fs.tail.tail)
  else
    let id := nextRowID db.documentSeq (db.documents.map Document.ID)
    (.ok id,
      { db with documents := db.documents ++
                  [{ ID := id, Title := title, Content := content, Summary := some summary,
                     CreatedAt := now, UpdatedAt := now }],
                documentSeq := id },
      fs.tail.tail)

/-- The function `UpdateDocument`: one `UPDATE ... WHERE id = ?`. -/
def UpdateDocument (now : Nat) (db : DB) (id : Int) (title content summary : String)
    (fs : Faults) : Option String × DB × Faults :=
  if stmtFails fs then (some "failed to prepare statement", db, fs.tail)
  else if stmtFails fs.tail then (some "failed to execute statement", db, fs.tail.tail)
  else
    (none,
      { db with documents := db.documents.map fun d =>
          if d.ID = id then
            { d with Title := title, Content := content, Summary := some summary,
                     UpdatedAt := now }
          else d },
      fs.tail.tail)

/-- The function `LinkFragmentToDocument`: `INSERT OR IGNORE` of the pair. -/
def LinkFragmentToDocument (db : DB) (fragmentID : Int) (documentID : Int) (fs : Faults) :
    Option String × DB × Faults :=
  if stmtFails fs then (some "failed to prepare statement", db, fs.tail)
  else if stmtFails fs.tail then (some "failed to execute statement", db, fs.tail.tail)
  else
    (none,
      if (documentID, fragmentID) ∈ db.document_fragment_links then db
      else { db with document_fragment_links :=
               db.document_fragment_links ++ [(documentID, fragmentID)] },
      fs.tail.tail)

/-- The function `InsertOrGetTag`: `SELECT id FROM tags WHERE name = ?`, and when no row is
found `INSERT INTO tags(name)`. -/
def InsertOrGetTag (db : DB) (tagName : String) (fs : Faults) :
    Except String Int × DB × Faults :=
  if stmtFails fs then (.error "failed to query existing tag", db, fs.tail)
  else
    match db.tags.find? fun t => t.Name == tagName with
    | some t => (.ok t.ID, db, fs.tail)
    | none =>
      if stmtFails fs.tail then (.error "failed to prepare statement", db, fs.tail.tail)
      else if stmtFails fs.tail.tail then
        (.error "failed to execute statement", db, fs.tail.tail.tail)
      else
        let id := nextRowID db.tagSeq (db.tags.map Tag.ID)
        (.ok id, { db with tags := db.tags ++ [{ ID := id, Name := tagName }], tagSeq := id },
          fs.tail.tail.tail)

/-- The function `LinkDocumentToTag`: `INSERT OR IGNORE` of the pair. -/
def LinkDocumentToTag (db : DB) (documentID : Int) (tagID : Int) (fs : Faults) :
    Option String × DB × Faults :=
  if stmtFails fs then (some "failed to prepare statement", db, fs.tail)
  else if stmtFails fs.tail then (some "failed to execute statement", db, fs.tail.tail)
  else
    (none,
      if (documentID, tagID) ∈ db.document_tag_links then db
      else { db with document_tag_links := db.document_tag_links ++ [(documentID, tagID)] },
      fs.tail.tail)

/-- A database with one document, one fragment, one tag and both links. -/
def linked : DB :=
  { empty with
    fragments := [{ ID := 1, Content := "alpha", CreatedAt := 3 }],
    documents := [{ ID := 1, Title := "Notes", Content := "# Notes", Summary := some "A note.",
                    CreatedAt := 5, UpdatedAt := 5 }],
    document_fragment_links := [(1, 1)], tags := [{ ID := 1, Name := "notes" }],
    document_tag_links := [(1, 1)], fragmentSeq := 1, documentSeq := 1, tagSeq := 1 }

end Database

/-! ## The package src/usecase: adding a fragment to a document -/

/-- The method `AddFragmentToDocument`: inside one transaction, `First` of the document,
`First` of the fragment, then `Association("Fragments").Append`. -/
def AddFragmentToDocument (documentID fragmentID : Nat) (s : Store) (fs : Faults) :
    Option String × Store × Faults :=
  match transaction (fun s fs =>
      if stmtFails fs then (.error "query failed", fs.tail)
      else if (s.documents.any fun d => !d.Deleted && d.ID == documentID) = false then
        (.error "record not found", fs.tail)
      else if stmtFails fs.tail then (.error "query failed", fs.tail.tail)
      else if (s.fragments.any fun f => f.live && f.ID == fragmentID) = false then
        (.error "record not found", fs.tail.tail)
      else if stmtFails fs.tail.tail then (.error "append failed", fs.tail.tail.tail)
      else
        (.ok ((), { s with document_fragments :=
                      insertLinks documentID [fragmentID] s.document_fragments }),
          fs.tail.tail.tail)) s fs with
  | (.error e, s1, fs1) => (some e, s1, fs1)
  | (.ok _, s1, fs1) => (none, s1, fs1)

/-! ## The package internal/ai: parsing a generated document -/

/-- The predicate `unicode.IsSpace`. -/
def isSpace (c : Char) : Bool :=
  decide (c.val = 0x09 ∨ c.val = 0x0A ∨ c.val = 0x0B ∨ c.val = 0x0C ∨ c.val = 0x0D ∨
    c.val = 0x20 ∨ c.val = 0x85 ∨ c.val = 0xA0 ∨ c.val = 0x1680 ∨
    (0x2000 ≤ c.val ∧ c.val ≤ 0x200A) ∨ c.val = 0x2028 ∨ c.val = 0x2029 ∨ c.val = 0x202F ∨
    c.val = 0x205F ∨ c.val = 0x3000)

/-- The function `strings.TrimSpace`. -/
def trimSpace (s : String) : String :=
  ⟨((s.data.dropWhile isSpace).reverse.dropWhile isSpace).reverse⟩

/-- The function `strings.HasPrefix`. -/
def hasPrefix (s p : String) : Bool := p.data.isPrefixOf s.data

/-- The function `strings.TrimPrefix`. -/
def trimPrefix (s p : String) : String :=
  if hasPrefix s p then ⟨s.data.drop p.data.length⟩ else s

/-- The pieces of a text between the line feeds: `strings.Split(response, "\n")`. -/
def splitLinesAux : List Char → List (List Char)
  | [] => [[]]
  | c :: cs =>
    if c = '\n' then [] :: splitLinesAux cs
    else
      match splitLinesAux cs with
      | l :: ls => (c :: l) :: ls
      | [] => [[c]]

/-- The call `strings.Split(response, "\n")`. -/
def splitLines (s : String) : List String := (splitLinesAux s.data).map String.mk

/-- The call `strings.Join(lines, "\n")`. -/
def joinLines : List String → String
  | [] => ""
  | [l] => l
  | l :: rest => l ++ "\n" ++ joinLines rest

/-- The struct `GeneratedDocument`. -/
structure GeneratedDocument where
  Title : String
  Content : String
  Summary : String
deriving DecidableEq, Repr

/-- Variables of the loop of `parseGeneratedResponse`. -/
structure ParseState where
  doc : GeneratedDocument
  currentSection : String
  contentLines : List String
deriving DecidableEq, Repr

/-- One iteration of the loop of `parseGeneratedResponse`. -/
def parseLine (st : ParseState) (line : String) : ParseState :=
  let trimmed := trimSpace line
  if hasPrefix trimmed "TITLE:" then
    { st with doc := { st.doc with Title := trimSpace (trimPrefix trimmed "TITLE:") },
              currentSection := "title" }
  else if hasPrefix trimmed "SUMMARY:" then
    { st with doc := { st.doc with Summary := trimSpace (trimPrefix trimmed "SUMMARY:") },
              currentSection := "summary" }
  else if hasPrefix trimmed "CONTENT:" then
    let content := trimSpace (trimPrefix trimmed "CONTENT:")
    { st with currentSection := "content",
              contentLines := if content ≠ "" then st.contentLines ++ [content]
                              else st.contentLines }
  else if st.currentSection = "content" then
    { st with contentLines := st.contentLines ++ [line] }
  else if st.currentSection = "summary" ∧ trimmed ≠ "" then
    { st with doc := { st.doc with Summary := st.doc.Summary ++ " " ++ trimmed } }
  else st

/-- The function `parseGeneratedResponse`; its error result is always `nil`. -/
def parseGeneratedResponse (response : String) : GeneratedDocument :=
  let st := (splitLines response).foldl parseLine ⟨⟨"", "", ""⟩, "", []⟩
  let content := joinLines st.contentLines
  { Title := if st.doc.Title = "" then "Generated Document" else st.doc.Title,
    Content := content,
    Summary := if st.doc.Summary = "" then "AI generated document from fragments"
               else st.doc.Summary }

/-- The persisting step of `processFragmentGroup` for a collaborator answer `response`:
`parseGeneratedResponse` then `InsertDocument`. -/
def insertGenerated (now : Nat) (db : Database.DB) (response : String) (fs : Faults) :
    Except String Int × Database.DB × Faults :=
  let generatedDoc := parseGeneratedResponse response
  Database.InsertDocument now db generatedDoc.Title generatedDoc.Content generatedDoc.Summary fs

/-- The persisting step of `updateSpecificDocument` for a collaborator answer `response`:
`parseGeneratedResponse` then `UpdateDocument`. -/
def updateGenerated (now : Nat) (db : Database.DB) (id : Int) (response : String)
    (fs : Faults) : Option String × Database.DB × Faults :=
  let newDoc := parseGeneratedResponse response
  Database.UpdateDocument now db id newDoc.Title newDoc.Content newDoc.Summary fs

/-- A collaborator answer without the section CONTENT. -/
def answerWithoutContent : String := "TITLE: Plan\nSUMMARY: Short."

/-- A candidate of the synthesis answer whose title, summary and content are empty. -/
def blankCandidate : DocumentsResponse := ⟨[⟨"", "", "", [], []⟩], "blank"⟩

/-- Whether a live document row has the identifier. -/
def isLiveDocument (s : Store) (documentID : Nat) : Bool :=
  s.documents.any fun d => !d.Deleted && d.ID == documentID

/-- Whether a live fragment row has the identifier. -/
def isLiveFragment (s : Store) (fragmentID : Nat) : Bool :=
  s.fragments.any fun f => f.live && f.ID == fragmentID

/-- The store after `createOrGetTags` has created the tag `tagName` with colour `color`. -/
def storeWithTag (now : Nat) (tagName color : String) (s : Store) : Store :=
  { s with tags := s.tags ++
             [{ ID := nextID s.tagSeq (s.tags.map Tag.ID), CreatedAt := now, Deleted := false,
                Name := tagName, Color := color }],
           tagSeq := nextID s.tagSeq (s.tags.map Tag.ID) }

/-- A store whose tag table holds the one tag "notes". -/
def taggedStore : Store :=
  { fragmentStore [] with
    tags := [{ ID := 1, CreatedAt := 5, Deleted := false, Name := "notes", Color := "#FF6B6B" }],
    tagSeq := 1 }

/-- A store whose tag table holds the one tag "notes", soft deleted. -/
def retiredTagStore : Store :=
  { fragmentStore [] with
    tags := [{ ID := 1, CreatedAt := 5, Deleted := true, Name := "notes", Color := "#FF6B6B" }],
    tagSeq := 1 }

/-! ## The package internal/database: queries, fragments and questions -/

/-- The function `strconv.Atoi` on a 64 bit platform: an optional sign, then one or more
decimal digits, the value within the range of `int`; `none` is a returned error. -/
def Atoi (s : String) : Option Int :=
  let digits : List Char :=
    match s.data with
    | c :: cs => if c = '-' ∨ c = '+' then cs else c :: cs
    | [] => []
  let neg : Bool := s.data.head? == some '-'
  if digits = [] ∨ (digits.all fun c => decide (48 ≤ c.toNat ∧ c.toNat ≤ 57)) = false then none
  else
    let n : Nat := digits.foldl (fun n c => n * 10 + (c.toNat - 48)) 0
    if neg then (if n > 2 ^ 63 then none else some (-(n : Int)))
    else (if n ≥ 2 ^ 63 then none else some (n : Int))

namespace Database

/-- The function `InsertFragment`; `now` is the reading of `time.Now()`. -/
def InsertFragment (now : Nat) (db : DB) (content : String) (fs : Faults) :
    Except String Int × DB × Faults :=
  if stmtFails fs then (.error "failed to prepare statement", db, fs.tail)
  else if stmtFails fs.tail then (.error "failed to execute statement", db, fs.tail.tail)
  else
    let id := nextRowID db.fragmentSeq (db.fragments.map Fragment.ID)
    (.ok id,
      { db with fragments := db.fragments ++ [{ ID := id, Content := content, CreatedAt := now }],
                fragmentSeq := id },
      fs.tail.tail)

/-- The rows of `fragments f LEFT JOIN document_fragment_links dfl ON f.id = dfl.fragment_id`:
every fragment with each of its link rows, or once with NULL when it has none. -/
def leftJoinLinks (db : DB) : List (Fragment × Option (Int × Int)) :=
  db.fragments.flatMap fun f =>
    match db.document_fragment_links.filter fun l => l.2 == f.ID with
    | [] => [(f, none)]
    | l :: ls => (l :: ls).map fun l => (f, some l)

/-- The rows of the join that pass `WHERE dfl.fragment_id IS NULL`. -/
def unlinkedRows (db : DB) : List Fragment :=
  ((leftJoinLinks db).filter fun r => r.2.isNone).map Prod.fst

/-- The function `GetCounts`: three `SELECT COUNT(*)`. -/
def GetCounts (db : DB) (fs : Faults) : Except String (Nat × Nat × Nat) × Faults :=
  if stmtFails fs then (.error "failed to get document count", fs.tail)
  else if stmtFails fs.tail then (.error "failed to get total fragment count", fs.tail.tail)
  else if stmtFails fs.tail.tail then
    (.error "failed to get unprocessed fragment count", fs.tail.tail.tail)
  else (.ok (db.documents.length, db.fragments.length, (unlinkedRows db).length),
    fs.tail.tail.tail)

/-- The function `GetAllFragments`: one query, `ORDER BY created_at DESC` (rows of equal
creation time keep their table order). -/
def GetAllFragments (db : DB) (unprocessed : Bool) (fs : Faults) :
    Except String (List Fragment) × Faults :=
  if stmtFails fs then (.error "failed to query fragments", fs.tail)
  else
    (.ok ((if unprocessed then unlinkedRows db else db.fragments).insertionSort
      fun a b => b.CreatedAt ≤ a.CreatedAt), fs.tail)

/-- The function `GetDocumentByIDOrTitle`: one `QueryRow`, by `id` when `strconv.Atoi`
accepts the input and by `title` otherwise; the first row found is returned. -/
def GetDocumentByIDOrTitle (db : DB) (idOrTitle : String) (fs : Faults) :
    Except String Document × Faults :=
  if stmtFails fs then (.error "failed to query document", fs.tail)
  else
    match (match Atoi idOrTitle with
           | some id => db.documents.find? fun d => d.ID == id
           | none => db.documents.find? fun d => d.Title == idOrTitle) with
    | some doc => (.ok doc, fs.tail)
    | none => (.error ("document not found: " ++ idOrTitle), fs.tail)

/-- The text `fmt.Sprintf("%v", ids)` of a slice of `int`: the numbers separated by one
space, in square brackets. -/
def formatInts (ids : List Int) : String :=
  "[" ++ " ".intercalate (ids.map toString) ++ "]"

/-- The function `InsertQuestion`; the columns `status`, `answered_at` and
`answer_fragment_id` take their defaults. -/
def InsertQuestion (now : Nat) (db : DB) (questionText : String)
    (contextFragmentIDs contextDocumentIDs : List Int) (fs : Faults) :
    Except String Int × DB × Faults :=
  if stmtFails fs then (.error "failed to prepare statement", db, fs.tail)
  else
    let fragmentIDsJSON := if contextFragmentIDs.length > 0 then formatInts contextFragmentIDs else ""
    let documentIDsJSON := if contextDocumentIDs.length > 0 then formatInts contextDocumentIDs else ""
    if stmtFails fs.tail then (.error "failed to execute statement", db, fs.tail.tail)
    else
      let id := nextRowID db.questionSeq (db.questions.map Question.ID)
      (.ok id,
        { db with questions := db.questions ++
                    [{ ID := id, QuestionText := questionText,
                       ContextFragmentIDs := some fragmentIDsJSON,
                       ContextDocumentIDs := some documentIDsJSON, Status := "pending",
                       CreatedAt := now, AnsweredAt := none, AnswerFragmentID := none }],
                  questionSeq := id },
        fs.tail.tail)

/-- The function `AnswerQuestion`: one `UPDATE questions SET status = 'answered',
answered_at = ?, answer_fragment_id = ? WHERE id = ?`. -/
def AnswerQuestion (now : Nat) (db : DB) (questionID : Int) (answerFragmentID : Int)
    (fs : Faults) : Option String × DB × Faults :=
  if stmtFails fs then (some "failed to prepare statement", db, fs.tail)
  else if stmtFails fs.tail then (some "failed to execute statement", db, fs.tail.tail)
  else
    (none,
      { db with questions := db.questions.map fun q =>
          if q.ID = questionID then
            { q with Status := "answered", AnsweredAt := some now,
                     AnswerFragmentID := some answerFragmentID }
          else q },
      fs.tail.tail)

/-- A call of one of the two functions that write the table `questions`, with the clock
reading of the call. -/
inductive QuestionCall where
  | insert (now : Nat) (questionText : String) (contextFragmentIDs : List Int)
      (contextDocumentIDs : List Int)
  | answer (now : Nat) (questionID : Int) (answerFragmentID : Int)
deriving DecidableEq, Repr

/-- The database and the fault schedule after one call. -/
def applyCall (c : QuestionCall) (st : DB × Faults) : DB × Faults :=
  match c with
  | .insert now text fids dids => (InsertQuestion now st.1 text fids dids st.2).2
  | .answer now qid fid => (AnswerQuestion now st.1 qid fid st.2).2

/-- The database and the fault schedule after a sequence of calls. -/
def applyCalls (cs : List QuestionCall) (st : DB × Faults) : DB × Faults :=
  cs.foldl (fun st c => applyCall c st) st

/-- Three fragments, the first two linked to document 1. -/
def threeFragments : DB :=
  { empty with
    fragments := [{ ID := 1, Content := "one", CreatedAt := 1 },
                  { ID := 2, Content := "two", CreatedAt := 2 },
                  { ID := 3, Content := "three", CreatedAt := 3 }],
    documents := [{ ID := 1, Title := "Notes", Content := "# Notes", Summary := some "A note.",
                    CreatedAt := 5, UpdatedAt := 5 }],
    document_fragment_links := [(1, 1), (1, 2)], fragmentSeq := 3, documentSeq := 1 }

/-- A database with one question, answered at time 5 by fragment 3. -/
def answered : DB :=
  { threeFragments with
    questions := [{ ID := 1, QuestionText := "which one?", ContextFragmentIDs := some "[1]",
                    ContextDocumentIDs := some "", Status := "answered", CreatedAt := 4,
                    AnsweredAt := some 5, AnswerFragmentID := some 3 }],
    questionSeq := 1 }

end Database

/-- The row that `UpdateDocument` writes in place of a row `d` with the given id. -/
def refreshedRow (now : Nat) (title content summary : String) (d : Database.Document) :
    Database.Document :=
  { d with Title := title, Content := content, Summary := some summary, UpdatedAt := now }

/-! ## The package internal/cli: the command add -/

/-- The table `hex` of `encoding/json`. -/
def hexDigit (n : Nat) : Char := "0123456789abcdef".data.getD n '0'

/-- What `encoding/json` writes for one character inside a string, with HTML escaping on:
the short escapes, a six character escape for the other control characters, for the
characters less-than, greater-than and ampersand and for the line and paragraph separators
U+2028 and U+2029, and any other character itself. -/
def escapeChar (c : Char) : List Char :=
  if c.toNat = 92 ∨ c.toNat = 34 then [Char.ofNat 92, c]
  else if c.toNat = 8 then [Char.ofNat 92, 'b']
  else if c.toNat = 12 then [Char.ofNat 92, 'f']
  else if c.toNat = 10 then [Char.ofNat 92, 'n']
  else if c.toNat = 13 then [Char.ofNat 92, 'r']
  else if c.toNat = 9 then [Char.ofNat 92, 't']
  else if c.toNat < 32 ∨ c.toNat = 60 ∨ c.toNat = 62 ∨ c.toNat = 38 then
    [Char.ofNat 92, 'u', '0', '0', hexDigit (c.toNat / 16), hexDigit (c.toNat % 16)]
  else if c.toNat = 0x2028 then [Char.ofNat 92, 'u', '2', '0', '2', '8']
  else if c.toNat = 0x2029 then [Char.ofNat 92, 'u', '2', '0', '2', '9']
  else [c]

/-- The JSON text that `json.Marshal` writes for a string. -/
def jsonString (s : String) : String :=
  String.mk (Char.ofNat 34 :: (s.data.flatMap escapeChar ++ [Char.ofNat 34]))

/-- The assignment `m[k] = v` on a map held as an association list. -/
def mapSet (m : List (String × String)) (k v : String) : List (String × String) :=
  if m.any fun e => e.1 == k then m.map fun e => if e.1 = k then (k, v) else e
  else m ++ [(k, v)]

/-- The call `json.Marshal(m)` for a `map[string]string`: the entries in the order of their
keys, separated by commas, in braces.  It returns no error for such a map. -/
def marshalMap (m : List (String × String)) : String :=
  "\x7b" ++ ",".intercalate
    ((m.insertionSort fun a b => ¬ b.1 < a.1).map fun e => jsonString e.1 ++ ":" ++ jsonString e.2)
    ++ "\x7d"

/-- How a command handler ends: `os.Exit(code)`, or a returned `error` (`none` for `nil`). -/
inductive Outcome where
  | exit (code : Nat)
  | returned (err : Option String)
deriving DecidableEq, Repr

/-- A run of a command handler: how it ends, the lines printed, the database and the
remaining fault schedule. -/
structure CommandRun where
  outcome : Outcome
  stdout : List String
  db : Database.DB
  faults : Faults
deriving DecidableEq, Repr

/-- The function `handleAddCommand` after `addCmd.Parse`: `text` is the first positional
argument (empty when there is none), `url` and `imagePath` are the values of the flags. -/
def handleAddCommand (now : Nat) (db : Database.DB) (text url imagePath : String)
    (fs : Faults) : CommandRun :=
  let fragmentContent : List (String × String) := []
  let fragmentContent := if text ≠ "" then mapSet fragmentContent "text" text else fragmentContent
  let fragmentContent := if url ≠ "" then mapSet fragmentContent "url" url else fragmentContent
  let fragmentContent :=
    if imagePath ≠ "" then mapSet fragmentContent "image_path" imagePath else fragmentContent
  if fragmentContent.length = 0 then
    ⟨.exit 1, ["Usage: insight add [text] [--url <url>] [--image <path>]"], db, fs⟩
  else
    let jsonContent := marshalMap fragmentContent
    match Database.InsertFragment now db jsonContent fs with
    | (.error e, db1, fs1) => ⟨.returned (some ("failed to insert fragment: " ++ e)), [], db1, fs1⟩
    | (.ok id, db1, fs1) =>
      ⟨.returned none, ["Fragment added with ID: " ++ toString id], db1, fs1⟩

/-- Specification side: the JSON object with the given members, in the given order. -/
def jsonObject (members : List (String × String)) : String :=
  "\x7b" ++ ",".intercalate (members.map fun e => jsonString e.1 ++ ":" ++ jsonString e.2)
    ++ "\x7d"

/-- Specification side: the members of the stored object: of the keys "image_path", "text",
"url", in this order, those whose value is not empty. -/
def givenParts (text url imagePath : String) : List (String × String) :=
  [("image_path", imagePath), ("text", text), ("url", url)].filter fun e => e.2 ≠ ""

/-! ## Specification side: decoding a JSON array of integers -/

/-- Specification side: the white space of JSON. -/
def jsonSpace (c : Char) : Bool :=
  decide (c.toNat = 32 ∨ c.toNat = 9 ∨ c.toNat = 10 ∨ c.toNat = 13)

/-- Specification side: a text without the JSON white space at its two ends. -/
def jsonTrim (cs : List Char) : List Char :=
  ((cs.dropWhile jsonSpace).reverse.dropWhile jsonSpace).reverse

/-- Specification side: the pieces of a text between commas. -/
def splitCommas : List Char → List (List Char)
  | [] => [[]]
  | c :: cs =>
    if c = ',' then [] :: splitCommas cs
    else
      match splitCommas cs with
      | l :: ls => (c :: l) :: ls
      | [] => [[c]]

/-- Specification side: a JSON number that is an integer: an optional minus sign, then
either the digit 0 or a digit from 1 to 9 followed by digits. -/
def jsonInt (cs : List Char) : Option Int :=
  let digits := match cs with
    | c :: rest => if c = '-' then rest else c :: rest
    | [] => []
  let isDigit := fun c : Char => decide (48 ≤ c.toNat ∧ c.toNat ≤ 57)
  if digits = [] ∨ digits.all isDigit = false ∨ (digits.head? == some '0' ∧ digits.length > 1)
  then none
  else
    let n : Nat := digits.foldl (fun n c => n * 10 + (c.toNat - 48)) 0
    if cs.head? == some '-' then some (-(n : Int)) else some (n : Int)

/-- Specification side: the list of integers that a text denotes as a JSON array, `none`
when the text is not a JSON array of integers. -/
def decodeIntArray (s : String) : Option (List Int) :=
  match jsonTrim s.data with
  | c :: rest =>
    if c = '[' then
      match rest.reverse with
      | d :: body =>
        if d = ']' then
          if jsonTrim body.reverse = [] then some []
          else (splitCommas body.reverse).mapM fun piece => jsonInt (jsonTrim piece)
        else none
      | [] => none
    else none
  | [] => none

/-- What every call keeps of a question row `q` in its later state `q1`: the identifier, the
text, the context lists and the creation time are the same, and an answered question is
still answered. -/
def questionKept (q q1 : Database.Question) : Prop :=
  q1.ID = q.ID ∧ q1.QuestionText = q.QuestionText ∧
  q1.ContextFragmentIDs = q.ContextFragmentIDs ∧ q1.ContextDocumentIDs = q.ContextDocumentIDs ∧
  q1.CreatedAt = q.CreatedAt ∧ (q.Status = "answered" → q1.Status = "answered")

instance (q q1 : Database.Question) : Decidable (questionKept q q1) := by
  unfold questionKept; infer_instance

/-- Whether a call is an `AnswerQuestion` for the given question id. -/
def answersQuestion (id : Int) : Database.QuestionCall → Bool
  | .answer _ qid _ => qid == id
  | .insert _ _ _ _ => false

/-! ## Auxiliary definitions for malformed compression actions -/

/-- Specification side: an action that the answer of the collaborator should not contain:
no fragment id at all, a `merge` with fewer than two ids, or a type that is neither "merge"
nor "delete". -/
def malformed (a : Action) : Prop :=
  a.FragmentIDs = [] ∨ (a.Type_ = "merge" ∧ a.FragmentIDs.length < 2) ∨
    (a.Type_ ≠ "merge" ∧ a.Type_ ≠ "delete")

instance (a : Action) : Decidable (malformed a) := by
  unfold malformed; infer_instance

/-- Five actions, the second the only well formed one: a merge of one id, a deletion of
fragment 2, a deletion of nothing, an unknown type, a merge of nothing. -/
def mostlyMalformed : List Action :=
  [⟨"merge", [1], "one", "a"⟩, ⟨"delete", [2], "", "b"⟩, ⟨"delete", [], "", "c"⟩,
   ⟨"archive", [1, 2], "", "d"⟩, ⟨"merge", [], "none", "e"⟩]

/-! ## The package internal/export: file names

The two regular expressions of `sanitizeFilename` match single ASCII characters only, and
the cutset of `strings.Trim` is ASCII, so the function acts on the bytes of the name: no
byte of a character of several bytes is an ASCII byte. -/

/-- The class `[<>:"/\\|?*]` of the first regular expression. -/
def unsafeByte (b : UInt8) : Bool :=
  decide (b.toNat = 60 ∨ b.toNat = 62 ∨ b.toNat = 58 ∨ b.toNat = 34 ∨ b.toNat = 47 ∨
    b.toNat = 92 ∨ b.toNat = 124 ∨ b.toNat = 63 ∨ b.toNat = 42)

/-- The class `\s` of the package regexp: tab, line feed, form feed, carriage return and
space.  The vertical tab is not in the class. -/
def regexpSpace (b : UInt8) : Bool :=
  decide (b.toNat = 9 ∨ b.toNat = 10 ∨ b.toNat = 12 ∨ b.toNat = 13 ∨ b.toNat = 32)

/-- The class `[\s_]` of the second regular expression. -/
def spaceOrUnderscore (b : UInt8) : Bool := regexpSpace b || decide (b.toNat = 95)

/-- The first `ReplaceAllString`: every byte of the class becomes an underscore. -/
def replaceUnsafe (filename : GoString) : GoString :=
  filename.map fun b => if unsafeByte b then 95 else b

/-- The second `ReplaceAllString`: every maximal run of bytes of the class `[\s_]` becomes
one underscore; `inRun` tells whether the byte before belongs to a run. -/
def collapseRuns : Bool → GoString → GoString
  | _, [] => []
  | inRun, b :: rest =>
    if spaceOrUnderscore b then
      if inRun then collapseRuns true rest else 95 :: collapseRuns true rest
    else b :: collapseRuns false rest

/-- The bytes of the cutset "._- " of `strings.Trim`. -/
def inCutset (b : UInt8) : Bool :=
  decide (b.toNat = 46 ∨ b.toNat = 95 ∨ b.toNat = 45 ∨ b.toNat = 32)

/-- The call `strings.Trim(filename, "._- ")`. -/
def trimCutset (filename : GoString) : GoString :=
  ((filename.dropWhile inCutset).reverse.dropWhile inCutset).reverse

/-- The function `sanitizeFilename`. -/
def sanitizeFilename (filename : GoString) : GoString :=
  let filename := replaceUnsafe filename
  let filename := collapseRuns false filename
  let filename := trimCutset filename
  let filename := if filename.length > 100 then filename.take 100 else filename
  if filename = [] then gs "untitled" else filename

/-- A name that holds a vertical tab between two letters. -/
def tabbedName : GoString := [97, 11, 98]

/-- Whether a line, after trimming, starts with one of the three keywords of the layout. -/
def startsWithKeyword (line : String) : Bool :=
  hasPrefix (trimSpace line) "TITLE:" || hasPrefix (trimSpace line) "SUMMARY:" ||
    hasPrefix (trimSpace line) "CONTENT:"

/-- Specification side: the text of the layout requested from the collaborator, for a title,
a summary and the lines of the content. -/
def layoutText (t s : String) (contentLines : List String) : String :=
  "TITLE: " ++ t ++ "\nSUMMARY: " ++ s ++ "\nCONTENT: " ++ joinLines contentLines

/-! # Lemmas and theorems -/

theorem deleteAll_eq_map (ids : List Int) (rows : List Fragment) :
    deleteAll ids rows =
      rows.map fun f => if f.live ∧ (f.ID : Int) ∈ ids then { f with Deleted := true } else f := by
  induction ids generalizing rows with
  | nil => simp [deleteAll]
  | cons id ids ih =>
    have h : deleteAll (id :: ids) rows = deleteAll ids (softDelete id rows) := rfl
    rw [h, ih, softDelete, List.map_map]
    apply List.map_congr_left
    intro f _
    obtain ⟨fid, fca, fd, fc⟩ := f
    cases fd <;> by_cases h2 : (fid : Int) = id <;> by_cases h3 : (fid : Int) ∈ ids <;>
      simp [Fragment.live, h2, h3]

theorem live_ids_updateContent (k : Nat) (c : String) (rows : List Fragment) :
    ((updateContent k c rows).filter Fragment.live).map Fragment.ID =
      (rows.filter Fragment.live).map Fragment.ID := by
  induction rows with
  | nil => rfl
  | cons f rows ih =>
    have h : updateContent k c (f :: rows) =
        (if f.live ∧ f.ID = k then { f with Content := c } else f) :: updateContent k c rows := rfl
    rw [h]
    obtain ⟨fid, fca, fd, fc⟩ := f
    cases fd <;> by_cases h2 : fid = k <;>
      simpa [List.filter_cons, h2, Fragment.live] using ih

theorem live_ids_deleteAll (ids : List Int) (rows : List Fragment) :
    ((deleteAll ids rows).filter Fragment.live).map Fragment.ID =
      ((rows.filter Fragment.live).map Fragment.ID).filter
        fun (k : Nat) => decide ((k : Int) ∉ ids) := by
  rw [deleteAll_eq_map]
  induction rows with
  | nil => rfl
  | cons f rows ih =>
    rw [List.map_cons]
    obtain ⟨fid, fca, fd, fc⟩ := f
    cases fd <;> by_cases h3 : (fid : Int) ∈ ids <;>
      simpa [List.filter_cons, h3, Fragment.live] using ih

theorem deleteLoop_spec (ids : List Int) (s : Store) (fs : Faults) :
    (true ∈ fs.take ids.length → ∃ e fs1, deleteLoop ids s fs = (.error e, fs1)) ∧
    (true ∉ fs.take ids.length →
      deleteLoop ids s fs =
        (.ok ((), { s with fragments := deleteAll ids s.fragments }), fs.drop ids.length)) := by
  induction ids generalizing s fs with
  | nil => simp [deleteLoop, deleteAll]
  | cons id ids ih =>
    cases fs with
    | nil =>
      have := (ih { s with fragments := softDelete id s.fragments } []).2 (by simp)
      simp [deleteLoop, stmtFails, this, deleteAll]
    | cons b fs =>
      cases b with
      | true => simp [deleteLoop, stmtFails]
      | false =>
        have h := ih { s with fragments := softDelete id s.fragments } fs
        simp only [List.length_cons, List.take_succ_cons, List.mem_cons, Bool.true_eq_false,
          false_or, deleteLoop, stmtFails, Bool.false_eq_true, ↓reduceIte, List.tail_cons,
          List.drop_succ_cons]
        refine ⟨h.1, fun hn => ?_⟩
        rw [h.2 hn]
        simp [deleteAll]

@[simp] theorem stmtFails_nil : stmtFails [] = false := rfl

@[simp] theorem stmtFails_cons (b : Bool) (fs : Faults) : stmtFails (b :: fs) = b := rfl

theorem stmtFails_iff (fs : Faults) : stmtFails fs = true ↔ true ∈ fs.take 1 := by
  cases fs with
  | nil => simp [stmtFails]
  | cons b fs => cases b <;> simp [stmtFails]

/-- Behaviour of `db.Transaction` around a body that issues `n` statements and fails exactly
when one of them is refused. -/
theorem transaction_spec {α : Type} (body : Store → Faults → Except String (α × Store) × Faults)
    (s : Store) (fs : Faults) (n : Nat) (good : α × Store)
    (hbody : ∀ gs, (true ∈ gs.take n → ∃ e gs1, body s gs = (.error e, gs1)) ∧
      (true ∉ gs.take n → body s gs = (.ok good, gs.drop n))) :
    (true ∈ fs.take (n + 2) → ∃ e fs1, transaction body s fs = (.error e, s, fs1)) ∧
    (true ∉ fs.take (n + 2) → transaction body s fs = (.ok good.1, good.2, fs.drop (n + 2))) := by
  cases fs with
  | nil =>
    have h := (hbody []).2 (by simp)
    simp [transaction, stmtFails, h]
  | cons b fs =>
    cases b with
    | true => simp [transaction, stmtFails]
    | false =>
      have hsplit : List.take (n + 1) fs = List.take n fs ++ List.take 1 (List.drop n fs) :=
        List.take_add fs n 1
      simp only [List.take_succ_cons, List.mem_cons, Bool.true_eq_false, false_or, hsplit,
        List.mem_append, transaction, stmtFails_cons, Bool.false_eq_true, ↓reduceIte,
        List.tail_cons]
      by_cases h1 : true ∈ List.take n fs
      · obtain ⟨e, gs1, he⟩ := (hbody fs).1 h1
        simp [h1, he]
      · rw [(hbody fs).2 h1]
        by_cases h2 : stmtFails (List.drop n fs) = true
        · have h3 := (stmtFails_iff _).1 h2
          simp [h1, h2, h3]
        · have h3 : true ∉ List.take 1 (List.drop n fs) := fun h => h2 ((stmtFails_iff _).2 h)
          simp [h1, h2, h3, List.drop_drop, Nat.add_comm]

theorem mergeBody_spec (k : Nat) (rest : List Int) (c : String) (s : Store) (fs : Faults) :
    (true ∈ fs.take (rest.length + 1) → ∃ e fs1, mergeBody k rest c s fs = (.error e, fs1)) ∧
    (true ∉ fs.take (rest.length + 1) →
      mergeBody k rest c s fs =
        (.ok ((), { s with fragments := deleteAll rest (updateContent k c s.fragments) }),
          fs.drop (rest.length + 1))) := by
  cases fs with
  | nil =>
    have h := (deleteLoop_spec rest { s with fragments := updateContent k c s.fragments } []).2
      (by simp)
    simp [mergeBody, stmtFails, h]
  | cons b fs =>
    cases b with
    | true => simp [mergeBody, stmtFails]
    | false =>
      have h := deleteLoop_spec rest { s with fragments := updateContent k c s.fragments } fs
      simp only [List.take_succ_cons, List.mem_cons, Bool.true_eq_false, false_or, mergeBody,
        stmtFails_cons, Bool.false_eq_true, ↓reduceIte, List.tail_cons, List.drop_succ_cons]
      exact h

/-- Behaviour of `mergeFragments` on a non-empty id list: an error and the untouched store
when one of its statements is refused, the merged store otherwise. -/
theorem mergeFragments_cons (first : Int) (rest : List Int) (c : String) (s : Store)
    (fs : Faults) :
    (true ∈ fs.take (rest.length + 3) →
      ∃ e fs1, mergeFragments (first :: rest) c s fs = some (some e, s, fs1)) ∧
    (true ∉ fs.take (rest.length + 3) →
      mergeFragments (first :: rest) c s fs =
        some (none,
          { s with fragments := deleteAll rest (updateContent (toUint first) c s.fragments) },
          fs.drop (rest.length + 3))) := by
  have h := transaction_spec (mergeBody (toUint first) rest c) s fs (rest.length + 1)
    ((), { s with fragments := deleteAll rest (updateContent (toUint first) c s.fragments) })
    (fun gs => mergeBody_spec (toUint first) rest c s gs)
  constructor
  · intro hf
    obtain ⟨e, fs1, he⟩ := h.1 hf
    exact ⟨e, fs1, by simp [mergeFragments, he]⟩
  · intro hf
    simp [mergeFragments, h.2 hf]

/-- Behaviour of `deleteFragments`. -/
theorem deleteFragments_spec (ids : List Int) (s : Store) (fs : Faults) :
    (true ∈ fs.take (ids.length + 2) →
      ∃ e fs1, deleteFragments ids s fs = (some e, s, fs1)) ∧
    (true ∉ fs.take (ids.length + 2) →
      deleteFragments ids s fs =
        (none, { s with fragments := deleteAll ids s.fragments }, fs.drop (ids.length + 2))) := by
  have h := transaction_spec (deleteLoop ids) s fs ids.length
    ((), { s with fragments := deleteAll ids s.fragments })
    (fun gs => deleteLoop_spec ids s gs)
  constructor
  · intro hf
    obtain ⟨e, fs1, he⟩ := h.1 hf
    exact ⟨e, fs1, by simp [deleteFragments, he]⟩
  · intro hf
    simp [deleteFragments, h.2 hf]

theorem toUint_natCast (n : Nat) (h : n < 2 ^ 64) : toUint (n : Int) = n := by
  unfold toUint
  have h1 : ((n : Int) % 2 ^ 64) = n := Int.emod_eq_of_lt (by omega) (by exact_mod_cast h)
  rw [h1]
  simp

theorem isLiveID_iff (s : Store) (id : Int) :
    isLiveID s id = true ↔ ∃ f ∈ s.fragments, f.live = true ∧ (f.ID : Int) = id := by
  simp [isLiveID, List.any_eq_true]

theorem merged_rows_eq (k : Nat) (rest : List Int) (c : String) (rows : List Fragment) :
    deleteAll rest (updateContent k c rows) = rows.map (mergeRow k rest c) := by
  rw [deleteAll_eq_map, updateContent, List.map_map]
  rfl

theorem mergeRow_ID (k : Nat) (rest : List Int) (c : String) (f : Fragment) :
    (mergeRow k rest c f).ID = f.ID := by
  obtain ⟨fid, fca, fd, fc⟩ := f
  cases fd <;> by_cases h3 : (fid : Int) ∈ rest <;> by_cases h2 : fid = k <;>
    (try subst h2) <;> simp_all [mergeRow, Fragment.live]

theorem mergeRow_live (k : Nat) (rest : List Int) (c : String) (f : Fragment) :
    (mergeRow k rest c f).live = true ↔ f.live = true ∧ (f.ID : Int) ∉ rest := by
  obtain ⟨fid, fca, fd, fc⟩ := f
  cases fd <;> by_cases h3 : (fid : Int) ∈ rest <;> by_cases h2 : fid = k <;>
    (try subst h2) <;> simp_all [mergeRow, Fragment.live]

theorem mergeRow_content (k : Nat) (rest : List Int) (c : String) (f : Fragment)
    (hl : f.live = true) (hk : f.ID = k) : (mergeRow k rest c f).Content = c := by
  obtain ⟨fid, fca, fd, fc⟩ := f
  simp only at hk
  subst hk
  cases fd <;> by_cases h3 : (fid : Int) ∈ rest <;>
    simp_all [mergeRow, Fragment.live]

theorem mergeRow_other (k : Nat) (rest : List Int) (c : String) (f : Fragment)
    (hk : f.ID ≠ k) (hr : (f.ID : Int) ∉ rest) : mergeRow k rest c f = f := by
  obtain ⟨fid, fca, fd, fc⟩ := f
  cases fd <;> simp_all [mergeRow, Fragment.live]

theorem headersOf_append (l1 l2 : List LogLine) :
    headersOf (l1 ++ l2) = headersOf l1 ++ headersOf l2 := by
  induction l1 with
  | nil => rfl
  | cons x l1 ih => cases x <;> simp [headersOf, ih]

/-- One loop iteration never panics, announces its action, and leaves the store untouched
when it reports a failure. -/
theorem compressionStep_total (i : Nat) (a : Action) (st : RunState) :
    ∃ st1, compressionStep i a st = some st1 ∧
      headersOf st1.log = headersOf st.log ++ [a] ∧
      (endsInFailure st1.log = true → st1.store = st.store) := by
  simp only [compressionStep]
  by_cases hm : a.Type_ = "merge" ∧ a.FragmentIDs.length > 1
  · rw [if_pos hm]
    obtain ⟨first, rest, hids⟩ : ∃ first rest, a.FragmentIDs = first :: rest := by
      cases h : a.FragmentIDs with
      | nil => rw [h] at hm; simp at hm
      | cons x xs => exact ⟨x, xs, rfl⟩
    have hspec := mergeFragments_cons first rest a.NewContent st.store st.faults
    rw [hids]
    by_cases hf : true ∈ st.faults.take (rest.length + 3)
    · obtain ⟨e, fs1, he⟩ := hspec.1 hf
      rw [he]
      refine ⟨_, rfl, ?_, fun _ => rfl⟩
      simp [headersOf_append, headersOf]
    · rw [hspec.2 hf]
      refine ⟨_, rfl, ?_, ?_⟩
      · simp [headersOf_append, headersOf]
      · simp [endsInFailure]
  · rw [if_neg hm]
    by_cases hd : a.Type_ = "delete" ∧ a.FragmentIDs.length > 0
    · rw [if_pos hd]
      have hspec := deleteFragments_spec a.FragmentIDs st.store st.faults
      by_cases hf : true ∈ st.faults.take (a.FragmentIDs.length + 2)
      · obtain ⟨e, fs1, he⟩ := hspec.1 hf
        rw [he]
        refine ⟨_, rfl, ?_, fun _ => rfl⟩
        simp [headersOf_append, headersOf]
      · rw [hspec.2 hf]
        refine ⟨_, rfl, ?_, ?_⟩
        · simp [headersOf_append, headersOf]
        · simp [endsInFailure]
    · rw [if_neg hd]
      refine ⟨_, rfl, ?_, fun _ => rfl⟩
      simp [headersOf_append, headersOf]

theorem actionsLoop_total (i : Nat) (as : List Action) (st : RunState) :
    ∃ st1, actionsLoop i as st = some st1 ∧ headersOf st1.log = headersOf st.log ++ as := by
  induction as generalizing i st with
  | nil => exact ⟨st, rfl, by simp⟩
  | cons a as ih =>
    obtain ⟨st1, h1, h2, _⟩ := compressionStep_total i a st
    obtain ⟨st2, h3, h4⟩ := ih (i + 1) st1
    exact ⟨st2, by simp [actionsLoop, h1, h3], by simp [h4, h2]⟩

theorem actionsLoop_append (i : Nat) (pre post : List Action) (st : RunState) :
    actionsLoop i (pre ++ post) st =
      (actionsLoop i pre st).bind (actionsLoop (i + pre.length) post) := by
  induction pre generalizing i st with
  | nil => simp [actionsLoop]
  | cons a pre ih =>
    simp only [List.cons_append, actionsLoop, List.length_cons]
    cases h : compressionStep i a st with
    | none => simp
    | some st1 =>
      have h1 := ih (i + 1) st1
      have h2 : i + 1 + pre.length = i + (pre.length + 1) := by omega
      rw [h2] at h1
      simpa using h1

theorem mergeFragments_ok_store (first : Int) (rest : List Int) (c : String) (s s1 : Store)
    (fs fs1 : Faults) (h : mergeFragments (first :: rest) c s fs = some (none, s1, fs1)) :
    s1 = { s with fragments := s.fragments.map (mergeRow (toUint first) rest c) } := by
  have hspec := mergeFragments_cons first rest c s fs
  by_cases hf : true ∈ fs.take (rest.length + 3)
  · obtain ⟨e, gs, he⟩ := hspec.1 hf
    rw [he] at h
    simp at h
  · rw [hspec.2 hf] at h
    simp only [Option.some.injEq, Prod.mk.injEq, true_and] at h
    rw [← h.1, merged_rows_eq]

theorem compressionStep_nofault (i : Nat) (a : Action) (s : Store) (log : List LogLine) :
    ∃ s1 log1, compressionStep i a ⟨s, [], log⟩ = some ⟨s1, [], log1⟩ ∧
      liveIDs s1 = (liveIDs s).filter fun (k : Nat) => decide ((k : Int) ∉ a.targets) := by
  simp only [compressionStep]
  by_cases hm : a.Type_ = "merge" ∧ a.FragmentIDs.length > 1
  · have ht : a.targets = a.FragmentIDs.tail := by simp only [Action.targets, if_pos hm]
    rw [if_pos hm, ht]
    obtain ⟨first, rest, hids⟩ : ∃ first rest, a.FragmentIDs = first :: rest := by
      cases h : a.FragmentIDs with
      | nil => rw [h] at hm; simp at hm
      | cons x xs => exact ⟨x, xs, rfl⟩
    rw [hids, (mergeFragments_cons first rest a.NewContent s []).2 (by simp), List.drop_nil]
    refine ⟨_, _, rfl, ?_⟩
    simp only [liveIDs, liveFragments, List.tail_cons]
    rw [live_ids_deleteAll, live_ids_updateContent]
  · rw [if_neg hm]
    by_cases hd : a.Type_ = "delete" ∧ a.FragmentIDs.length > 0
    · have ht : a.targets = a.FragmentIDs := by
        simp only [Action.targets, if_neg hm, if_pos hd]
      rw [if_pos hd, ht, (deleteFragments_spec a.FragmentIDs s []).2 (by simp), List.drop_nil]
      refine ⟨_, _, rfl, ?_⟩
      simp only [liveIDs, liveFragments]
      rw [live_ids_deleteAll]
    · have ht : a.targets = [] := by simp only [Action.targets, if_neg hm, if_neg hd]
      rw [if_neg hd, ht]
      exact ⟨_, _, rfl, by simp⟩

theorem actionsLoop_nofault (i : Nat) (as : List Action) (s : Store) (log : List LogLine) :
    ∃ s1 log1, actionsLoop i as ⟨s, [], log⟩ = some ⟨s1, [], log1⟩ ∧
      liveIDs s1 =
        (liveIDs s).filter fun (k : Nat) => decide (∀ a ∈ as, (k : Int) ∉ a.targets) := by
  induction as generalizing i s log with
  | nil => exact ⟨s, log, rfl, by simp⟩
  | cons a as ih =>
    obtain ⟨s1, log1, h1, h2⟩ := compressionStep_nofault i a s log
    obtain ⟨s2, log2, h3, h4⟩ := ih (i + 1) s1 log1
    refine ⟨s2, log2, by simp [actionsLoop, h1, h3], ?_⟩
    rw [h4, h2, List.filter_filter]
    apply List.filter_congr
    intro k _
    simp [Bool.and_comm]

/-- C1 (counterexample): on four fragments the collaborator proposes to delete fragment 1 and
then fragment 2.  Thirty percent of four allows one removal, so the second deletion would
have to be skipped; the engine applies both (the log reports two deletions, only fragments
3 and 4 stay live) and the removal total of the applied actions is 2, above the bound. -/
theorem compress_exceeds_thirty_percent :
    (CompressFragments (fun _ => .ok twoDeletions) store4 []).map
        (fun r => (r.1, liveIDs r.2.store, r.2.log,
          decide (10 * appliedRemovals r.2.log ≤ 3 * (liveFragments store4).length))) =
      some (none, [3, 4],
        [LogLine.actionHeader 1 ⟨"delete", [1], "", "noise"⟩, LogLine.deleted [1],
         LogLine.actionHeader 2 ⟨"delete", [2], "", "noise"⟩, LogLine.deleted [2],
         LogLine.completed], false) := by
  decide

/-- C1 (amended): `executeCompressionActions` enforces no removal bound.  When no storage
statement fails it returns success and executes every action: the fragments live afterwards
are exactly the fragments live before whose id is named neither by a `delete` action nor
after the first position of a `merge` action of at least two ids, whatever share of the
fragment set that removes. -/
theorem executeCompressionActions_removes_all_targets (response : compressionResponse)
    (s : Store) :
    ∃ st, executeCompressionActions response s [] = some (none, st) ∧
      liveIDs st.store =
        (liveIDs s).filter fun (k : Nat) =>
          decide (∀ a ∈ response.Actions, (k : Int) ∉ a.targets) := by
  obtain ⟨s1, log1, h1, h2⟩ := actionsLoop_nofault 0 response.Actions s []
  exact ⟨{ store := s1, faults := [], log := log1 ++ [LogLine.completed] },
    by simp [executeCompressionActions, h1], h2⟩

/-- C2: a successful `mergeFragments` on pairwise distinct ids of live fragments leaves the
first id live with the new content, leaves every other listed id without a live fragment,
leaves every row not named in the list unchanged, and lowers the number of live fragments by
the number of ids after the first. -/
theorem mergeFragments_spec (a : Int) (rest : List Int) (c : String) (s s1 : Store)
    (fs fs1 : Faults) (hnodup : (a :: rest).Nodup)
    (hlive : ∀ id ∈ a :: rest, isLiveID s id = true) (hkeys : fragmentKeysOk s)
    (hok : mergeFragments (a :: rest) c s fs = some (none, s1, fs1)) :
    (∃ f ∈ liveFragments s1, (f.ID : Int) = a ∧ f.Content = c) ∧
    (∀ f ∈ liveFragments s1, (f.ID : Int) = a → f.Content = c) ∧
    (∀ id ∈ rest, isLiveID s1 id = false) ∧
    (∀ f : Fragment, (f.ID : Int) ∉ a :: rest → (f ∈ s1.fragments ↔ f ∈ s.fragments)) ∧
    (liveFragments s1).length + rest.length = (liveFragments s).length := by
  have hs1 := mergeFragments_ok_store a rest c s s1 fs fs1 hok
  subst hs1
  obtain ⟨f0, hf0mem, hf0live, hf0id⟩ := (isLiveID_iff s a).1 (hlive a (by simp))
  have hk : toUint a = f0.ID := by
    rw [← hf0id]; exact toUint_natCast _ (hkeys.2 f0 hf0mem)
  have hanot : a ∉ rest := (List.nodup_cons.1 hnodup).1
  refine ⟨?_, ?_, ?_, ?_, ?_⟩
  · refine ⟨mergeRow (toUint a) rest c f0, ?_, ?_, mergeRow_content _ _ _ _ hf0live hk.symm⟩
    · refine List.mem_filter.2 ⟨List.mem_map_of_mem _ hf0mem, ?_⟩
      exact (mergeRow_live _ _ _ _).2 ⟨hf0live, by rw [hf0id]; exact hanot⟩
    · rw [mergeRow_ID]; exact hf0id
  · intro f hf hfa
    obtain ⟨hfmem, hfl⟩ := List.mem_filter.1 hf
    obtain ⟨g, hg, rfl⟩ := List.mem_map.1 hfmem
    have hgl := ((mergeRow_live _ _ _ _).1 hfl).1
    rw [mergeRow_ID] at hfa
    have hgk : g.ID = toUint a := by
      rw [hk]; exact_mod_cast hfa.trans hf0id.symm
    exact mergeRow_content _ _ _ _ hgl hgk
  · intro id hid
    rw [Bool.eq_false_iff]
    intro hl
    obtain ⟨f, hfmem, hfl, hfid⟩ := (isLiveID_iff _ id).1 hl
    obtain ⟨g, hg, rfl⟩ := List.mem_map.1 hfmem
    have hgr := ((mergeRow_live _ _ _ _).1 hfl).2
    rw [mergeRow_ID] at hfid
    exact hgr (hfid ▸ hid)
  · intro f hf
    have hne : ∀ g : Fragment, (g.ID : Int) ∉ a :: rest → mergeRow (toUint a) rest c g = g := by
      intro g hg
      apply mergeRow_other
      · intro h
        apply hg
        rw [hk] at h
        simp [h, hf0id]
      · exact fun h => hg (List.mem_cons_of_mem _ h)
    constructor
    · intro h
      obtain ⟨g, hg, hgf⟩ := List.mem_map.1 h
      have hid : g.ID = f.ID := by rw [← hgf, mergeRow_ID]
      rw [hne g (by rw [hid]; exact hf)] at hgf
      exact hgf ▸ hg
    · intro h
      exact List.mem_map.2 ⟨f, h, hne f hf⟩
  · have e1 : (liveFragments
        { s with fragments := s.fragments.map (mergeRow (toUint a) rest c) }).length =
        (((s.fragments.filter Fragment.live).map Fragment.ID).filter
          fun (k : Nat) => decide ((k : Int) ∉ rest)).length := by
      rw [← live_ids_updateContent (toUint a) c, ← live_ids_deleteAll, merged_rows_eq]
      simp [liveFragments]
    have hLnodup : ((s.fragments.filter Fragment.live).map Fragment.ID).Nodup :=
      hkeys.1.sublist ((List.filter_sublist _).map _)
    have hM : ((((s.fragments.filter Fragment.live).map Fragment.ID).filter
        fun (k : Nat) => !decide ((k : Int) ∉ rest)).map fun (k : Nat) => (k : Int)).Nodup :=
      (hLnodup.filter _).map Nat.cast_injective
    have hperm := (List.perm_ext_iff_of_nodup hM (List.nodup_cons.1 hnodup).2).2 (by
      intro x
      simp only [List.mem_map, List.mem_filter, decide_not, Bool.not_not, decide_eq_true_eq]
      constructor
      · rintro ⟨k, ⟨_, hk2⟩, rfl⟩
        exact hk2
      · intro hx
        obtain ⟨f, hfm, hfl, hfid⟩ := (isLiveID_iff s x).1 (hlive x (List.mem_cons_of_mem _ hx))
        exact ⟨f.ID, ⟨⟨f, ⟨hfm, hfl⟩, rfl⟩, hfid ▸ hx⟩, hfid⟩)
    have e2 := hperm.length_eq
    rw [List.length_map] at e2
    have e3 := List.length_eq_length_filter_add
      (l := (s.fragments.filter Fragment.live).map Fragment.ID)
      (fun (k : Nat) => decide ((k : Int) ∉ rest))
    rw [e1, ← e2]
    simp only [liveFragments]
    rw [List.length_map] at e3
    omega

/-- C2 (witness): merging fragments 1 and 2 of a store of two fragments into "combined". -/
theorem mergeFragments_spec_witness :
    (∃ f ∈ liveFragments store2Merged, (f.ID : Int) = 1 ∧ f.Content = "combined") ∧
    (∀ f ∈ liveFragments store2Merged, (f.ID : Int) = 1 → f.Content = "combined") ∧
    (∀ id ∈ ([2] : List Int), isLiveID store2Merged id = false) ∧
    (∀ f : Fragment, (f.ID : Int) ∉ ([1, 2] : List Int) →
      (f ∈ store2Merged.fragments ↔ f ∈ store2.fragments)) ∧
    (liveFragments store2Merged).length + ([2] : List Int).length =
      (liveFragments store2).length :=
  mergeFragments_spec 1 [2] "combined" store2 store2Merged [] [] (by decide) (by decide)
    (by decide) (by decide)

/-- C3 (counterexample): the collaborator names a first id that identifies no fragment.  The
merge is reported as applied, fragment 2 is soft deleted and no id named by the action
identifies a live fragment afterwards. -/
theorem merge_without_live_first_retains_none :
    executeCompressionActions ⟨[danglingMerge], "one merge"⟩ store2 [] =
      some (none, ⟨store2AfterDanglingMerge, [],
        [LogLine.actionHeader 1 danglingMerge, LogLine.merged [3, 2], LogLine.completed]⟩) ∧
    ¬ mergeRetainsFirst danglingMerge store2AfterDanglingMerge := by
  decide

/-- C3 (amended): a merge action of at least two ids whose first id identifies a live
fragment and is not repeated later in the list, once applied successfully, leaves exactly
the first of its ids live, holding the new content of the action. -/
theorem merge_action_retains_first (i : Nat) (a : Action) (first : Int) (rest : List Int)
    (st st1 : RunState) (htype : a.Type_ = "merge") (hids : a.FragmentIDs = first :: rest)
    (hlen : rest ≠ []) (hfirst : isLiveID st.store first = true) (hrep : first ∉ rest)
    (hkeys : fragmentKeysOk st.store) (hstep : compressionStep i a st = some st1)
    (happlied : endsInMerged st1.log = true) :
    mergeRetainsFirst a st1.store := by
  have hm : a.Type_ = "merge" ∧ a.FragmentIDs.length > 1 := by
    refine ⟨htype, ?_⟩
    rw [hids]
    cases rest with
    | nil => exact absurd rfl hlen
    | cons x xs => simp
  simp only [compressionStep] at hstep
  rw [if_pos hm, hids] at hstep
  obtain ⟨f0, hf0mem, hf0live, hf0id⟩ := (isLiveID_iff st.store first).1 hfirst
  have hk : toUint first = f0.ID := by
    rw [← hf0id]; exact toUint_natCast _ (hkeys.2 f0 hf0mem)
  have hstore : st1.store =
      { st.store with fragments := st.store.fragments.map (mergeRow (toUint first) rest a.NewContent) } := by
    have hspec := mergeFragments_cons first rest a.NewContent st.store st.faults
    by_cases hf : true ∈ st.faults.take (rest.length + 3)
    · obtain ⟨e, gs, he⟩ := hspec.1 hf
      rw [he] at hstep
      simp only [Option.some.injEq] at hstep
      rw [← hstep] at happlied
      simp [endsInMerged] at happlied
    · rw [hspec.2 hf] at hstep
      simp only [Option.some.injEq] at hstep
      rw [← hstep, merged_rows_eq]
  rw [hstore]
  constructor
  · intro id hid
    rw [hids] at hid ⊢
    simp only [List.head?_cons, Option.some.injEq]
    constructor
    · intro hl
      obtain ⟨f, hfmem, hfl, hfid⟩ := (isLiveID_iff _ id).1 hl
      obtain ⟨g, hg, rfl⟩ := List.mem_map.1 hfmem
      have hgr := ((mergeRow_live _ _ _ _).1 hfl).2
      rw [mergeRow_ID] at hfid
      rw [hfid] at hgr
      rcases List.mem_cons.1 hid with h | h
      · exact h
      · exact absurd h hgr
    · intro h
      subst h
      refine (isLiveID_iff _ id).2 ⟨mergeRow (toUint id) rest a.NewContent f0,
        List.mem_map_of_mem _ hf0mem, ?_, ?_⟩
      · exact (mergeRow_live _ _ _ _).2 ⟨hf0live, by rw [hf0id]; exact hrep⟩
      · rw [mergeRow_ID]; exact hf0id
  · intro f hf hfa
    rw [hids] at hfa
    simp only [List.head?_cons, Option.some.injEq] at hfa
    obtain ⟨hfmem, hfl⟩ := List.mem_filter.1 hf
    obtain ⟨g, hg, rfl⟩ := List.mem_map.1 hfmem
    have hgl := ((mergeRow_live _ _ _ _).1 hfl).1
    rw [mergeRow_ID] at hfa
    have hgk : g.ID = toUint first := by
      rw [hk]; exact_mod_cast hfa.trans hf0id.symm
    exact mergeRow_content _ _ _ _ hgl hgk

/-- C3 (witness): the merge of fragments 1 and 2 of `store2`, applied as the first action. -/
theorem merge_action_retains_first_witness :
    mergeRetainsFirst ⟨"merge", [1, 2], "combined", "similar"⟩ store2Merged :=
  merge_action_retains_first 0 ⟨"merge", [1, 2], "combined", "similar"⟩ 1 [2]
    ⟨store2, [], []⟩
    ⟨store2Merged, [],
      [LogLine.actionHeader 1 ⟨"merge", [1, 2], "combined", "similar"⟩, LogLine.merged [1, 2]]⟩
    (by decide) (by decide) (by decide) (by decide) (by decide) (by decide) (by decide)
    (by decide)

/-- C4: `mergeFragments` on a non-empty id list always returns (no panic); whenever it
returns an error the store is exactly the store before the call; and it returns an error
whenever one of its statements (begin, the content update, one deletion per further id,
commit) is refused. -/
theorem mergeFragments_atomic (ids : List Int) (c : String) (s : Store) (fs : Faults)
    (hne : ids ≠ []) :
    ∃ err s1 fs1, mergeFragments ids c s fs = some (err, s1, fs1) ∧
      (err ≠ none → s1 = s) ∧
      (true ∈ fs.take (ids.length + 2) → err ≠ none ∧ s1 = s) := by
  cases ids with
  | nil => exact absurd rfl hne
  | cons first rest =>
    have hspec := mergeFragments_cons first rest c s fs
    by_cases hf : true ∈ fs.take (rest.length + 3)
    · obtain ⟨e, gs, he⟩ := hspec.1 hf
      exact ⟨some e, s, gs, he, fun _ => rfl, fun _ => ⟨by simp, rfl⟩⟩
    · exact ⟨none, _, _, hspec.2 hf, fun h => absurd rfl h, fun h => absurd h hf⟩

/-- C4 (witness): the deletion of fragment 2 is refused after the content of fragment 1 was
rewritten inside the transaction; the call fails and the store is the one before. -/
theorem mergeFragments_atomic_witness :
    mergeFragments [1, 2] "combined" store2 [false, false, true] =
      some (some "delete failed", store2, []) ∧
    ∃ err s1 fs1, mergeFragments [1, 2] "combined" store2 [false, false, true] =
        some (err, s1, fs1) ∧
      (err ≠ none → s1 = store2) ∧
      (true ∈ ([false, false, true] : Faults).take (([1, 2] : List Int).length + 2) →
        err ≠ none ∧ s1 = store2) :=
  ⟨by decide, mergeFragments_atomic [1, 2] "combined" store2 [false, false, true] (by decide)⟩

/-- C5: `executeCompressionActions` never panics and returns `nil`; its log announces every
action of the list in array order; and for every position of the list the run is the run of
the actions before it, followed by that action from the state they left, followed by the
actions after it from the state it left, where an action reported as failed leaves the
store exactly as the actions before it left it. -/
theorem compression_isolates_actions (response : compressionResponse) (s : Store)
    (fs : Faults) :
    (∃ st, executeCompressionActions response s fs = some (none, st) ∧
      headersOf st.log = response.Actions) ∧
    ∀ pre a post, response.Actions = pre ++ a :: post →
      ∃ st1 st2 st3,
        actionsLoop 0 pre ⟨s, fs, []⟩ = some st1 ∧
        compressionStep pre.length a st1 = some st2 ∧
        actionsLoop (pre.length + 1) post st2 = some st3 ∧
        executeCompressionActions response s fs =
          some (none, { st3 with log := st3.log ++ [LogLine.completed] }) ∧
        (endsInFailure st2.log = true → st2.store = st1.store) := by
  constructor
  · obtain ⟨st1, h1, h2⟩ := actionsLoop_total 0 response.Actions ⟨s, fs, []⟩
    refine ⟨{ st1 with log := st1.log ++ [LogLine.completed] }, ?_, ?_⟩
    · simp [executeCompressionActions, h1]
    · simp [headersOf_append, headersOf, h2]
  · intro pre a post hsplit
    obtain ⟨st1, h1, _⟩ := actionsLoop_total 0 pre ⟨s, fs, []⟩
    obtain ⟨st2, h2, _, h2f⟩ := compressionStep_total pre.length a st1
    obtain ⟨st3, h3, _⟩ := actionsLoop_total (pre.length + 1) post st2
    refine ⟨st1, st2, st3, h1, h2, h3, ?_, h2f⟩
    have h4 : actionsLoop 0 response.Actions ⟨s, fs, []⟩ = some st3 := by
      rw [hsplit, actionsLoop_append, h1]
      simp [actionsLoop, h2, h3]
    simp [executeCompressionActions, h4]

/-- C5 (witness): of three actions on four fragments the second fails at its content
update.  The run returns `nil`, fragment 1 (first action) and fragment 4 (third action) are
deleted, fragments 2 and 3 are untouched, and the log reports the failure in between. -/
theorem compression_isolates_actions_witness :
    (executeCompressionActions threeActions store4 faultInSecondAction).map
        (fun r => (r.1, liveFragments r.2.store, r.2.log)) =
      some (none, [mkFragment 2 "beta", mkFragment 3 "gamma"],
        [LogLine.actionHeader 1 ⟨"delete", [1], "", "noise"⟩, LogLine.deleted [1],
         LogLine.actionHeader 2 ⟨"merge", [2, 3], "merged", "similar"⟩,
         LogLine.mergeFailed [2, 3] "update failed",
         LogLine.actionHeader 3 ⟨"delete", [4], "", "noise"⟩, LogLine.deleted [4],
         LogLine.completed]) ∧
    ((∃ st, executeCompressionActions threeActions store4 faultInSecondAction =
        some (none, st) ∧ headersOf st.log = threeActions.Actions) ∧
    ∀ pre a post, threeActions.Actions = pre ++ a :: post →
      ∃ st1 st2 st3,
        actionsLoop 0 pre ⟨store4, faultInSecondAction, []⟩ = some st1 ∧
        compressionStep pre.length a st1 = some st2 ∧
        actionsLoop (pre.length + 1) post st2 = some st3 ∧
        executeCompressionActions threeActions store4 faultInSecondAction =
          some (none, { st3 with log := st3.log ++ [LogLine.completed] }) ∧
        (endsInFailure st2.log = true → st2.store = st1.store)) :=
  ⟨by decide, compression_isolates_actions threeActions store4 faultInSecondAction⟩

/-! ## The ordering loop of `GenerateDocuments` -/

theorem idAt_of_getElem? (l : List Fragment) (p : Nat) (f : Fragment) (h : l[p]? = some f) :
    idAt l p = f.ID := by
  simp [idAt, h]

theorem swap_perm (l : List Fragment) (i j : Nat) (x y : Fragment) (hx : l[i]? = some x)
    (hy : l[j]? = some y) (hne : i ≠ j) : ((l.set i y).set j x).Perm l := by
  obtain ⟨hi, hxi⟩ := List.getElem?_eq_some.1 hx
  obtain ⟨hj, hyj⟩ := List.getElem?_eq_some.1 hy
  rw [List.perm_iff_count]
  intro a
  have hj1 : j < (l.set i y).length := by simpa using hj
  rw [List.count_set _ _ _ _ hj1, List.count_set _ _ _ _ hi, List.getElem_set_ne hne, hxi, hyj]
  have hxa : (if (x == a) = true then 1 else 0) ≤ l.count a := by
    split
    · rename_i h
      have hax : x = a := by simpa using h
      have hmem : a ∈ l := hax ▸ List.getElem?_mem hx
      exact List.count_pos_iff.2 hmem
    · omega
  split_ifs at hxa ⊢ <;> omega

theorem sortInner_spec (l : List Fragment) (i j : Nat) (hij : i < j) (hj : j < l.length) :
    (sortInner i l j).length = l.length ∧ (sortInner i l j).Perm l ∧
    (∀ p, p ≠ i → p ≠ j → idAt (sortInner i l j) p = idAt l p) ∧
    idAt (sortInner i l j) i ≤ idAt (sortInner i l j) j ∧
    ((idAt (sortInner i l j) i = idAt l i ∧ idAt (sortInner i l j) j = idAt l j) ∨
     (idAt (sortInner i l j) i = idAt l j ∧ idAt (sortInner i l j) j = idAt l i)) := by
  have hi : i < l.length := by omega
  have hx : l[i]? = some l[i] := List.getElem?_eq_getElem hi
  have hy : l[j]? = some l[j] := List.getElem?_eq_getElem hj
  have hne : i ≠ j := by omega
  by_cases hgt : l[i].ID > l[j].ID
  · have hs : sortInner i l j = (l.set i l[j]).set j l[i] := by
      simp only [sortInner, hx, hy, if_pos hgt]
    rw [hs]
    have e1 : idAt ((l.set i l[j]).set j l[i]) i = l[j].ID := by
      apply idAt_of_getElem?
      rw [List.getElem?_set, if_neg (Ne.symm hne), List.getElem?_set, if_pos rfl, if_pos hi]
    have e2 : idAt ((l.set i l[j]).set j l[i]) j = l[i].ID := by
      apply idAt_of_getElem?
      rw [List.getElem?_set, if_pos rfl, if_pos (by simpa using hj)]
    have e3 : idAt l i = l[i].ID := idAt_of_getElem? l i _ hx
    have e4 : idAt l j = l[j].ID := idAt_of_getElem? l j _ hy
    refine ⟨by simp, swap_perm l i j _ _ hx hy hne, ?_, ?_, ?_⟩
    · intro p hpi hpj
      simp only [idAt]
      rw [List.getElem?_set, if_neg (Ne.symm hpj), List.getElem?_set, if_neg (Ne.symm hpi)]
    · rw [e1, e2]; omega
    · right; rw [e1, e2, e3, e4]; exact ⟨rfl, rfl⟩
  · have hs : sortInner i l j = l := by
      simp only [sortInner, hx, hy, if_neg hgt]
    rw [hs]
    have e3 : idAt l i = l[i].ID := idAt_of_getElem? l i _ hx
    have e4 : idAt l j = l[j].ID := idAt_of_getElem? l j _ hy
    refine ⟨rfl, List.Perm.refl _, fun _ _ _ => rfl, ?_, Or.inl ⟨rfl, rfl⟩⟩
    rw [e3, e4]; omega

/-- The inner loop from `start` for `len` steps keeps the invariant of the outer loop and
moves a smallest identifier of the positions visited to position `i`. -/
theorem innerLoop_spec (i : Nat) (len start : Nat) (l : List Fragment) (hstart : i < start)
    (hlen : start + len ≤ l.length) (hset : settledBefore i l)
    (hmin : ∀ q, i < q → q < start → idAt l i ≤ idAt l q) :
    ((List.range' start len).foldl (sortInner i) l).length = l.length ∧
    ((List.range' start len).foldl (sortInner i) l).Perm l ∧
    settledBefore i ((List.range' start len).foldl (sortInner i) l) ∧
    (∀ q, i < q → q < start + len →
      idAt ((List.range' start len).foldl (sortInner i) l) i ≤
        idAt ((List.range' start len).foldl (sortInner i) l) q) := by
  induction len generalizing start l with
  | zero => exact ⟨rfl, List.Perm.refl _, hset, by simpa using hmin⟩
  | succ len ih =>
    rw [List.range'_succ, List.foldl_cons]
    obtain ⟨h1, h2, h3, h4, h5⟩ := sortInner_spec l i start hstart (by omega)
    have hset1 : settledBefore i (sortInner i l start) := by
      intro p q hp hpq hq
      rw [h1] at hq
      have hpp : idAt (sortInner i l start) p = idAt l p := h3 p (by omega) (by omega)
      rw [hpp]
      by_cases hqi : q = i
      · subst hqi
        rcases h5 with h | h
        · rw [h.1]; exact hset p q hp hpq hq
        · rw [h.1]; exact hset p start hp (by omega) (by omega)
      · by_cases hqs : q = start
        · subst hqs
          rcases h5 with h | h
          · rw [h.2]; exact hset p q hp hpq hq
          · rw [h.2]; exact hset p i hp hp (by omega)
        · rw [h3 q hqi hqs]; exact hset p q hp hpq hq
    have hmin1 : ∀ q, i < q → q < start + 1 →
        idAt (sortInner i l start) i ≤ idAt (sortInner i l start) q := by
      intro q hiq hq
      by_cases hqs : q = start
      · subst hqs; exact h4
      · rw [h3 q (by omega) hqs]
        have := hmin q hiq (by omega)
        rcases h5 with h | h
        · rw [h.1]; exact this
        · have h6 := h4
          rw [h.1, h.2] at h6
          rw [h.1]; omega
    obtain ⟨k1, k2, k3, k4⟩ := ih (start + 1) (sortInner i l start) (by omega)
      (by rw [h1]; omega) hset1 hmin1
    refine ⟨k1.trans h1, k2.trans h2, k3, ?_⟩
    intro q hiq hq
    exact k4 q hiq (by omega)

theorem outerLoop_spec (len start : Nat) (l : List Fragment) (hlen : start + len = l.length)
    (hset : settledBefore start l) :
    ((List.range' start len).foldl
      (fun l i => (List.range' (i + 1) (l.length - (i + 1))).foldl (sortInner i) l) l).length =
        l.length ∧
    ((List.range' start len).foldl
      (fun l i => (List.range' (i + 1) (l.length - (i + 1))).foldl (sortInner i) l) l).Perm l ∧
    settledBefore (start + len) ((List.range' start len).foldl
      (fun l i => (List.range' (i + 1) (l.length - (i + 1))).foldl (sortInner i) l) l) := by
  induction len generalizing start l with
  | zero => exact ⟨rfl, List.Perm.refl _, hset⟩
  | succ len ih =>
    rw [List.range'_succ, List.foldl_cons]
    obtain ⟨h1, h2, h3, h4⟩ := innerLoop_spec start (l.length - (start + 1)) (start + 1) l
      (by omega) (by omega) hset (fun q h5 h6 => by omega)
    have hset1 : settledBefore (start + 1)
        ((List.range' (start + 1) (l.length - (start + 1))).foldl (sortInner start) l) := by
      intro p q hp hpq hq
      by_cases hps : p = start
      · subst hps
        exact h4 q hpq (by rw [h1] at hq; omega)
      · exact h3 p q (by omega) hpq hq
    obtain ⟨k1, k2, k3⟩ := ih (start + 1) _ (by rw [h1]; omega) hset1
    refine ⟨k1.trans h1, k2.trans h2, ?_⟩
    have e : start + (len + 1) = start + 1 + len := by omega
    rw [e]
    exact k3

theorem sortFragmentsByID_perm (l : List Fragment) : (sortFragmentsByID l).Perm l := by
  have h := outerLoop_spec l.length 0 l (by omega) (fun p q hp _ _ => by omega)
  rw [sortFragmentsByID, List.range_eq_range']
  exact h.2.1

theorem sortFragmentsByID_sorted (l : List Fragment) :
    (sortFragmentsByID l).Pairwise fun a b => a.ID ≤ b.ID := by
  have h := outerLoop_spec l.length 0 l (by omega) (fun p q hp _ _ => by omega)
  rw [sortFragmentsByID, List.range_eq_range']
  obtain ⟨h1, _, h3⟩ := h
  rw [List.pairwise_iff_getElem]
  intro p q hp hq hpq
  have h4 := h3 p q (by rw [h1] at hp; omega) hpq hq
  rw [idAt_of_getElem? _ p _ (List.getElem?_eq_getElem hp),
    idAt_of_getElem? _ q _ (List.getElem?_eq_getElem hq)] at h4
  exact h4

/-- C9: the ordering loop of `GenerateDocuments` returns a permutation of its input that is
in non-decreasing order of fragment ID; hence two input orders of the same fragments with
distinct IDs give the same list. -/
theorem sortFragmentsByID_correct (l : List Fragment) :
    (sortFragmentsByID l).Perm l ∧
    (sortFragmentsByID l).Pairwise (fun a b => a.ID ≤ b.ID) ∧
    ∀ l2 : List Fragment, l2.Perm l → (l.map Fragment.ID).Nodup →
      sortFragmentsByID l2 = sortFragmentsByID l := by
  refine ⟨sortFragmentsByID_perm l, sortFragmentsByID_sorted l, ?_⟩
  intro l2 hperm hnodup
  have strict : ∀ m : List Fragment, m.Perm l →
      (sortFragmentsByID m).Pairwise (fun a b => a.ID < b.ID) := by
    intro m hm
    have hp := (sortFragmentsByID_perm m).trans hm
    have hnd : ((sortFragmentsByID m).map Fragment.ID).Nodup :=
      (hp.map Fragment.ID).nodup_iff.2 hnodup
    have hne : (sortFragmentsByID m).Pairwise (fun a b => a.ID ≠ b.ID) :=
      List.pairwise_map.1 hnd
    exact ((sortFragmentsByID_sorted m).and hne).imp (fun h => Nat.lt_of_le_of_ne h.1 h.2)
  haveI : IsAntisymm Fragment (fun a b => a.ID < b.ID) :=
    ⟨fun a b h1 h2 => absurd h1 (Nat.lt_asymm h2)⟩
  exact List.eq_of_perm_of_sorted
    ((sortFragmentsByID_perm l2).trans (hperm.trans (sortFragmentsByID_perm l).symm))
    (strict l2 hperm) (strict l (List.Perm.refl _))

/-- C9 (witness): three fragments returned by the store in two different orders. -/
theorem sortFragmentsByID_correct_witness :
    sortFragmentsByID [mkFragment 2 "beta", mkFragment 3 "gamma", mkFragment 1 "alpha"] =
      [mkFragment 1 "alpha", mkFragment 2 "beta", mkFragment 3 "gamma"] ∧
    sortFragmentsByID [mkFragment 2 "beta", mkFragment 3 "gamma", mkFragment 1 "alpha"] =
      sortFragmentsByID [mkFragment 3 "gamma", mkFragment 1 "alpha", mkFragment 2 "beta"] :=
  ⟨by decide,
   (sortFragmentsByID_correct
      [mkFragment 3 "gamma", mkFragment 1 "alpha", mkFragment 2 "beta"]).2.2
      [mkFragment 2 "beta", mkFragment 3 "gamma", mkFragment 1 "alpha"]
      (by decide) (by decide)⟩

/-- C6 (code at the failing inputs): `CreateFragment` with empty content succeeds and stores
a live fragment whose content is empty; a merge action without `new_content` (decoded as
the empty string) is applied and leaves fragment 1 live with empty content. -/
theorem empty_content_is_stored :
    (CreateFragment ⟨""⟩ 7 (fragmentStore []) []).1.toOption =
      some { ID := 1, CreatedAt := 7, Deleted := false, Content := "" } ∧
    liveFragments (CreateFragment ⟨""⟩ 7 (fragmentStore []) []).2.1 =
      [{ ID := 1, CreatedAt := 7, Deleted := false, Content := "" }] ∧
    (executeCompressionActions ⟨[⟨"merge", [1, 2], "", "similar"⟩], "one merge"⟩ store2 []).map
        (fun r => (r.1, liveFragments r.2.store, r.2.log)) =
      some (none, [mkFragment 1 ""],
        [LogLine.actionHeader 1 ⟨"merge", [1, 2], "", "similar"⟩, LogLine.merged [1, 2],
          LogLine.completed]) := by
  decide

/-! ## The document generator -/

theorem neg_lt_tmod (a b : Int) (hb : 0 < b) : -b < Int.tmod a b := by
  cases a with
  | ofNat m =>
    have h := Int.tmod_nonneg (a := Int.ofNat m) b (Int.ofNat_nonneg m)
    omega
  | negSucc m =>
    have h1 : Int.tmod (Int.negSucc m) b = -(((m + 1) % b.natAbs : Nat) : Int) := by
      cases b <;> rfl
    have h2 : (m + 1) % b.natAbs < b.natAbs := Nat.mod_lt _ (by omega)
    omega

theorem tagHue_range (tagName : String) : 0 ≤ tagHue tagName ∧ tagHue tagName < 360 := by
  unfold tagHue
  have h1 := neg_lt_tmod (tagHash tagName) 360 (by norm_num)
  have h2 := Int.tmod_lt_of_pos (tagHash tagName) (b := 360) (by norm_num)
  exact ⟨Int.tmod_nonneg 360 (by omega), Int.tmod_lt_of_pos _ (by norm_num)⟩

theorem generateTagColor_total (tagName : String) :
    ∃ c, generateTagColor tagName = some c ∧ c ∈ colors := by
  have h := tagHue_range tagName
  have h1 : 0 ≤ Int.tmod (tagHue tagName) 6 := Int.tmod_nonneg 6 h.1
  have h2 : Int.tmod (tagHue tagName) 6 < 6 := Int.tmod_lt_of_pos _ (by norm_num)
  have hlen : (colors.length : Int) = 6 := rfl
  have h3 : (Int.tmod (tagHue tagName) 6).toNat < colors.length := by
    have : colors.length = 6 := rfl
    omega
  refine ⟨colors[(Int.tmod (tagHue tagName) 6).toNat], ?_, List.getElem_mem _⟩
  simp only [generateTagColor, hlen]
  rw [if_neg (by omega)]
  exact List.getElem?_eq_getElem h3

/-- Frame of `createOrGetTags`: it never panics and touches only the tag table. -/
theorem createOrGetTagsLoop_total (now : Nat) (names : List String) (acc : List Nat)
    (s : Store) (fs : Faults) :
    ∃ r s1 fs1, createOrGetTagsLoop now names acc s fs = some (r, s1, fs1) ∧
      s1.documents = s.documents ∧ s1.fragments = s.fragments ∧
      s1.document_fragments = s.document_fragments ∧ s1.document_tags = s.document_tags ∧
      s1.documentSeq = s.documentSeq := by
  induction names generalizing acc s fs with
  | nil => exact ⟨_, _, _, rfl, rfl, rfl, rfl, rfl, rfl⟩
  | cons name rest ih =>
    simp only [createOrGetTagsLoop]
    by_cases hname : name = ""
    · rw [if_pos hname]; exact ih acc s fs
    · rw [if_neg hname]
      cases hfind : (if stmtFails fs = true then none
          else s.tags.find? fun t => !t.Deleted && t.Name == name) with
      | some tag => exact ih _ s _
      | none =>
        obtain ⟨c, hc, _⟩ := generateTagColor_total name
        simp only [hc]
        by_cases hfail : stmtFails fs.tail = true ∨ (s.tags.any fun t => t.Name == name) = true
        · rw [if_pos hfail]; exact ⟨_, _, _, rfl, rfl, rfl, rfl, rfl, rfl⟩
        · rw [if_neg hfail]
          exact ih _ _ _

theorem linkFragments_ok (doc : Nat) (ids : List Nat) (s s1 : Store) (fs fs1 : Faults)
    (h : linkFragments doc ids s fs = (.ok s1, fs1)) :
    s1.documents = s.documents ∧ s1.tags = s.tags ∧ s1.fragments = s.fragments ∧
      s1.document_tags = s.document_tags := by
  unfold linkFragments at h
  split_ifs at h <;> simp only [Prod.mk.injEq, Except.ok.injEq, reduceCtorEq, false_and] at h
  · obtain ⟨h1, _⟩ := h; subst h1; exact ⟨rfl, rfl, rfl, rfl⟩
  · obtain ⟨h1, _⟩ := h; subst h1; exact ⟨rfl, rfl, rfl, rfl⟩

theorem linkTags_ok (doc : Nat) (ids : List Nat) (s s1 : Store) (fs fs1 : Faults)
    (h : linkTags doc ids s fs = (.ok s1, fs1)) :
    s1.documents = s.documents ∧ s1.tags = s.tags ∧ s1.fragments = s.fragments ∧
      s1.document_fragments = s.document_fragments := by
  unfold linkTags at h
  split_ifs at h <;> simp only [Prod.mk.injEq, Except.ok.injEq, reduceCtorEq, false_and] at h
  · obtain ⟨h1, _⟩ := h; subst h1; exact ⟨rfl, rfl, rfl, rfl⟩
  · obtain ⟨h1, _⟩ := h; subst h1; exact ⟨rfl, rfl, rfl, rfl⟩

/-- A successful transaction body of `CreateDocument` appends exactly the new row, built
from the input, to the document table. -/
theorem createDocumentBody_ok (input : CreateDocumentInput) (now : Nat) (s s1 : Store)
    (fs fs1 : Faults) (doc : Document)
    (h : createDocumentBody input now s fs = (.ok (doc, s1), fs1)) :
    s1.documents = s.documents ++ [doc] ∧ s1.fragments = s.fragments ∧
      doc.VersionCreatedAt = input.VersionCreatedAt ∧ doc.Title = input.Title ∧
      doc.Summary = input.Summary ∧ doc.Content = input.Content := by
  simp only [createDocumentBody] at h
  split_ifs at h
  · simp at h
  · split at h
    · simp at h
    · rename_i s2 fs2 hlf
      split at h
      · simp at h
      · rename_i s3 fs3 hlt
        simp only [Prod.mk.injEq, Except.ok.injEq] at h
        obtain ⟨⟨hd, hs⟩, _⟩ := h
        obtain ⟨a1, _, a3, _⟩ := linkFragments_ok _ _ _ _ _ _ hlf
        obtain ⟨b1, _, b3, _⟩ := linkTags_ok _ _ _ _ _ _ hlt
        subst hd hs
        rw [b1, a1, b3, a3]
        exact ⟨rfl, rfl, rfl, rfl, rfl, rfl⟩

/-- The function `CreateDocument` either fails and leaves the store as it was, or appends
one row carrying the fields of its input. -/
theorem CreateDocument_spec (input : CreateDocumentInput) (now : Nat) (s : Store)
    (fs : Faults) :
    (∃ e fs1, CreateDocument input now s fs = (.error e, s, fs1)) ∨
    (∃ doc s1 fs1, CreateDocument input now s fs = (.ok doc, s1, fs1) ∧
      s1.documents = s.documents ++ [doc] ∧ s1.fragments = s.fragments ∧
      doc.VersionCreatedAt = input.VersionCreatedAt ∧ doc.Title = input.Title ∧
      doc.Summary = input.Summary ∧ doc.Content = input.Content) := by
  simp only [CreateDocument, transaction]
  by_cases h0 : stmtFails fs = true
  · rw [if_pos h0]; exact Or.inl ⟨_, _, rfl⟩
  · rw [if_neg h0]
    cases hb : createDocumentBody input now s fs.tail with
    | mk r fs1 =>
      cases r with
      | error e => exact Or.inl ⟨_, _, rfl⟩
      | ok v =>
        obtain ⟨doc, s1⟩ := v
        by_cases hc : stmtFails fs1 = true
        · simp only [hc, if_true]; exact Or.inl ⟨_, _, rfl⟩
        · simp only [hc]
          exact Or.inr ⟨doc, s1, _, rfl, createDocumentBody_ok input now s s1 _ _ doc hb⟩

theorem createdOf_append (l1 l2 : List GenLine) :
    createdOf (l1 ++ l2) = createdOf l1 ++ createdOf l2 := by
  induction l1 with
  | nil => rfl
  | cons x l1 ih => cases x <;> simp [createdOf, ih]

/-- One iteration of the loop of `createDocumentsFromResponse` never panics; it appends to
the document table exactly the documents it reports as created, each stamped with the
version timestamp of the batch; it reports no AI request. -/
theorem createCandidate_spec (v now i : Nat) (d : DocumentRequest) (st : GenState) :
    ∃ st1 added, createCandidate v now i d st = some st1 ∧ st1.log = st.log ++ added ∧
      st1.store.documents = st.store.documents ++ createdOf added ∧
      st1.store.fragments = st.store.fragments ∧
      (∀ doc ∈ createdOf added, doc.VersionCreatedAt = v) ∧
      (∀ l, GenLine.aiRequest l ∉ added) := by
  obtain ⟨r, s1, fs1, h1, h2, h3, _, _, _⟩ :=
    createOrGetTagsLoop_total now d.Tags [] st.store st.faults
  simp only [createCandidate, createOrGetTags, h1]
  cases r with
  | error e =>
    refine ⟨_, [GenLine.creating (i + 1) d.Title d.Tags, GenLine.tagsFailed d.Title e], rfl,
      by simp, by simp [createdOf, h2], h3, by simp [createdOf], by simp⟩
  | ok tagIDs =>
    rcases CreateDocument_spec
      { Title := d.Title, Summary := d.Summary, Content := d.Content, VersionCreatedAt := v,
        FragmentIDs := d.FragmentIDs.map toUint, TagIDs := tagIDs } now s1 fs1 with
      ⟨e, fs2, h⟩ | ⟨doc, s2, fs2, h, k1, k2, k3, _⟩
    · simp only [h]
      refine ⟨_, [GenLine.creating (i + 1) d.Title d.Tags, GenLine.createFailed d.Title e], rfl,
        by simp, by simp [createdOf, h2], h3, by simp [createdOf], by simp⟩
    · simp only [h]
      refine ⟨_, [GenLine.creating (i + 1) d.Title d.Tags,
        GenLine.created doc (d.FragmentIDs.map toUint).length tagIDs.length], rfl,
        by simp, by simp [createdOf, k1, h2], by simp [k2, h3], ?_, by simp⟩
      intro doc1 hdoc1
      simp only [createdOf, List.mem_singleton] at hdoc1
      subst hdoc1
      exact k3

theorem documentsLoop_spec (v : Nat) (clock : Nat → Nat) (i : Nat) (ds : List DocumentRequest)
    (st : GenState) :
    ∃ st1 added, documentsLoop v clock i ds st = some st1 ∧ st1.log = st.log ++ added ∧
      st1.store.documents = st.store.documents ++ createdOf added ∧
      st1.store.fragments = st.store.fragments ∧
      (∀ doc ∈ createdOf added, doc.VersionCreatedAt = v) ∧
      (∀ l, GenLine.aiRequest l ∉ added) := by
  induction ds generalizing i st with
  | nil => exact ⟨st, [], rfl, by simp, by simp [createdOf], rfl, by simp [createdOf], by simp⟩
  | cons d ds ih =>
    obtain ⟨st1, a1, h1, h2, h3, h3f, h4, h5⟩ := createCandidate_spec v (clock i) i d st
    obtain ⟨st2, a2, k1, k2, k3, k3f, k4, k5⟩ := ih (i + 1) st1
    refine ⟨st2, a1 ++ a2, by simp [documentsLoop, h1, k1], by simp [k2, h2],
      by simp [k3, h3, createdOf_append], by rw [k3f, h3f], ?_, ?_⟩
    · intro doc hdoc
      rw [createdOf_append, List.mem_append] at hdoc
      rcases hdoc with h | h
      · exact h4 doc h
      · exact k4 doc h
    · intro l hl
      rw [List.mem_append] at hl
      rcases hl with h | h
      · exact h5 l h
      · exact k5 l h

theorem createDocumentsFromResponse_spec (response : DocumentsResponse) (v : Nat)
    (clock : Nat → Nat) (s : Store) (fs : Faults) :
    ∃ st, createDocumentsFromResponse response v clock s fs = some (none, st) ∧
      st.store.documents = s.documents ++ createdOf st.log ∧
      st.store.fragments = s.fragments ∧
      (∀ doc ∈ createdOf st.log, doc.VersionCreatedAt = v) ∧
      (∀ l, GenLine.aiRequest l ∉ st.log) := by
  obtain ⟨st1, added, h1, h2, h3, h3f, h4, h5⟩ :=
    documentsLoop_spec v clock 0 response.Documents ⟨s, fs, []⟩
  simp only [List.nil_append] at h2
  refine ⟨{ st1 with log := st1.log ++ [GenLine.completed] }, ?_, ?_, h3f, ?_, ?_⟩
  · simp [createDocumentsFromResponse, h1]
  · simp [createdOf_append, createdOf, h3, h2]
  · intro doc hdoc
    simp only [createdOf_append, createdOf, List.append_nil, h2] at hdoc
    exact h4 doc hdoc
  · intro l hl
    simp only [h2, List.mem_append, List.mem_singleton, reduceCtorEq, or_false] at hl
    exact h5 l hl

/-- C7 (counterexample): the only fragment of the store is already linked to document 1,
and `GenerateDocuments` hands it to the AI collaborator all the same. -/
theorem linked_fragment_is_sent :
    isLinked linkedStore (mkFragment 1 "A simple text fragment.") = true ∧
    (GenerateDocuments silentAI 100 (fun k => 101 + k) linkedStore []).map
        (fun r => (r.1, r.2.log)) =
      some (none,
        [GenLine.aiRequest [mkFragment 1 "A simple text fragment."], GenLine.completed]) := by
  decide

/-- C7 (amended): `GenerateDocuments` sends to the AI collaborator all live (not soft
deleted) fragments of the store, linked to a document or not: when the fetch succeeds and
the store has a live fragment, the run makes exactly one AI request, and its fragment list
is a permutation of all live fragments, in non-decreasing order of ID. -/
theorem generateDocuments_sends_all_live (ai : List Fragment → Except String DocumentsResponse)
    (v : Nat) (clock : Nat → Nat) (s : Store) (fs : Faults) (hfetch : stmtFails fs = false)
    (hne : liveFragments s ≠ []) :
    ∃ err st l rest, GenerateDocuments ai v clock s fs = some (err, st) ∧
      st.log = GenLine.aiRequest l :: rest ∧ (∀ l2, GenLine.aiRequest l2 ∉ rest) ∧
      l.Perm (liveFragments s) ∧ l.Pairwise (fun a b => a.ID ≤ b.ID) := by
  have hperm : (sortFragmentsByID
      ((liveFragments s).insertionSort fun a b => b.CreatedAt ≤ a.CreatedAt)).Perm
      (liveFragments s) :=
    (sortFragmentsByID_perm _).trans (List.perm_insertionSort _ _)
  have hlen : ((liveFragments s).insertionSort fun a b => b.CreatedAt ≤ a.CreatedAt).length ≠ 0 := by
    rw [(List.perm_insertionSort _ _).length_eq]
    exact fun h => hne (List.length_eq_zero.1 h)
  simp only [GenerateDocuments, GetAllFragments, hfetch, Bool.false_eq_true, if_false, if_neg hlen]
  cases hai : ai (sortFragmentsByID
      ((liveFragments s).insertionSort fun a b => b.CreatedAt ≤ a.CreatedAt)) with
  | error e =>
    exact ⟨_, _, _, [], rfl, rfl, by simp, hperm, sortFragmentsByID_sorted _⟩
  | ok response =>
    obtain ⟨st, h1, _, _, _, h5⟩ := createDocumentsFromResponse_spec response v clock s fs.tail
    simp only [h1]
    exact ⟨_, _, _, st.log, rfl, rfl, h5, hperm, sortFragmentsByID_sorted _⟩

/-- C7 (witness): on `linkedStore` the request carries the linked fragment. -/
theorem generateDocuments_sends_all_live_witness :
    ∃ err st l rest, GenerateDocuments silentAI 100 (fun k => 101 + k) linkedStore [] =
        some (err, st) ∧
      st.log = GenLine.aiRequest l :: rest ∧ (∀ l2, GenLine.aiRequest l2 ∉ rest) ∧
      l.Perm (liveFragments linkedStore) ∧ l.Pairwise (fun a b => a.ID ≤ b.ID) :=
  generateDocuments_sends_all_live silentAI 100 (fun k => 101 + k) linkedStore []
    (by decide) (by decide)

/-- C8: every document created by one call of `createDocumentsFromResponse` carries the
version timestamp read before the loop: the call returns `nil`, appends to the document
table exactly the documents it reports as created, and each of them has
`VersionCreatedAt` equal to that value; and `CreateDocument` stores on the new row exactly
the `VersionCreatedAt` of its input. -/
theorem version_timestamp_shared (response : DocumentsResponse) (v : Nat)
    (clock : Nat → Nat) (s : Store) (fs : Faults) :
    (∃ st, createDocumentsFromResponse response v clock s fs = some (none, st) ∧
      st.store.documents = s.documents ++ createdOf st.log ∧
      ∀ doc ∈ createdOf st.log, doc.VersionCreatedAt = v) ∧
    (∀ (input : CreateDocumentInput) (now : Nat) (s0 s1 : Store) (fs0 fs1 : Faults)
      (doc : Document), CreateDocument input now s0 fs0 = (.ok doc, s1, fs1) →
        doc.VersionCreatedAt = input.VersionCreatedAt ∧ s1.documents = s0.documents ++ [doc]) := by
  constructor
  · obtain ⟨st, h1, h2, _, h4, _⟩ := createDocumentsFromResponse_spec response v clock s fs
    exact ⟨st, h1, h2, h4⟩
  · intro input now s0 s1 fs0 fs1 doc h
    rcases CreateDocument_spec input now s0 fs0 with ⟨e, gs, h1⟩ | ⟨d, t, gs, h1, h2, _, h3, _⟩
    · rw [h1] at h; simp at h
    · rw [h1] at h
      simp only [Prod.mk.injEq, Except.ok.injEq] at h
      obtain ⟨hd, hs, _⟩ := h
      subst hd hs
      exact ⟨h3, h2⟩

/-- C8 (witness): two candidates created at clock readings 101 and 102 in a batch whose
version timestamp is 100. -/
theorem version_timestamp_shared_witness :
    (createDocumentsFromResponse twoCandidates 100 (fun k => 101 + k) (fragmentStore []) []).map
        (fun r => r.2.store.documents.map fun d => (d.Title, d.CreatedAt, d.VersionCreatedAt)) =
      some [("First", 101, 100), ("Second", 102, 100)] ∧
    ((∃ st, createDocumentsFromResponse twoCandidates 100 (fun k => 101 + k)
        (fragmentStore []) [] = some (none, st) ∧
      st.store.documents = (fragmentStore []).documents ++ createdOf st.log ∧
      ∀ doc ∈ createdOf st.log, doc.VersionCreatedAt = 100) ∧
    (∀ (input : CreateDocumentInput) (now : Nat) (s0 s1 : Store) (fs0 fs1 : Faults)
      (doc : Document), CreateDocument input now s0 fs0 = (.ok doc, s1, fs1) →
        doc.VersionCreatedAt = input.VersionCreatedAt ∧
          s1.documents = s0.documents ++ [doc])) :=
  ⟨by decide,
   version_timestamp_shared twoCandidates 100 (fun k => 101 + k) (fragmentStore []) []⟩

theorem insertLinks_nil (doc : Nat) (links : List (Nat × Nat)) :
    insertLinks doc [] links = links := rfl

theorem insertLinks_fresh (doc : Nat) (ids : List Nat) (links : List (Nat × Nat))
    (hnodup : ids.Nodup) (hfresh : ∀ id ∈ ids, (doc, id) ∉ links) :
    insertLinks doc ids links = links ++ ids.map fun id => (doc, id) := by
  induction ids generalizing links with
  | nil => simp [insertLinks]
  | cons id ids ih =>
    have hstep : insertLinks doc (id :: ids) links = insertLinks doc ids (links ++ [(doc, id)]) := by
      simp only [insertLinks, List.foldl_cons, if_neg (hfresh id (by simp))]
    rw [hstep, ih (links ++ [(doc, id)]) (List.nodup_cons.1 hnodup).2]
    · simp
    · intro x hx hmem
      rw [List.mem_append, List.mem_singleton] at hmem
      rcases hmem with h | h
      · exact hfresh x (List.mem_cons_of_mem _ hx) h
      · have hxid : x = id := (Prod.mk.inj h).2
        exact (List.nodup_cons.1 hnodup).1 (hxid ▸ hx)

theorem CreateDocument_nofault (input : CreateDocumentInput) (now : Nat) (s : Store) :
    CreateDocument input now s [] =
      (.ok (newDocument input now s), storeWithDocument input now s, []) := by
  have hf : input.FragmentIDs.length > 0 ∨ input.FragmentIDs = [] := by
    cases input.FragmentIDs <;> simp
  have ht : input.TagIDs.length > 0 ∨ input.TagIDs = [] := by
    cases input.TagIDs <;> simp
  rcases hf with hf | hf <;> rcases ht with ht | ht <;>
    simp [CreateDocument, transaction, createDocumentBody, linkFragments, linkTags,
      storeWithDocument, newDocument, hf, ht, insertLinks_nil]

theorem le_foldr_max (ids : List Nat) (id : Nat) (h : id ∈ ids) : id ≤ ids.foldr max 0 := by
  induction ids with
  | nil => simp at h
  | cons x xs ih =>
    simp only [List.foldr_cons]
    rcases List.mem_cons.1 h with h1 | h1
    · subst h1; exact Nat.le_max_left _ _
    · exact Nat.le_trans (ih h1) (Nat.le_max_right _ _)

theorem nextID_not_mem (seq : Nat) (ids : List Nat) : nextID seq ids ∉ ids := by
  intro h
  have h1 := le_foldr_max ids _ h
  unfold nextID at h1
  omega

/-- Behaviour of `createOrGetTags` when no statement fails and no name of the list is
empty, repeated or already the name of a row: one new live tag per name, in order. -/
theorem createOrGetTagsLoop_fresh (now : Nat) (names : List String) (acc : List Nat)
    (s : Store) (hnodup : names.Nodup) (hne : "" ∉ names)
    (hfresh : ∀ n ∈ names, ∀ t ∈ s.tags, t.Name ≠ n) (hids : (s.tags.map Tag.ID).Nodup) :
    ∃ newTags s1, createOrGetTagsLoop now names acc s [] =
        some (.ok (acc ++ newTags.map Tag.ID), s1, []) ∧
      s1.tags = s.tags ++ newTags ∧ newTags.map Tag.Name = names ∧
      (∀ t ∈ newTags, t.Deleted = false) ∧ (s1.tags.map Tag.ID).Nodup ∧
      s1.documents = s.documents ∧ s1.fragments = s.fragments ∧
      s1.document_fragments = s.document_fragments ∧ s1.document_tags = s.document_tags ∧
      s1.documentSeq = s.documentSeq := by
  induction names generalizing acc s with
  | nil => exact ⟨[], s, by simp [createOrGetTagsLoop], by simp, rfl, by simp, hids, rfl, rfl,
      rfl, rfl, rfl⟩
  | cons name rest ih =>
    have hname : name ≠ "" := fun h => hne (h ▸ List.mem_cons_self _ _)
    have hfind : (s.tags.find? fun t => !t.Deleted && t.Name == name) = none := by
      rw [List.find?_eq_none]
      intro t ht
      have := hfresh name (List.mem_cons_self _ _) t ht
      simp [this]
    have hany : (s.tags.any fun t => t.Name == name) = false := by
      rw [List.any_eq_false]
      intro t ht
      have := hfresh name (List.mem_cons_self _ _) t ht
      simp [this]
    obtain ⟨c, hc, _⟩ := generateTagColor_total name
    have hids1 : ((s.tags ++ [Tag.mk (nextID s.tagSeq (s.tags.map Tag.ID)) now false name c]).map
        Tag.ID).Nodup := by
      rw [List.map_append, List.map_singleton]
      refine List.Nodup.append hids (List.nodup_singleton _) ?_
      intro x hx hx1
      rw [List.mem_singleton] at hx1
      exact nextID_not_mem _ _ (hx1 ▸ hx)
    obtain ⟨newTags, s1, h1, h2, h3, h4, h5, h6, h7, h8, h9, h10⟩ :=
      ih (acc ++ [nextID s.tagSeq (s.tags.map Tag.ID)])
        (Store.mk s.fragments s.documents
          (s.tags ++ [Tag.mk (nextID s.tagSeq (s.tags.map Tag.ID)) now false name c])
          s.document_fragments s.document_tags s.fragmentSeq s.documentSeq
          (nextID s.tagSeq (s.tags.map Tag.ID)))
        (List.nodup_cons.1 hnodup).2 (fun h => hne (List.mem_cons_of_mem _ h))
        (by
          intro n hn t ht
          rw [List.mem_append, List.mem_singleton] at ht
          rcases ht with ht | ht
          · exact hfresh n (List.mem_cons_of_mem _ hn) t ht
          · subst ht
            intro hnn
            have hnn1 : name = n := hnn
            exact (List.nodup_cons.1 hnodup).1 (hnn1 ▸ hn))
        hids1
    refine ⟨Tag.mk (nextID s.tagSeq (s.tags.map Tag.ID)) now false name c :: newTags, s1, ?_,
      ?_, ?_, ?_, h5, h6, h7, h8, h9, h10⟩
    · simp only [createOrGetTagsLoop, if_neg hname, stmtFails_nil, Bool.false_eq_true, if_false,
        hfind, hc, List.tail_nil, hany, or_self]
      simpa using h1
    · simpa using h2
    · simp [h3]
    · intro t ht
      rcases List.mem_cons.1 ht with h | h
      · subst h; rfl
      · exact h4 t h

/-- The fragments that `tx.Find` returns for pairwise distinct ids of live fragments are
exactly the fragments named, each once. -/
theorem found_fragment_ids (s : Store) (F : List Int) (hF : F.Nodup)
    (hlive : ∀ id ∈ F, isLiveID s id = true) (hkeys : fragmentKeysOk s) :
    ((s.fragments.filter fun f => f.live && decide (f.ID ∈ F.map toUint)).map
        Fragment.ID).Nodup ∧
    ((s.fragments.filter fun f => f.live && decide (f.ID ∈ F.map toUint)).map
        Fragment.ID).Perm (F.map Int.toNat) := by
  have hconv : ∀ id ∈ F, toUint id = id.toNat ∧ 0 ≤ id := by
    intro id hid
    obtain ⟨f, hfm, _, hfid⟩ := (isLiveID_iff s id).1 (hlive id hid)
    subst hfid
    exact ⟨by rw [toUint_natCast _ (hkeys.2 f hfm)]; simp, Int.ofNat_nonneg _⟩
  have hmap : F.map toUint = F.map Int.toNat :=
    List.map_congr_left fun id hid => (hconv id hid).1
  have nodup1 : ((s.fragments.filter fun f => f.live && decide (f.ID ∈ F.map toUint)).map
      Fragment.ID).Nodup := hkeys.1.sublist ((List.filter_sublist _).map _)
  have nodup2 : (F.map Int.toNat).Nodup := by
    refine List.Nodup.map_on ?_ hF
    intro x hx y hy hxy
    have h1 := (hconv x hx).2
    have h2 := (hconv y hy).2
    omega
  refine ⟨nodup1, (List.perm_ext_iff_of_nodup nodup1 nodup2).2 ?_⟩
  intro n
  rw [hmap]
  simp only [List.mem_map, List.mem_filter, Bool.and_eq_true, decide_eq_true_eq]
  constructor
  · rintro ⟨f, ⟨_, _, hmem⟩, rfl⟩
    exact hmem
  · rintro ⟨id, hid, rfl⟩
    obtain ⟨f, hfm, hfl, hfid⟩ := (isLiveID_iff s id).1 (hlive id hid)
    refine ⟨f, ⟨hfm, hfl, ⟨id, hid, ?_⟩⟩, ?_⟩ <;> rw [← hfid] <;> simp

/-- C10: for a response with one candidate that references pairwise distinct ids of live
fragments and pairwise distinct non-empty tag names, on a store without documents, tags and
links and with no storage failure, `createDocumentsFromResponse` returns `nil` and leaves
exactly one document row with the title, summary and content of the candidate, one
document-fragment link per referenced fragment and no other such link, one live tag row per
name in the order of the list and no other tag, and one document-tag link per tag and no
other such link. -/
theorem single_candidate_rows (d : DocumentRequest) (analysis : String) (v : Nat)
    (clock : Nat → Nat) (s : Store) (hdocs : s.documents = []) (htags : s.tags = [])
    (hdf : s.document_fragments = []) (hdt : s.document_tags = [])
    (hF : d.FragmentIDs.Nodup) (hlive : ∀ id ∈ d.FragmentIDs, isLiveID s id = true)
    (hkeys : fragmentKeysOk s) (hT : d.Tags.Nodup) (hTne : "" ∉ d.Tags) :
    ∃ st doc, createDocumentsFromResponse ⟨[d], analysis⟩ v clock s [] = some (none, st) ∧
      st.store.documents = [doc] ∧ doc.Title = d.Title ∧ doc.Summary = d.Summary ∧
      doc.Content = d.Content ∧ doc.Deleted = false ∧ doc.VersionCreatedAt = v ∧
      st.store.fragments = s.fragments ∧
      st.store.document_fragments.length = d.FragmentIDs.length ∧
      (∀ id ∈ d.FragmentIDs, (doc.ID, id.toNat) ∈ st.store.document_fragments) ∧
      st.store.tags.map Tag.Name = d.Tags ∧ (∀ t ∈ st.store.tags, t.Deleted = false) ∧
      st.store.document_tags.length = d.Tags.length ∧
      (∀ t ∈ st.store.tags, (doc.ID, t.ID) ∈ st.store.document_tags) := by
  obtain ⟨newTags, s1, h1, h2, h3, h4, h5, h6, h7, h8, h9, _⟩ :=
    createOrGetTagsLoop_fresh (clock 0) d.Tags [] s hT hTne (by rw [htags]; simp)
      (by rw [htags]; simp)
  rw [htags, List.nil_append] at h2
  rw [List.nil_append] at h1
  obtain ⟨input, hin⟩ : ∃ input : CreateDocumentInput, input =
      { Title := d.Title, Summary := d.Summary, Content := d.Content, VersionCreatedAt := v,
        FragmentIDs := d.FragmentIDs.map toUint, TagIDs := newTags.map Tag.ID } := ⟨_, rfl⟩
  have hFI : input.FragmentIDs = d.FragmentIDs.map toUint := by rw [hin]
  have hTI : input.TagIDs = newTags.map Tag.ID := by rw [hin]
  have hrun : createDocumentsFromResponse ⟨[d], analysis⟩ v clock s [] =
      some (none, ⟨storeWithDocument input (clock 0) s1, [],
        [GenLine.creating 1 d.Title d.Tags,
          GenLine.created (newDocument input (clock 0) s1)
            (d.FragmentIDs.map toUint).length (newTags.map Tag.ID).length,
          GenLine.completed]⟩) := by
    rw [hin]
    simp [createDocumentsFromResponse, documentsLoop, createCandidate, createOrGetTags, h1,
      CreateDocument_nofault]
  obtain ⟨fnodup, fperm⟩ := found_fragment_ids s d.FragmentIDs hF hlive hkeys
  have hdfr : (storeWithDocument input (clock 0) s1).document_fragments =
      ((s.fragments.filter fun f => f.live && decide (f.ID ∈ d.FragmentIDs.map toUint)).map
        Fragment.ID).map fun id => ((newDocument input (clock 0) s1).ID, id) := by
    simp only [storeWithDocument, hFI, h7, h8, hdf]
    rw [insertLinks_fresh _ _ [] fnodup (fun _ _ h => by simp at h), List.nil_append]
  have hfilter : (newTags.filter fun t => !t.Deleted && decide (t.ID ∈ newTags.map Tag.ID)) =
      newTags := by
    rw [List.filter_eq_self]
    intro t ht
    simp [h4 t ht, List.mem_map_of_mem Tag.ID ht]
  have tnodup : (newTags.map Tag.ID).Nodup := by rw [← h2]; exact h5
  have hdtr : (storeWithDocument input (clock 0) s1).document_tags =
      (newTags.map Tag.ID).map fun id => ((newDocument input (clock 0) s1).ID, id) := by
    simp only [storeWithDocument, hTI, h2, h9, hdt]
    rw [hfilter, insertLinks_fresh _ _ [] tnodup (fun _ _ h => by simp at h), List.nil_append]
  have htg : (storeWithDocument input (clock 0) s1).tags = newTags := by
    simp only [storeWithDocument, h2]
  refine ⟨_, newDocument input (clock 0) s1, hrun, ?_, ?_, ?_, ?_, rfl, ?_, ?_, ?_, ?_, ?_, ?_,
    ?_, ?_⟩
  · simp [storeWithDocument, h6, hdocs]
  · rw [hin]; rfl
  · rw [hin]; rfl
  · rw [hin]; rfl
  · rw [hin]; rfl
  · simp [storeWithDocument, h7]
  · show (storeWithDocument input (clock 0) s1).document_fragments.length = _
    rw [hdfr, List.length_map]
    have := fperm.length_eq
    simpa using this
  · intro id hid
    show _ ∈ (storeWithDocument input (clock 0) s1).document_fragments
    rw [hdfr]
    exact List.mem_map_of_mem _ (fperm.mem_iff.2 (List.mem_map_of_mem _ hid))
  · show (storeWithDocument input (clock 0) s1).tags.map Tag.Name = _
    rw [htg, h3]
  · intro t ht
    have ht1 : t ∈ (storeWithDocument input (clock 0) s1).tags := ht
    rw [htg] at ht1
    exact h4 t ht1
  · show (storeWithDocument input (clock 0) s1).document_tags.length = _
    rw [hdtr, List.length_map, List.length_map, ← h3, List.length_map]
  · intro t ht
    have ht1 : t ∈ (storeWithDocument input (clock 0) s1).tags := ht
    rw [htg] at ht1
    show _ ∈ (storeWithDocument input (clock 0) s1).document_tags
    rw [hdtr]
    exact List.mem_map_of_mem _ (List.mem_map_of_mem _ ht1)

set_option maxRecDepth 10000 in
/-- C10 (witness): the end to end scenario, fragment 1 and tag "notes": one document, the
link (1, 1), the tag "notes" and one document-tag link. -/
theorem single_candidate_rows_witness :
    ((createDocumentsFromResponse ⟨[noteCandidate], "one theme"⟩ 100 (fun k => 101 + k)
        noteStore []).map
        (fun r => (r.2.store.documents.map (fun x => (x.ID, x.Title)),
          r.2.store.document_fragments)) = some ([(1, "Notes")], [(1, 1)]) ∧
    (createDocumentsFromResponse ⟨[noteCandidate], "one theme"⟩ 100 (fun k => 101 + k)
        noteStore []).map
        (fun r => (r.2.store.tags.map (fun t => (t.ID, t.Name)), r.2.store.document_tags)) =
      some ([(1, "notes")], [(1, 1)])) ∧
    ∃ st doc, createDocumentsFromResponse ⟨[noteCandidate], "one theme"⟩ 100
        (fun k => 101 + k) noteStore [] = some (none, st) ∧
      st.store.documents = [doc] ∧ doc.Title = noteCandidate.Title ∧
      doc.Summary = noteCandidate.Summary ∧
      doc.Content = noteCandidate.Content ∧ doc.Deleted = false ∧ doc.VersionCreatedAt = 100 ∧
      st.store.fragments = noteStore.fragments ∧
      st.store.document_fragments.length = noteCandidate.FragmentIDs.length ∧
      (∀ id ∈ noteCandidate.FragmentIDs, (doc.ID, id.toNat) ∈ st.store.document_fragments) ∧
      st.store.tags.map Tag.Name = noteCandidate.Tags ∧
      (∀ t ∈ st.store.tags, t.Deleted = false) ∧
      st.store.document_tags.length = noteCandidate.Tags.length ∧
      (∀ t ∈ st.store.tags, (doc.ID, t.ID) ∈ st.store.document_tags) :=
  ⟨by decide,
   single_candidate_rows noteCandidate "one theme" 100 (fun k => 101 + k) noteStore rfl rfl rfl
     rfl (by decide) (by decide) (by decide) (by decide) (by decide)⟩

/-! ## Skipped identifiers and skipped candidates -/

/-- The rows that `Append` adds to a link table: pairwise distinct, absent before, all for
the given document and the given ids, and every id ends up linked. -/
theorem insertLinks_spec (doc : Nat) (ids : List Nat) (links : List (Nat × Nat)) :
    ∃ extra, insertLinks doc ids links = links ++ extra ∧ extra.Nodup ∧
      (∀ p ∈ extra, p ∉ links ∧ p.1 = doc ∧ p.2 ∈ ids) ∧
      (∀ id ∈ ids, (doc, id) ∈ links ++ extra) := by
  induction ids generalizing links with
  | nil => exact ⟨[], by simp [insertLinks], List.nodup_nil, by simp, by simp⟩
  | cons id ids ih =>
    by_cases hmem : (doc, id) ∈ links
    · have hstep : insertLinks doc (id :: ids) links = insertLinks doc ids links := by
        simp only [insertLinks, List.foldl_cons, if_pos hmem]
      obtain ⟨extra, h1, h2, h3, h4⟩ := ih links
      refine ⟨extra, by rw [hstep, h1], h2, ?_, ?_⟩
      · intro p hp
        obtain ⟨a, b, c⟩ := h3 p hp
        exact ⟨a, b, List.mem_cons_of_mem _ c⟩
      · intro x hx
        rcases List.mem_cons.1 hx with h | h
        · subst h; exact List.mem_append_left _ hmem
        · exact h4 x h
    · have hstep : insertLinks doc (id :: ids) links =
          insertLinks doc ids (links ++ [(doc, id)]) := by
        simp only [insertLinks, List.foldl_cons, if_neg hmem]
      obtain ⟨extra, h1, h2, h3, h4⟩ := ih (links ++ [(doc, id)])
      refine ⟨(doc, id) :: extra, by rw [hstep, h1]; simp, ?_, ?_, ?_⟩
      · refine List.nodup_cons.2 ⟨?_, h2⟩
        intro hin
        exact (h3 _ hin).1 (List.mem_append_right _ (List.mem_singleton.2 rfl))
      · intro p hp
        rcases List.mem_cons.1 hp with h | h
        · subst h; exact ⟨hmem, rfl, List.mem_cons_self _ _⟩
        · obtain ⟨a, b, c⟩ := h3 p h
          exact ⟨fun hl => a (List.mem_append_left _ hl), b, List.mem_cons_of_mem _ c⟩
      · intro x hx
        rcases List.mem_cons.1 hx with h | h
        · subst h; simp
        · have := h4 x h
          simpa [List.append_assoc] using this

/-- C11: when no storage statement fails, `CreateDocument` succeeds for every input, the
document row is created, and the document-fragment links of the new document are exactly
the pairs (document, f) for the ids f of `FragmentIDs` that identify a live fragment, each
once; ids that identify no fragment are skipped, and the links of other documents are left
as they were. -/
theorem CreateDocument_skips_unresolved (input : CreateDocumentInput) (now : Nat) (s : Store)
    (href : linkRefsOk s) :
    ∃ doc s1, CreateDocument input now s [] = (.ok doc, s1, []) ∧
      s1.documents = s.documents ++ [doc] ∧
      (∀ f : Nat, (doc.ID, f) ∈ s1.document_fragments ↔
        (f ∈ input.FragmentIDs ∧ ∃ fr ∈ s.fragments, fr.live = true ∧ fr.ID = f)) ∧
      (s1.document_fragments.filter fun p => p.1 == doc.ID).Nodup ∧
      (s1.document_fragments.filter fun p => p.1 != doc.ID) = s.document_fragments := by
  refine ⟨newDocument input now s, storeWithDocument input now s,
    CreateDocument_nofault input now s, rfl, ?_, ?_, ?_⟩
  all_goals
    obtain ⟨extra, h1, h2, h3, h4⟩ := insertLinks_spec (newDocument input now s).ID
      ((s.fragments.filter fun f => f.live && decide (f.ID ∈ input.FragmentIDs)).map
        Fragment.ID) s.document_fragments
    have hstore : (storeWithDocument input now s).document_fragments =
        s.document_fragments ++ extra := h1
    have hfresh : ∀ p ∈ s.document_fragments, p.1 ≠ (newDocument input now s).ID := by
      intro p hp hpe
      have := href p hp
      rw [hpe] at this
      exact nextID_not_mem _ _ this
    rw [hstore]
  · intro f
    constructor
    · intro hf
      rcases List.mem_append.1 hf with h | h
      · exact absurd rfl (hfresh _ h)
      · have := (h3 _ h).2.2
        simp only [List.mem_map, List.mem_filter, Bool.and_eq_true, decide_eq_true_eq] at this
        obtain ⟨fr, ⟨hfr, hl, hin⟩, hid⟩ := this
        exact ⟨hid ▸ hin, fr, hfr, hl, hid⟩
    · rintro ⟨hin, fr, hfr, hl, hid⟩
      apply h4
      simp only [List.mem_map, List.mem_filter, Bool.and_eq_true, decide_eq_true_eq]
      exact ⟨fr, ⟨hfr, hl, hid ▸ hin⟩, hid⟩
  · rw [List.filter_append]
    have e1 : (s.document_fragments.filter fun p => p.1 == (newDocument input now s).ID) = [] := by
      rw [List.filter_eq_nil_iff]
      intro p hp
      simpa using hfresh p hp
    rw [e1, List.nil_append]
    exact h2.sublist (List.filter_sublist _)
  · rw [List.filter_append]
    have e1 : (s.document_fragments.filter fun p => p.1 != (newDocument input now s).ID) =
        s.document_fragments := by
      rw [List.filter_eq_self]
      intro p hp
      simpa using hfresh p hp
    have e2 : (extra.filter fun p => p.1 != (newDocument input now s).ID) = [] := by
      rw [List.filter_eq_nil_iff]
      intro p hp
      simpa using (h3 p hp).2.1
    rw [e1, e2, List.append_nil]

/-- C11 (witness): of the ids 7, 2, 99, 1 only 1 and 2 identify fragments of `store2`; the
document is created with the links (1, 1) and (1, 2). -/
theorem CreateDocument_skips_unresolved_witness :
    (CreateDocument mixedInput 101 store2 []).2.1.document_fragments = [(1, 1), (1, 2)] ∧
    ∃ doc s1, CreateDocument mixedInput 101 store2 [] = (.ok doc, s1, []) ∧
      s1.documents = store2.documents ++ [doc] ∧
      (∀ f : Nat, (doc.ID, f) ∈ s1.document_fragments ↔
        (f ∈ mixedInput.FragmentIDs ∧ ∃ fr ∈ store2.fragments, fr.live = true ∧ fr.ID = f)) ∧
      (s1.document_fragments.filter fun p => p.1 == doc.ID).Nodup ∧
      (s1.document_fragments.filter fun p => p.1 != doc.ID) = store2.document_fragments :=
  ⟨by decide, CreateDocument_skips_unresolved mixedInput 101 store2 (by decide)⟩

/-- The function `createOrGetTags` only appends rows to the tag table. -/
theorem createOrGetTagsLoop_tags (now : Nat) (names : List String) (acc : List Nat)
    (s : Store) (fs : Faults) (r : Except String (List Nat)) (s1 : Store) (fs1 : Faults)
    (h : createOrGetTagsLoop now names acc s fs = some (r, s1, fs1)) :
    ∃ extra, s1.tags = s.tags ++ extra := by
  induction names generalizing acc s fs with
  | nil =>
    simp only [createOrGetTagsLoop, Option.some.injEq, Prod.mk.injEq] at h
    exact ⟨[], by rw [← h.2.1]; simp⟩
  | cons name rest ih =>
    simp only [createOrGetTagsLoop] at h
    split at h
    · exact ih _ _ _ h
    · split at h
      · exact ih _ _ _ h
      · split at h
        · simp at h
        · split at h
          · simp only [Option.some.injEq, Prod.mk.injEq] at h
            exact ⟨[], by rw [← h.2.1]; simp⟩
          · obtain ⟨extra, he⟩ := ih _ _ _ h
            exact ⟨_, he.trans (List.append_assoc _ _ _)⟩

theorem announcedOf_append (l1 l2 : List GenLine) :
    announcedOf (l1 ++ l2) = announcedOf l1 ++ announcedOf l2 := by
  induction l1 with
  | nil => rfl
  | cons x l1 ih => cases x <;> simp [announcedOf, ih]

/-- One iteration of the loop of `createDocumentsFromResponse` never panics and announces
its candidate; when it reports the candidate as skipped, the document table, both link
tables and the fragment table are as before, and the tag table has at most grown. -/
theorem createCandidate_isolated (v now i : Nat) (d : DocumentRequest) (st : GenState) :
    ∃ st1, createCandidate v now i d st = some st1 ∧
      announcedOf st1.log = announcedOf st.log ++ [(d.Title, d.Tags)] ∧
      (endsInSkipped st1.log = true →
        st1.store.documents = st.store.documents ∧
        st1.store.document_fragments = st.store.document_fragments ∧
        st1.store.document_tags = st.store.document_tags ∧
        st1.store.fragments = st.store.fragments ∧
        ∃ extra, st1.store.tags = st.store.tags ++ extra) := by
  obtain ⟨r, s1, fs1, h1, h2, h3, h4, h5, _⟩ :=
    createOrGetTagsLoop_total now d.Tags [] st.store st.faults
  have htags := createOrGetTagsLoop_tags now d.Tags [] st.store st.faults r s1 fs1 h1
  simp only [createCandidate, createOrGetTags, h1]
  cases r with
  | error e =>
    exact ⟨_, rfl, by simp [announcedOf_append, announcedOf], fun _ => ⟨h2, h4, h5, h3, htags⟩⟩
  | ok tagIDs =>
    rcases CreateDocument_spec
      { Title := d.Title, Summary := d.Summary, Content := d.Content, VersionCreatedAt := v,
        FragmentIDs := d.FragmentIDs.map toUint, TagIDs := tagIDs } now s1 fs1 with
      ⟨e, fs2, h⟩ | ⟨doc, s2, fs2, h, _⟩
    · simp only [h]
      exact ⟨_, rfl, by simp [announcedOf_append, announcedOf],
        fun _ => ⟨h2, h4, h5, h3, htags⟩⟩
    · simp only [h]
      refine ⟨_, rfl, by simp [announcedOf_append, announcedOf], ?_⟩
      intro hs
      simp [endsInSkipped] at hs

theorem documentsLoop_announces (v : Nat) (clock : Nat → Nat) (i : Nat)
    (ds : List DocumentRequest) (st : GenState) :
    ∃ st1, documentsLoop v clock i ds st = some st1 ∧
      announcedOf st1.log = announcedOf st.log ++ ds.map fun d => (d.Title, d.Tags) := by
  induction ds generalizing i st with
  | nil => exact ⟨st, rfl, by simp⟩
  | cons d ds ih =>
    obtain ⟨st1, h1, h2, _⟩ := createCandidate_isolated v (clock i) i d st
    obtain ⟨st2, h3, h4⟩ := ih (i + 1) st1
    exact ⟨st2, by simp [documentsLoop, h1, h3], by simp [h4, h2]⟩

theorem documentsLoop_append (v : Nat) (clock : Nat → Nat) (i : Nat)
    (pre post : List DocumentRequest) (st : GenState) :
    documentsLoop v clock i (pre ++ post) st =
      (documentsLoop v clock i pre st).bind (documentsLoop v clock (i + pre.length) post) := by
  induction pre generalizing i st with
  | nil => simp [documentsLoop]
  | cons d pre ih =>
    simp only [List.cons_append, documentsLoop, List.length_cons]
    cases h : createCandidate v (clock i) i d st with
    | none => simp
    | some st1 =>
      have h1 := ih (i + 1) st1
      have h2 : i + 1 + pre.length = i + (pre.length + 1) := by omega
      rw [h2] at h1
      simpa using h1

set_option maxRecDepth 10000 in
/-- C12 (counterexample): the first candidate creates its tag "x" and is then skipped
because its document transaction cannot begin.  The second candidate is created, but not as
if the first had not been in the list: the tag row of the skipped candidate stays, and the
tag of the second candidate and its document-tag link carry id 2 instead of id 1. -/
theorem skipped_candidate_leaves_tag_rows :
    (createDocumentsFromResponse taggedCandidates 100 (fun k => 101 + k) (fragmentStore [])
        faultInFirstDocument).map
        (fun r => announcedOf r.2.log) = some [("First", ["x"]), ("Second", ["y"])] ∧
    (createDocumentsFromResponse taggedCandidates 100 (fun k => 101 + k) (fragmentStore [])
        faultInFirstDocument).map
        (fun r => (r.1, (createdOf r.2.log).map Document.Title)) = some (none, ["Second"]) ∧
    (createDocumentsFromResponse taggedCandidates 100 (fun k => 101 + k) (fragmentStore [])
        faultInFirstDocument).map
        (fun r => (r.2.store.tags.map (fun t => (t.ID, t.Name)), r.2.store.document_tags)) =
      some ([(1, "x"), (2, "y")], [(1, 2)]) ∧
    (createDocumentsFromResponse secondCandidateOnly 100 (fun k => 101 + k) (fragmentStore [])
        []).map
        (fun r => (r.2.store.tags.map (fun t => (t.ID, t.Name)), r.2.store.document_tags)) =
      some ([(1, "y")], [(1, 1)]) := by
  decide

/-- C12 (amended): `createDocumentsFromResponse` never panics, returns `nil` and announces
every candidate in array order; for every position of the list the run is the run of the
candidates before it, followed by that candidate from the state they left, followed by the
candidates after it from the state it left; and a candidate reported as skipped leaves the
document table, both link tables and the fragment table exactly as the candidates before it
left them, while the tag rows it created before failing remain. -/
theorem synthesis_partial_success (response : DocumentsResponse) (v : Nat)
    (clock : Nat → Nat) (s : Store) (fs : Faults) :
    (∃ st, createDocumentsFromResponse response v clock s fs = some (none, st) ∧
      announcedOf st.log = response.Documents.map fun d => (d.Title, d.Tags)) ∧
    ∀ pre d post, response.Documents = pre ++ d :: post →
      ∃ st1 st2 st3,
        documentsLoop v clock 0 pre ⟨s, fs, []⟩ = some st1 ∧
        createCandidate v (clock pre.length) pre.length d st1 = some st2 ∧
        documentsLoop v clock (pre.length + 1) post st2 = some st3 ∧
        createDocumentsFromResponse response v clock s fs =
          some (none, { st3 with log := st3.log ++ [GenLine.completed] }) ∧
        (endsInSkipped st2.log = true →
          st2.store.documents = st1.store.documents ∧
          st2.store.document_fragments = st1.store.document_fragments ∧
          st2.store.document_tags = st1.store.document_tags ∧
          st2.store.fragments = st1.store.fragments ∧
          ∃ extra, st2.store.tags = st1.store.tags ++ extra) := by
  constructor
  · obtain ⟨st1, h1, h2⟩ := documentsLoop_announces v clock 0 response.Documents ⟨s, fs, []⟩
    refine ⟨{ st1 with log := st1.log ++ [GenLine.completed] }, ?_, ?_⟩
    · simp [createDocumentsFromResponse, h1]
    · simp [announcedOf_append, announcedOf, h2]
  · intro pre d post hsplit
    obtain ⟨st1, h1, _⟩ := documentsLoop_announces v clock 0 pre ⟨s, fs, []⟩
    obtain ⟨st2, h2, _, h2f⟩ := createCandidate_isolated v (clock pre.length) pre.length d st1
    obtain ⟨st3, h3, _⟩ := documentsLoop_announces v clock (pre.length + 1) post st2
    refine ⟨st1, st2, st3, h1, h2, h3, ?_, h2f⟩
    have h4 : documentsLoop v clock 0 response.Documents ⟨s, fs, []⟩ = some st3 := by
      rw [hsplit, documentsLoop_append, h1]
      simp [documentsLoop, h2, h3]
    simp [createDocumentsFromResponse, h4]

set_option maxRecDepth 10000 in
/-- C12 (witness): on `taggedCandidates` with the first document transaction refused, the
run returns `nil`, only the second document exists and it has its tag link. -/
theorem synthesis_partial_success_witness :
    (createDocumentsFromResponse taggedCandidates 100 (fun k => 101 + k) (fragmentStore [])
        faultInFirstDocument).map
        (fun r => (r.2.store.documents.map Document.Title, r.2.store.document_tags)) =
      some (["Second"], [(1, 2)]) ∧
    ((∃ st, createDocumentsFromResponse taggedCandidates 100 (fun k => 101 + k)
        (fragmentStore []) faultInFirstDocument = some (none, st) ∧
      announcedOf st.log = taggedCandidates.Documents.map fun d => (d.Title, d.Tags)) ∧
    ∀ pre d post, taggedCandidates.Documents = pre ++ d :: post →
      ∃ st1 st2 st3,
        documentsLoop 100 (fun k => 101 + k) 0 pre
          ⟨fragmentStore [], faultInFirstDocument, []⟩ = some st1 ∧
        createCandidate 100 ((fun k => 101 + k) pre.length) pre.length d st1 = some st2 ∧
        documentsLoop 100 (fun k => 101 + k) (pre.length + 1) post st2 = some st3 ∧
        createDocumentsFromResponse taggedCandidates 100 (fun k => 101 + k)
          (fragmentStore []) faultInFirstDocument =
          some (none, { st3 with log := st3.log ++ [GenLine.completed] }) ∧
        (endsInSkipped st2.log = true →
          st2.store.documents = st1.store.documents ∧
          st2.store.document_fragments = st1.store.document_fragments ∧
          st2.store.document_tags = st1.store.document_tags ∧
          st2.store.fragments = st1.store.fragments ∧
          ∃ extra, st2.store.tags = st1.store.tags ++ extra)) :=
  ⟨by decide,
   synthesis_partial_success taggedCandidates 100 (fun k => 101 + k) (fragmentStore [])
     faultInFirstDocument⟩

/-! ## Question answering -/

theorem bytesLess_irrefl (a : GoString) : bytesLess a a = false := by
  induction a with
  | nil => rfl
  | cons x xs ih => simp [bytesLess, ih]

theorem foldl_latest_spec (timeText : Nat → String) (l : List Nat) (v : Nat)
    (hord : ∀ a ∈ v :: l, ∀ b ∈ v :: l, (textLess (timeText a) (timeText b) = true ↔ a < b)) :
    l.foldl (fun best w => if textLess (timeText best) (timeText w) then w else best) v ∈ v :: l ∧
    ∀ w ∈ v :: l,
      w ≤ l.foldl (fun best w => if textLess (timeText best) (timeText w) then w else best) v := by
  induction l generalizing v with
  | nil => simp
  | cons a l ih =>
    have hva := hord v (List.mem_cons_self _ _) a (List.mem_cons_of_mem _ (List.mem_cons_self _ _))
    have hstep : (if textLess (timeText v) (timeText a) then a else v) ∈ [v, a] ∧
        v ≤ (if textLess (timeText v) (timeText a) then a else v) ∧
        a ≤ (if textLess (timeText v) (timeText a) then a else v) := by
      by_cases h : textLess (timeText v) (timeText a) = true
      · have := hva.1 h
        simp only [if_pos h]
        exact ⟨by simp, by omega, le_refl _⟩
      · have : ¬ v < a := fun hlt => h (hva.2 hlt)
        simp only [if_neg h]
        exact ⟨by simp, le_refl _, by omega⟩
    have hsub : ∀ x ∈ (if textLess (timeText v) (timeText a) then a else v) :: l, x ∈ v :: a :: l := by
      intro x hx
      rcases List.mem_cons.1 hx with h | h
      · rw [h]
        rcases List.mem_cons.1 hstep.1 with h1 | h1
        · rw [h1]; exact List.mem_cons_self _ _
        · rw [List.mem_singleton.1 h1]
          exact List.mem_cons_of_mem _ (List.mem_cons_self _ _)
      · exact List.mem_cons_of_mem _ (List.mem_cons_of_mem _ h)
    obtain ⟨h1, h2⟩ := ih (if textLess (timeText v) (timeText a) then a else v)
      (fun x hx y hy => hord x (hsub x hx) y (hsub y hy))
    rw [List.foldl_cons]
    refine ⟨hsub _ h1, ?_⟩
    intro w hw
    have hbest := h2 _ (List.mem_cons_self _ _)
    rcases List.mem_cons.1 hw with h | h
    · rw [h]; exact le_trans hstep.2.1 hbest
    · rcases List.mem_cons.1 h with h3 | h3
      · rw [h3]; exact le_trans hstep.2.2 hbest
      · exact h2 w (List.mem_cons_of_mem _ h3)

/-- When the stored texts of the version timestamps of the live documents are ordered as
the clock readings, the value scanned by the first query is the largest reading. -/
theorem latestVersionOf_ordered (timeText : Nat → String) (s : Store)
    (hne : liveDocuments s ≠ [])
    (hord : ∀ d1 ∈ liveDocuments s, ∀ d2 ∈ liveDocuments s,
      (textLess (timeText d1.VersionCreatedAt) (timeText d2.VersionCreatedAt) = true ↔
        d1.VersionCreatedAt < d2.VersionCreatedAt)) :
    (∀ d ∈ liveDocuments s, d.VersionCreatedAt ≤ latestVersionOf timeText s) ∧
    ∃ d ∈ liveDocuments s, d.VersionCreatedAt = latestVersionOf timeText s := by
  have hmem : ∀ x, x ∈ (liveDocuments s).map Document.VersionCreatedAt ↔
      ∃ d ∈ liveDocuments s, d.VersionCreatedAt = x := fun x => List.mem_map
  unfold latestVersionOf
  change (∀ d ∈ liveDocuments s, d.VersionCreatedAt ≤
      match (liveDocuments s).map Document.VersionCreatedAt with
      | [] => 0
      | v :: rest => rest.foldl (fun best w => if textLess (timeText best) (timeText w) then w else best) v) ∧
    ∃ d ∈ liveDocuments s, d.VersionCreatedAt =
      match (liveDocuments s).map Document.VersionCreatedAt with
      | [] => 0
      | v :: rest => rest.foldl (fun best w => if textLess (timeText best) (timeText w) then w else best) v
  cases hl : (liveDocuments s).map Document.VersionCreatedAt with
  | nil => exact absurd (List.map_eq_nil_iff.1 hl) hne
  | cons v rest =>
    rw [hl] at hmem
    obtain ⟨h1, h2⟩ := foldl_latest_spec timeText rest v (by
      intro a ha b hb
      obtain ⟨d1, hd1, e1⟩ := (hmem a).1 ha
      obtain ⟨d2, hd2, e2⟩ := (hmem b).1 hb
      rw [← e1, ← e2]
      exact hord d1 hd1 d2 hd2)
    refine ⟨?_, ?_⟩
    · intro d hd
      exact h2 _ ((hmem _).2 ⟨d, hd, rfl⟩)
    · exact (hmem _).1 h1

/-- C17: `AskQuestion` on an identifier of no live document makes no call of
`generateAnswer` and fails, with the not-found error when the query itself is not refused;
`AskGlobalQuestion` on a store without live documents, when its query is not refused, makes
no call of `generateAnswer` and returns without error the fixed answer with the source
"No documents found" and the web-search flag of the request. -/
theorem qa_without_documents_skips_ai
    (generateAnswer : String → GoString → GoString → Bool → Except String String)
    (mapOrder : List (String × Nat) → List (String × Nat)) (timeText : Nat → String)
    (s : Store) (fs : Faults) :
    (∀ req : QARequest, (∀ d ∈ liveDocuments s, d.ID ≠ req.DocumentID) →
      (AskQuestion generateAnswer req s fs).calls = [] ∧
      (AskQuestion generateAnswer req s fs).response.toOption = none ∧
      (stmtFails fs = false → (AskQuestion generateAnswer req s fs).response =
        .error "failed to find document: record not found")) ∧
    (∀ req : GlobalQARequest, liveDocuments s = [] → stmtFails fs = false →
      (AskGlobalQuestion generateAnswer mapOrder timeText req s fs).calls = [] ∧
      (AskGlobalQuestion generateAnswer mapOrder timeText req s fs).response =
        .ok { Answer := "現在、ドキュメントが存在しません。", Sources := ["No documents found"],
              WebSearch := req.UseWebSearch }) := by
  constructor
  · intro req hno
    have hfind : (s.documents.find? fun d => !d.Deleted && d.ID == req.DocumentID) = none := by
      rw [List.find?_eq_none]
      intro d hd hp
      simp only [Bool.and_eq_true, Bool.not_eq_true', beq_iff_eq] at hp
      exact hno d (List.mem_filter.2 ⟨hd, by simp [hp.1]⟩) hp.2
    by_cases hf : stmtFails fs = true
    · simp [AskQuestion, hf, Except.toOption]
    · simp [AskQuestion, hf, hfind, Except.toOption]
  · intro req hempty hf
    have hz : latestVersionOf timeText s = 0 := by
      have : (s.documents.filter fun d => !d.Deleted) = [] := hempty
      simp [latestVersionOf, this]
    simp [AskGlobalQuestion, hf, hz]

/-- C17 (witness): document 7 does not exist in `versionedStore`; the store without rows
has no documents. -/
theorem qa_without_documents_skips_ai_witness :
    ((AskQuestion fixedAnswer ⟨7, "why?", true⟩ versionedStore []).calls = [] ∧
      (AskQuestion fixedAnswer ⟨7, "why?", true⟩ versionedStore []).response.toOption = none ∧
      (stmtFails [] = false → (AskQuestion fixedAnswer ⟨7, "why?", true⟩ versionedStore
        []).response = .error "failed to find document: record not found")) ∧
    ((AskGlobalQuestion fixedAnswer id autumnText ⟨"why?", true⟩ (fragmentStore []) []).calls =
        [] ∧
      (AskGlobalQuestion fixedAnswer id autumnText ⟨"why?", true⟩ (fragmentStore [])
        []).response =
        .ok { Answer := "現在、ドキュメントが存在しません。", Sources := ["No documents found"],
              WebSearch := true }) :=
  ⟨(qa_without_documents_skips_ai fixedAnswer id autumnText versionedStore []).1
      ⟨7, "why?", true⟩ (by decide),
   (qa_without_documents_skips_ai fixedAnswer id autumnText (fragmentStore []) []).2
      ⟨"why?", true⟩ (by decide) (by decide)⟩

/-- When the stored texts of the version timestamps of the live documents are ordered as
the clock readings (all of them written under one zone offset, say), none of them is the
zero time and no statement fails, `AskGlobalQuestion` calls `generateAnswer` exactly once,
with the context that `buildGlobalContext` builds from exactly the live documents whose
`version_created_at` is the maximum over all live documents, each once, in table order and
with their associations loaded. -/
theorem AskGlobalQuestion_ordered_texts
    (generateAnswer : String → GoString → GoString → Bool → Except String String)
    (mapOrder : List (String × Nat) → List (String × Nat)) (timeText : Nat → String)
    (req : GlobalQARequest) (s : Store) (hne : liveDocuments s ≠ [])
    (hclock : ∀ d ∈ liveDocuments s, d.VersionCreatedAt ≠ 0)
    (hord : ∀ d1 ∈ liveDocuments s, ∀ d2 ∈ liveDocuments s,
      (textLess (timeText d1.VersionCreatedAt) (timeText d2.VersionCreatedAt) = true ↔
        d1.VersionCreatedAt < d2.VersionCreatedAt)) :
    ∃ docs : List LoadedDocument,
      (AskGlobalQuestion generateAnswer mapOrder timeText req s []).calls =
        [⟨req.Question, buildGlobalContext mapOrder docs, [], req.UseWebSearch⟩] ∧
      docs.map LoadedDocument.row = (liveDocuments s).filter (fun d =>
        decide (∀ d1 ∈ liveDocuments s, d1.VersionCreatedAt ≤ d.VersionCreatedAt)) ∧
      docs = (docs.map LoadedDocument.row).map (preload s) := by
  obtain ⟨hmax, d0, hd0, hd0v⟩ := latestVersionOf_ordered timeText s hne hord
  have hpos : latestVersionOf timeText s ≠ 0 := by
    rw [← hd0v]; exact hclock d0 hd0
  have hfilter : (s.documents.filter fun d =>
        !d.Deleted && timeText d.VersionCreatedAt == timeText (latestVersionOf timeText s)) =
      (liveDocuments s).filter (fun d =>
        decide (∀ d1 ∈ liveDocuments s, d1.VersionCreatedAt ≤ d.VersionCreatedAt)) := by
    show _ = List.filter _ (List.filter (fun d => !d.Deleted) s.documents)
    rw [List.filter_filter]
    apply List.filter_congr
    intro d hd
    by_cases hdel : d.Deleted = true
    · simp [hdel]
    · have hdel1 : d.Deleted = false := by simpa using hdel
      have hlive : d ∈ liveDocuments s := List.mem_filter.2 ⟨hd, by simp [hdel1]⟩
      have key : timeText d.VersionCreatedAt = timeText (latestVersionOf timeText s) ↔
          ∀ d1 ∈ liveDocuments s, d1.VersionCreatedAt ≤ d.VersionCreatedAt := by
        constructor
        · intro hv d1 hd1
          have h1 : ¬ d.VersionCreatedAt < d0.VersionCreatedAt := by
            intro hlt
            have := (hord d hlive d0 hd0).2 hlt
            rw [hd0v, hv] at this
            rw [textLess, bytesLess_irrefl] at this
            cases this
          have h2 := hmax d1 hd1
          rw [← hd0v] at h2
          omega
        · intro hall
          have h1 := hall d0 hd0
          have h2 := hmax d hlive
          have : d.VersionCreatedAt = latestVersionOf timeText s := by omega
          rw [this]
      have hb : (timeText d.VersionCreatedAt == timeText (latestVersionOf timeText s)) =
          decide (∀ d1 ∈ liveDocuments s, d1.VersionCreatedAt ≤ d.VersionCreatedAt) := by
        rw [Bool.eq_iff_iff]
        simp only [beq_iff_eq, decide_eq_true_eq]
        exact key
      rw [hb, hdel1]
      simp
  have hlen : ((s.documents.filter fun d =>
      !d.Deleted && timeText d.VersionCreatedAt == timeText (latestVersionOf timeText s)).map
        (preload s)).length ≠ 0 := by
    rw [List.length_map]
    intro h0
    have hmem : d0 ∈ s.documents.filter fun d =>
        !d.Deleted && timeText d.VersionCreatedAt == timeText (latestVersionOf timeText s) := by
      obtain ⟨a, b⟩ := List.mem_filter.1 hd0
      exact List.mem_filter.2 ⟨a, by simp [hd0v] at b ⊢; simpa using b⟩
    rw [List.length_eq_zero.1 h0] at hmem
    simp at hmem
  refine ⟨(s.documents.filter fun d =>
      !d.Deleted && timeText d.VersionCreatedAt == timeText (latestVersionOf timeText s)).map
        (preload s), ?_, ?_, ?_⟩
  · simp only [AskGlobalQuestion, stmtFails_nil, Bool.false_eq_true, if_false, if_neg hpos,
      List.tail_nil, if_neg hlen]
    cases generateAnswer req.Question
      (buildGlobalContext mapOrder ((s.documents.filter fun d =>
        !d.Deleted && timeText d.VersionCreatedAt ==
          timeText (latestVersionOf timeText s)).map (preload s))) []
      req.UseWebSearch <;> rfl
  · rw [List.map_map, ← hfilter]
    have hid : (LoadedDocument.row ∘ preload s) = id := rfl
    rw [hid, List.map_id]
  · rw [List.map_map, List.map_map]
    apply List.map_congr_left
    intro d _
    rfl

set_option maxRecDepth 100000 in
/-- C16 (code at the failing input): two version batches written around the end of daylight
saving time.  Document 1 belongs to the batch of reading 11, stored as the text
"2025-11-02 01:30:00-04:00"; document 2 belongs to the later batch of reading 12, stored as
"2025-11-02 01:10:00-05:00".  The first query orders the stored texts and scans the version
of the older batch; `AskGlobalQuestion` passes document 1 alone to `buildGlobalContext`,
and the document of the latest batch is not passed. -/
theorem global_qa_answers_from_older_batch :
    (liveDocuments autumnStore).map (fun d => (d.ID, d.VersionCreatedAt)) = [(1, 11), (2, 12)] ∧
    latestVersionOf autumnText autumnStore = 11 ∧
    ((AskGlobalQuestion fixedAnswer id autumnText ⟨"why?", false⟩ autumnStore []).calls.map
        fun c => c.documentContext) =
      [buildGlobalContext id
        [preload autumnStore ⟨1, 11, false, "Before", "Older batch.", "# Before", 11⟩]] ∧
    (AskGlobalQuestion fixedAnswer id autumnText ⟨"why?", false⟩ autumnStore
      []).response.toOption =
      some { Answer := "answer", Sources := ["Latest version documents (1 total)"],
             WebSearch := false } := by
  decide

theorem intercalate_cons (sep : GoString) (x : GoString) (xs : List GoString) :
    List.intercalate sep (x :: xs) = x ++ xs.flatMap fun y => sep ++ y := by
  induction xs generalizing x with
  | nil => simp [List.intercalate, List.intersperse]
  | cons y ys ih =>
    have h := ih y
    simp only [List.intercalate, List.intersperse, List.flatten_cons, List.flatMap_cons] at h ⊢
    rw [h]
    simp

theorem tagNamesLoop_succ (j : Nat) (tags : List Tag) (context : GoString) :
    tagNamesLoop (j + 1) tags context =
      context ++ tags.flatMap fun t => gs ", " ++ gs t.Name := by
  induction tags generalizing j context with
  | nil => simp [tagNamesLoop]
  | cons t rest ih =>
    simp only [tagNamesLoop, ih, List.flatMap_cons]
    simp

theorem tagNamesLoop_zero (t : Tag) (rest : List Tag) (context : GoString) :
    tagNamesLoop 0 (t :: rest) context =
      context ++ List.intercalate (gs ", ") ((t :: rest).map fun t => gs t.Name) := by
  simp only [tagNamesLoop, tagNamesLoop_succ, List.map_cons, intercalate_cons]
  simp [List.flatMap_def, List.map_map]
  rfl

/-- What one document appends to the context is its detailed section. -/
theorem appendDocument_eq (context : GoString) (i : Nat) (d : LoadedDocument) :
    appendDocument context i d = context ++ detailedSection (i + 1) d := by
  cases hT : d.Tags with
  | nil => simp [appendDocument, detailedSection, hT]
  | cons t rest =>
    simp only [appendDocument, detailedSection, hT, tagNamesLoop_zero]
    simp

theorem toString_int_sub (n : Nat) (h : 10 ≤ n) :
    toString ((n : Int) - 10) = toString (n - 10) := by
  have h1 : (n : Int) - 10 = ((n - 10 : Nat) : Int) := by omega
  rw [h1]
  rfl

theorem detailLoop_eq (n : Nat) (docs : List LoadedDocument) (i : Nat) (context : GoString)
    (hi : i ≤ 10) :
    detailLoop n i docs context =
      context ++ ((docs.take (10 - i)).enumFrom (i + 1)).flatMap
          (fun p => detailedSection p.1 p.2) ++
        (if docs.length > 10 - i then
          gs "... and " ++ gs (toString ((n : Int) - 10)) ++ gs " more documents\n"
         else []) := by
  induction docs generalizing i context with
  | nil => simp [detailLoop]
  | cons d rest ih =>
    by_cases h10 : i ≥ 10
    · have hi10 : i = 10 := by omega
      subst hi10
      simp [detailLoop]
    · have hstep : 10 - i = (10 - (i + 1)) + 1 := by omega
      have hcond : ((d :: rest).length > 10 - i) = (rest.length > 10 - (i + 1)) := by
        simp only [List.length_cons, gt_iff_lt, eq_iff_iff]
        omega
      simp only [detailLoop, if_neg h10, ih (i + 1) _ (by omega), appendDocument_eq, hcond]
      rw [hstep, List.take_succ_cons, List.enumFrom_cons, List.flatMap_cons]
      simp

theorem foldl_append_lines (entries : List (String × Nat)) (context : GoString) :
    entries.foldl
        (fun context entry =>
          context ++ gs "- " ++ gs entry.1 ++ gs " (" ++ gs (toString entry.2) ++
            gs " documents)\n") context =
      context ++ entries.flatMap tagLine := by
  induction entries generalizing context with
  | nil => simp
  | cons e rest ih =>
    simp only [List.foldl_cons, ih, List.flatMap_cons, tagLine]
    simp

/-- The function `buildGlobalContext` writes the heading, the capped detail part and the
tag statistics. -/
theorem buildGlobalContext_eq (mapOrder : List (String × Nat) → List (String × Nat))
    (docs : List LoadedDocument) :
    buildGlobalContext mapOrder docs =
      collectionHeader docs.length ++ cappedDetail docs ++ tagStatistics mapOrder docs := by
  have hdetail : detailLoop docs.length 0 docs (collectionHeader docs.length) =
      collectionHeader docs.length ++ cappedDetail docs := by
    rw [detailLoop_eq _ _ 0 _ (by omega), cappedDetail]
    by_cases h : docs.length > 10
    · simp only [Nat.sub_zero, h, if_true, moreDocumentsNote,
        toString_int_sub docs.length (by omega)]
      simp
    · simp [h]
  simp only [buildGlobalContext]
  rw [show (gs "=== Latest Version Document Collection ===\nDocuments in latest version: " ++
    gs (toString docs.length) ++ gs "\n\n") = collectionHeader docs.length from rfl, hdetail]
  by_cases hc : tagCounts docs = []
  · simp [hc, tagStatistics]
  · have hlen : (tagCounts docs).length > 0 := List.length_pos.2 hc
    simp only [hlen, if_true, foldl_append_lines, tagStatistics, if_neg hc]
    simp

/-- C18: the output of `buildGlobalContext` is the heading, then one detailed section
(`=== Document i: <title> ===`, summary, tags, content) for each of the first min(n, 10)
documents in list order, numbered from 1, then the note `... and (n-10) more documents`
once when n exceeds 10 and not at all otherwise, then the tag statistics. -/
theorem buildGlobalContext_caps_detail (mapOrder : List (String × Nat) → List (String × Nat))
    (docs : List LoadedDocument) :
    buildGlobalContext mapOrder docs =
      collectionHeader docs.length ++
        ((docs.take 10).enumFrom 1).flatMap (fun p => detailedSection p.1 p.2) ++
        (if docs.length > 10 then moreDocumentsNote docs.length else []) ++
        tagStatistics mapOrder docs ∧
    ((docs.take 10).enumFrom 1).map Prod.fst = List.range' 1 (min docs.length 10) ∧
    ((docs.take 10).enumFrom 1).map Prod.snd = docs.take 10 := by
  refine ⟨?_, ?_, List.enumFrom_map_snd _ _⟩
  · rw [buildGlobalContext_eq, cappedDetail]
    simp
  · rw [List.enumFrom_map_fst, List.length_take, Nat.min_comm]

set_option maxRecDepth 100000 in
/-- C19 (counterexample): a content of 167 characters, far below 500, whose UTF-8 encoding
has 501 bytes, is not rendered unchanged: it is cut to 500 bytes followed by "...". -/
theorem short_wide_content_is_cut :
    wideContent.length = 167 ∧ (gs wideContent).length = 501 ∧
    truncateContent (gs wideContent) ≠ gs wideContent ∧
    truncateContent (gs wideContent) = (gs wideContent).take 500 ++ gs "..." := by
  decide

theorem gs_ascii (cs : List Char) (h : ∀ ch ∈ cs, ch.val ≤ 0x7f) :
    gs (String.mk cs) = cs.map fun ch => ch.val.toUInt8 := by
  induction cs with
  | nil => rfl
  | cons c cs ih =>
    have hc : c.val ≤ 0x7f := h c (List.mem_cons_self _ _)
    have ht := ih (fun ch hch => h ch (List.mem_cons_of_mem _ hch))
    simp only [gs] at ht ⊢
    simp only [List.flatMap_cons, List.map_cons, ht, String.utf8EncodeChar, hc, if_true]
    rfl

/-- C19 (amended): the content budget of `buildGlobalContext` is 500 bytes of the UTF-8
encoding.  The content of a document rendered in detail is rendered through
`truncateContent`; content of at most 500 bytes is rendered unchanged, content of more than
500 bytes is rendered as its first 500 bytes followed by "..."; for content of ASCII
characters only, bytes are characters and the claim holds as stated. -/
theorem content_budget_is_bytes :
    (∀ (context : GoString) (i : Nat) (d : LoadedDocument), ∃ head : GoString,
      appendDocument context i d =
        head ++ gs "Content: " ++ truncateContent (gs d.row.Content) ++ gs "\n\n") ∧
    (∀ c : GoString, c.length ≤ 500 → truncateContent c = c) ∧
    (∀ c : GoString, 500 < c.length → truncateContent c = c.take 500 ++ gs "...") ∧
    (∀ cs : List Char, (∀ ch ∈ cs, ch.val ≤ 0x7f) →
      (gs (String.mk cs)).length = cs.length ∧
      (500 < cs.length →
        truncateContent (gs (String.mk cs)) = gs (String.mk (cs.take 500)) ++ gs "...")) := by
  refine ⟨?_, ?_, ?_, ?_⟩
  · intro context i d
    refine ⟨context ++ gs "=== Document " ++ gs (toString (i + 1)) ++ gs ": " ++
      gs d.row.Title ++ gs " ===\n" ++ gs "Summary: " ++ gs d.row.Summary ++ gs "\n" ++
      (if d.Tags = [] then []
       else gs "Tags: " ++ List.intercalate (gs ", ") (d.Tags.map fun t => gs t.Name) ++
        gs "\n"), ?_⟩
    rw [appendDocument_eq, detailedSection]
    simp
  · intro c hc
    simp [truncateContent, Nat.not_lt.2 hc]
  · intro c hc
    simp [truncateContent, hc]
  · intro cs hascii
    have h1 := gs_ascii cs hascii
    refine ⟨by rw [h1, List.length_map], ?_⟩
    intro hlen
    have h2 := gs_ascii (cs.take 500) (fun ch hch => hascii ch (List.mem_of_mem_take hch))
    have hlen1 : 500 < (gs (String.mk cs)).length := by rw [h1, List.length_map]; exact hlen
    simp only [truncateContent, gt_iff_lt, hlen1, if_true]
    rw [h1, h2, List.map_take]

/-- C19 (witness): a short ASCII content is rendered unchanged. -/
theorem content_budget_is_bytes_witness :
    truncateContent (gs "short content") = gs "short content" :=
  content_budget_is_bytes.2.1 (gs "short content") (by decide)

theorem countOf_cons (k0 : String) (c : Nat) (rest : List (String × Nat)) (k1 : String) :
    countOf ((k0, c) :: rest) k1 = if k0 = k1 then c else countOf rest k1 := by
  by_cases h : k0 = k1
  · subst h; simp [countOf]
  · have hb : (k0 == k1) = false := by simpa using h
    simp only [countOf, List.find?_cons, hb, if_neg h]

theorem countOf_incrCount (m : List (String × Nat)) (k k1 : String) :
    countOf (incrCount m k) k1 = countOf m k1 + (if k1 = k then 1 else 0) := by
  induction m with
  | nil =>
    by_cases h : k1 = k
    · subst h; simp [incrCount, countOf]
    · have h2 : ¬ k = k1 := fun e => h e.symm
      simp [incrCount, countOf, h, h2]
  | cons e rest ih =>
    obtain ⟨k0, c⟩ := e
    by_cases h0 : k0 = k
    · subst h0
      simp only [incrCount, if_true, countOf_cons]
      by_cases h : k0 = k1
      · subst h; simp
      · have h2 : ¬ k1 = k0 := fun e => h e.symm
        simp [h, h2]
    · simp only [incrCount, if_neg h0, countOf_cons, ih]
      by_cases h : k0 = k1
      · subst h; simp [h0]
      · simp [h]

theorem incrCount_keys (m : List (String × Nat)) (k : String) :
    (incrCount m k).map Prod.fst =
      if k ∈ m.map Prod.fst then m.map Prod.fst else m.map Prod.fst ++ [k] := by
  induction m with
  | nil => simp [incrCount]
  | cons e rest ih =>
    obtain ⟨k0, c⟩ := e
    by_cases h0 : k0 = k
    · subst h0; simp [incrCount]
    · have h1 : ¬ k = k0 := fun e => h0 e.symm
      simp only [incrCount, if_neg h0, List.map_cons, ih, List.mem_cons, h1, false_or]
      split <;> simp

theorem incrCount_invariant (m : List (String × Nat)) (k : String)
    (hk : (m.map Prod.fst).Nodup) (hp : ∀ e ∈ m, 0 < e.2) :
    ((incrCount m k).map Prod.fst).Nodup ∧ (∀ e ∈ incrCount m k, 0 < e.2) ∧
      incrCount m k ≠ [] := by
  refine ⟨?_, ?_, ?_⟩
  · rw [incrCount_keys]
    split
    · exact hk
    · rename_i hnot
      exact List.Nodup.append hk (List.nodup_singleton _) (by
        intro x hx hx1
        rw [List.mem_singleton] at hx1
        exact hnot (hx1 ▸ hx))
  · induction m with
    | nil => intro e he; simp [incrCount] at he; subst he; exact Nat.one_pos
    | cons e0 rest ih =>
      obtain ⟨k0, c⟩ := e0
      intro e he
      by_cases h0 : k0 = k
      · simp only [incrCount, if_pos h0, List.mem_cons] at he
        rcases he with h | h
        · subst h; exact Nat.succ_pos _
        · exact hp e (List.mem_cons_of_mem _ h)
      · simp only [incrCount, if_neg h0, List.mem_cons] at he
        rcases he with h | h
        · subst h; exact hp _ (List.mem_cons_self _ _)
        · exact ih (List.nodup_cons.1 hk).2 (fun e he => hp e (List.mem_cons_of_mem _ he)) e h
  · cases m with
    | nil => simp [incrCount]
    | cons e0 rest =>
      obtain ⟨k0, c⟩ := e0
      by_cases h0 : k0 = k <;> simp [incrCount, h0]

theorem foldl_incrCount (names : List String) (m : List (String × Nat))
    (hk : (m.map Prod.fst).Nodup) (hp : ∀ e ∈ m, 0 < e.2) :
    (((names.foldl incrCount m).map Prod.fst).Nodup ∧
      (∀ e ∈ names.foldl incrCount m, 0 < e.2)) ∧
    (∀ k, countOf (names.foldl incrCount m) k = countOf m k + names.count k) ∧
    (names.foldl incrCount m = [] ↔ m = [] ∧ names = []) := by
  induction names generalizing m with
  | nil => exact ⟨⟨hk, hp⟩, by simp, by simp⟩
  | cons n rest ih =>
    obtain ⟨a, b, c⟩ := incrCount_invariant m n hk hp
    obtain ⟨h1, h2, h3⟩ := ih (incrCount m n) a b
    refine ⟨h1, ?_, ?_⟩
    · intro k
      rw [List.foldl_cons, h2 k, countOf_incrCount, List.count_cons]
      by_cases hkn : k = n
      · subst hkn; simp; omega
      · have : ¬ n = k := fun e => hkn e.symm
        simp [hkn, this]
    · rw [List.foldl_cons, h3]
      simp [c]

theorem mem_iff_countOf (m : List (String × Nat)) (hk : (m.map Prod.fst).Nodup)
    (hp : ∀ e ∈ m, 0 < e.2) (t : String) (c : Nat) :
    (t, c) ∈ m ↔ (0 < c ∧ countOf m t = c) := by
  induction m with
  | nil => simp [countOf]; omega
  | cons e rest ih =>
    obtain ⟨k0, c0⟩ := e
    have hk1 := List.nodup_cons.1 hk
    have ih1 := ih hk1.2 (fun e he => hp e (List.mem_cons_of_mem _ he))
    rw [countOf_cons]
    by_cases h0 : k0 = t
    · subst h0
      have hnot : ∀ c1, (k0, c1) ∉ rest := by
        intro c1 hin
        exact hk1.1 (List.mem_map.2 ⟨(k0, c1), hin, rfl⟩)
      have hc0 : 0 < c0 := hp (k0, c0) (List.mem_cons_self _ _)
      simp only [List.mem_cons, Prod.mk.injEq, true_and, if_true]
      constructor
      · rintro (h | h)
        · subst h; exact ⟨hc0, rfl⟩
        · exact absurd h (hnot c)
      · rintro ⟨_, h⟩
        exact Or.inl h.symm
    · have h1 : ¬ t = k0 := fun e => h0 e.symm
      simp only [List.mem_cons, Prod.mk.injEq, h1, false_and, false_or, if_neg h0]
      exact ih1

theorem tagCounts_eq (docs : List LoadedDocument) :
    tagCounts docs = (docs.flatMap fun d => d.Tags.map Tag.Name).foldl incrCount [] := by
  have key : ∀ (ds : List LoadedDocument) (m : List (String × Nat)),
      ds.foldl (fun m document => document.Tags.foldl (fun m tag => incrCount m tag.Name) m) m =
        (ds.flatMap fun d => d.Tags.map Tag.Name).foldl incrCount m := by
    intro ds
    induction ds with
    | nil => intro m; rfl
    | cons d ds ih =>
      intro m
      simp only [List.foldl_cons, List.flatMap_cons, List.foldl_append, ih, List.foldl_map]
  exact key docs []

/-- C20: the tag statistics of `buildGlobalContext` aggregate over all documents of the
list.  For a map iteration order `mapOrder` (any permutation of the entries), the output ends
with the section `tagStatistics`; the entries printed have pairwise different names; an entry
`(t, c)` is printed exactly when `c` is positive and equals the number of tag entries named
`t` over all documents of the list (those beyond the first ten included); and the section is
empty exactly when no document has a tag. -/
theorem tag_statistics_aggregate (mapOrder : List (String × Nat) → List (String × Nat))
    (hperm : ∀ m, (mapOrder m).Perm m) (docs : List LoadedDocument) :
    (∃ detail : GoString,
      buildGlobalContext mapOrder docs = detail ++ tagStatistics mapOrder docs) ∧
    (tagCounts docs ≠ [] → tagStatistics mapOrder docs =
      gs "=== Available Tags ===\n" ++ (mapOrder (tagCounts docs)).flatMap tagLine ++
        gs "\n") ∧
    ((mapOrder (tagCounts docs)).map Prod.fst).Nodup ∧
    (∀ (t : String) (c : Nat),
      (t, c) ∈ mapOrder (tagCounts docs) ↔ (0 < c ∧ c = tagOccurrences t docs)) ∧
    (tagStatistics mapOrder docs = [] ↔ ∀ d ∈ docs, d.Tags = []) := by
  obtain ⟨⟨hnodup, hpos⟩, hcount, hempty⟩ :=
    foldl_incrCount (docs.flatMap fun d => d.Tags.map Tag.Name) [] List.nodup_nil
      (fun e he => absurd he (List.not_mem_nil e))
  rw [← tagCounts_eq] at hnodup hpos hcount hempty
  refine ⟨⟨_, buildGlobalContext_eq mapOrder docs⟩, ?_, ?_, ?_, ?_⟩
  · intro hne
    rw [tagStatistics, if_neg hne]
  · exact ((hperm _).map Prod.fst).nodup_iff.2 hnodup
  · intro t c
    rw [(hperm _).mem_iff, mem_iff_countOf _ hnodup hpos, hcount t, tagOccurrences]
    have h0 : countOf [] t = 0 := rfl
    rw [h0, Nat.zero_add]
    constructor
    · rintro ⟨a, b⟩; exact ⟨a, b.symm⟩
    · rintro ⟨a, b⟩; exact ⟨a, b.symm⟩
  · have hsec : tagStatistics mapOrder docs = [] ↔ tagCounts docs = [] := by
      rw [tagStatistics]
      split
      · rename_i h; simp [h]
      · rename_i h
        have hhead : gs "=== Available Tags ===\n" ≠ [] := by decide
        simp [h, hhead]
    rw [hsec, hempty]
    simp

set_option maxRecDepth 10000 in
/-- C20 (witness): eleven documents, the tag "x" on the first and on the eleventh, the tag
"y" on the first, the map iterated in reverse: "x" is counted twice. -/
theorem tag_statistics_aggregate_witness :
    tagCounts elevenDocuments = [("x", 2), ("y", 1)] ∧
    (("x", 2) ∈ (tagCounts elevenDocuments).reverse ↔
      (0 < 2 ∧ 2 = tagOccurrences "x" elevenDocuments)) :=
  ⟨by decide,
   (tag_statistics_aggregate List.reverse (fun m => List.reverse_perm m)
      elevenDocuments).2.2.2.1 "x" 2⟩

set_option maxRecDepth 100000 in
/-- C13 (code at the failing inputs): a collaborator answer without the section CONTENT is
parsed to a document with empty content, which `InsertDocument` stores and `UpdateDocument`
writes over an existing row; `createDocumentsFromResponse` creates a document row whose
title, summary and content are all empty.  Every one of these writes succeeds. -/
theorem empty_document_fields_are_stored :
    parseGeneratedResponse answerWithoutContent = ⟨"Plan", "", "Short."⟩ ∧
    (insertGenerated 7 Database.empty answerWithoutContent []).1.toOption = some 1 ∧
    (insertGenerated 7 Database.empty answerWithoutContent []).2.1.documents =
      [{ ID := 1, Title := "Plan", Content := "", Summary := some "Short.", CreatedAt := 7,
         UpdatedAt := 7 }] ∧
    (updateGenerated 8 Database.linked 1 answerWithoutContent []).1 = none ∧
    (updateGenerated 8 Database.linked 1 answerWithoutContent []).2.1.documents =
      [{ ID := 1, Title := "Plan", Content := "", Summary := some "Short.", CreatedAt := 5,
         UpdatedAt := 8 }] ∧
    (createDocumentsFromResponse blankCandidate 100 (fun _ => 7) (fragmentStore []) []).map
        (fun r => (r.1, r.2.store.documents)) =
      some (none, [{ ID := 1, CreatedAt := 7, Deleted := false, Title := "", Summary := "",
                     Content := "", VersionCreatedAt := 100 }]) := by
  decide

theorem count_of_nodup {α : Type} [BEq α] [LawfulBEq α] (l : List α) (p : α)
    (hn : l.Nodup) (hm : p ∈ l) : l.count p = 1 := by
  induction l with
  | nil => simp at hm
  | cons x xs ih =>
    rw [List.count_cons]
    have hx := List.nodup_cons.1 hn
    by_cases hxp : x = p
    · subst hxp
      rw [List.count_eq_zero_of_not_mem hx.1]; simp
    · have hb : (x == p) = false := by simpa using hxp
      have hmem : p ∈ xs := by
        rcases List.mem_cons.1 hm with h | h
        · exact absurd h.symm hxp
        · exact h
      rw [ih hx.2 hmem, hb]; simp

theorem count_append_new {α : Type} [BEq α] [LawfulBEq α] (l : List α) (p : α) (h : p ∉ l) :
    (l ++ [p]).count p = 1 ∧ (l.Nodup → (l ++ [p]).Nodup) := by
  refine ⟨?_, ?_⟩
  · rw [List.count_append, List.count_eq_zero_of_not_mem h]; simp
  · intro hh
    refine List.Nodup.append hh (List.nodup_singleton _) ?_
    intro a ha hb
    rw [List.mem_singleton] at hb
    exact h (hb ▸ ha)

theorem LinkFragmentToDocument_nofault (db : Database.DB) (fragmentID documentID : Int) :
    Database.LinkFragmentToDocument db fragmentID documentID [] =
      (none,
        if (documentID, fragmentID) ∈ db.document_fragment_links then db
        else { db with document_fragment_links :=
                 db.document_fragment_links ++ [(documentID, fragmentID)] }, []) := by
  simp [Database.LinkFragmentToDocument, stmtFails_nil]

theorem LinkDocumentToTag_nofault (db : Database.DB) (documentID tagID : Int) :
    Database.LinkDocumentToTag db documentID tagID [] =
      (none,
        if (documentID, tagID) ∈ db.document_tag_links then db
        else { db with document_tag_links :=
                 db.document_tag_links ++ [(documentID, tagID)] }, []) := by
  simp [Database.LinkDocumentToTag, stmtFails_nil]

theorem LinkFragmentToDocument_twice (db : Database.DB) (fragmentID documentID : Int)
    (hf : db.document_fragment_links.Nodup) :
    (Database.LinkFragmentToDocument db fragmentID documentID []).1 = none ∧
    Database.LinkFragmentToDocument
        (Database.LinkFragmentToDocument db fragmentID documentID []).2.1
        fragmentID documentID [] =
      Database.LinkFragmentToDocument db fragmentID documentID [] ∧
    (Database.LinkFragmentToDocument db fragmentID documentID []).2.1.document_fragment_links.count
        (documentID, fragmentID) = 1 ∧
    (Database.LinkFragmentToDocument db fragmentID documentID []).2.1.document_fragment_links.Nodup := by
  rw [LinkFragmentToDocument_nofault db]
  by_cases hmem : (documentID, fragmentID) ∈ db.document_fragment_links
  · simp only [if_pos hmem]
    rw [LinkFragmentToDocument_nofault db, if_pos hmem]
    exact ⟨by trivial, by trivial, count_of_nodup _ _ hf hmem, hf⟩
  · have h := count_append_new _ _ hmem
    simp only [if_neg hmem]
    rw [LinkFragmentToDocument_nofault]
    have hin : (documentID, fragmentID) ∈
        db.document_fragment_links ++ [(documentID, fragmentID)] := by simp
    simp only [if_pos hin]
    exact ⟨by trivial, by trivial, h.1, h.2 hf⟩

theorem LinkDocumentToTag_twice (db : Database.DB) (documentID tagID : Int)
    (ht : db.document_tag_links.Nodup) :
    (Database.LinkDocumentToTag db documentID tagID []).1 = none ∧
    Database.LinkDocumentToTag (Database.LinkDocumentToTag db documentID tagID []).2.1
        documentID tagID [] =
      Database.LinkDocumentToTag db documentID tagID [] ∧
    (Database.LinkDocumentToTag db documentID tagID []).2.1.document_tag_links.count
        (documentID, tagID) = 1 ∧
    (Database.LinkDocumentToTag db documentID tagID []).2.1.document_tag_links.Nodup := by
  rw [LinkDocumentToTag_nofault db]
  by_cases hmem : (documentID, tagID) ∈ db.document_tag_links
  · simp only [if_pos hmem]
    rw [LinkDocumentToTag_nofault db, if_pos hmem]
    exact ⟨by trivial, by trivial, count_of_nodup _ _ ht hmem, ht⟩
  · have h := count_append_new _ _ hmem
    simp only [if_neg hmem]
    rw [LinkDocumentToTag_nofault]
    have hin : (documentID, tagID) ∈ db.document_tag_links ++ [(documentID, tagID)] := by simp
    simp only [if_pos hin]
    exact ⟨by trivial, by trivial, h.1, h.2 ht⟩

theorem AddFragmentToDocument_nofault (documentID fragmentID : Nat) (s : Store)
    (hd : isLiveDocument s documentID = true) (hf : isLiveFragment s fragmentID = true) :
    AddFragmentToDocument documentID fragmentID s [] =
      (none,
        { s with document_fragments :=
            if (documentID, fragmentID) ∈ s.document_fragments then s.document_fragments
            else s.document_fragments ++ [(documentID, fragmentID)] }, []) := by
  unfold isLiveDocument at hd
  unfold isLiveFragment at hf
  simp only [AddFragmentToDocument, transaction, stmtFails_nil, List.tail_nil, hd, hf,
    Bool.false_eq_true, if_false, insertLinks, List.foldl_cons, List.foldl_nil]
  simp

/-- C14: link insertion is idempotent.  With no storage failure, and the link tables free of
repeated rows (the pair is the primary key), calling `LinkFragmentToDocument` twice with the
same pair returns nil both times, the second call changes nothing, and the table holds
exactly one row for the pair; the same for `LinkDocumentToTag`, and for
`AddFragmentToDocument` of a live fragment to a live document. -/
theorem link_insertion_idempotent (db : Database.DB) (fragmentID documentID tagID : Int)
    (s : Store) (document fragment : Nat)
    (hf : db.document_fragment_links.Nodup) (ht : db.document_tag_links.Nodup)
    (hs : s.document_fragments.Nodup) (hd : isLiveDocument s document = true)
    (hfr : isLiveFragment s fragment = true) :
    ((Database.LinkFragmentToDocument db fragmentID documentID []).1 = none ∧
      Database.LinkFragmentToDocument
          (Database.LinkFragmentToDocument db fragmentID documentID []).2.1
          fragmentID documentID [] =
        Database.LinkFragmentToDocument db fragmentID documentID [] ∧
      (Database.LinkFragmentToDocument db fragmentID documentID
        []).2.1.document_fragment_links.count (documentID, fragmentID) = 1 ∧
      (Database.LinkFragmentToDocument db fragmentID documentID
        []).2.1.document_fragment_links.Nodup) ∧
    ((Database.LinkDocumentToTag db documentID tagID []).1 = none ∧
      Database.LinkDocumentToTag (Database.LinkDocumentToTag db documentID tagID []).2.1
          documentID tagID [] =
        Database.LinkDocumentToTag db documentID tagID [] ∧
      (Database.LinkDocumentToTag db documentID tagID []).2.1.document_tag_links.count
        (documentID, tagID) = 1 ∧
      (Database.LinkDocumentToTag db documentID tagID []).2.1.document_tag_links.Nodup) ∧
    ((AddFragmentToDocument document fragment s []).1 = none ∧
      AddFragmentToDocument document fragment (AddFragmentToDocument document fragment s []).2.1
          [] =
        AddFragmentToDocument document fragment s [] ∧
      (AddFragmentToDocument document fragment s []).2.1.document_fragments.count
        (document, fragment) = 1 ∧
      (AddFragmentToDocument document fragment s []).2.1.document_fragments.Nodup) := by
  refine ⟨LinkFragmentToDocument_twice db fragmentID documentID hf,
    LinkDocumentToTag_twice db documentID tagID ht, ?_⟩
  have key : ∀ links : List (Nat × Nat),
      AddFragmentToDocument document fragment { s with document_fragments := links } [] =
        (none,
          { s with document_fragments :=
              if (document, fragment) ∈ links then links
              else links ++ [(document, fragment)] }, []) :=
    fun links => AddFragmentToDocument_nofault document fragment
      { s with document_fragments := links } hd hfr
  rw [AddFragmentToDocument_nofault document fragment s hd hfr]
  by_cases hmem : (document, fragment) ∈ s.document_fragments
  · simp only [if_pos hmem]
    rw [AddFragmentToDocument_nofault document fragment s hd hfr]
    simp only [if_pos hmem]
    exact ⟨by trivial, by trivial, count_of_nodup _ _ hs hmem, hs⟩
  · have h := count_append_new _ _ hmem
    have hin : (document, fragment) ∈ s.document_fragments ++ [(document, fragment)] := by
      simp
    simp only [if_neg hmem]
    rw [key]
    simp only [if_pos hin]
    exact ⟨by trivial, by trivial, h.1, h.2 hs⟩

/-- C14 (witness): linking fragment 1 again and fragment 2 anew to document 1. -/
theorem link_insertion_idempotent_witness :
    (Database.LinkFragmentToDocument Database.linked 2 1 []).2.1.document_fragment_links =
      [(1, 1), (1, 2)] ∧
    (Database.LinkFragmentToDocument Database.linked 2 1
      []).2.1.document_fragment_links.count (1, 2) = 1 ∧
    (AddFragmentToDocument 1 1 linkedStore []).2.1.document_fragments.count (1, 1) = 1 :=
  ⟨by decide,
   (link_insertion_idempotent Database.linked 2 1 1 linkedStore 1 1 (by decide) (by decide)
      (by decide) (by decide) (by decide)).1.2.2.1,
   (link_insertion_idempotent Database.linked 2 1 1 linkedStore 1 1 (by decide) (by decide)
      (by decide) (by decide) (by decide)).2.2.2.2.1⟩

theorem filter_key_of_find_none {α : Type} (f : α → String) (l : List α) (k : String)
    (h : l.find? (fun t => f t == k) = none) : l.filter (fun t => f t == k) = [] := by
  rw [List.find?_eq_none] at h
  rw [List.filter_eq_nil_iff]
  exact h

theorem filter_key_of_mem {α : Type} (f : α → String) (l : List α) (x : α) (hx : x ∈ l)
    (hn : (l.map f).Nodup) : (l.filter fun t => f t == f x).length = 1 := by
  induction l with
  | nil => simp at hx
  | cons y ys ih =>
    rw [List.map_cons, List.nodup_cons] at hn
    by_cases hxy : f y = f x
    · have hnone : ys.filter (fun t => f t == f x) = [] := by
        rw [List.filter_eq_nil_iff]
        intro t ht hft
        exact hn.1 (List.mem_map.2 ⟨t, ht, by rw [hxy]; simpa using hft⟩)
      have hb : (f y == f x) = true := by simpa using hxy
      rw [List.filter_cons, hb, if_pos rfl, hnone]
      rfl
    · have hb : (f y == f x) = false := by simpa using hxy
      have hmem : x ∈ ys := by
        rcases List.mem_cons.1 hx with h | h
        · exact absurd (by rw [h]) hxy
        · exact h
      rw [List.filter_cons, hb]
      exact ih hmem hn.2

theorem InsertOrGetTag_twice (db : Database.DB) (tagName : String)
    (hn : (db.tags.map Database.Tag.Name).Nodup) :
    ∃ id db1, Database.InsertOrGetTag db tagName [] = (.ok id, db1, []) ∧
      Database.InsertOrGetTag db1 tagName [] = (.ok id, db1, []) ∧
      (db1.tags.filter fun t => t.Name == tagName).length = 1 ∧
      (db1.tags.map Database.Tag.Name).Nodup := by
  cases hfind : db.tags.find? (fun t => t.Name == tagName) with
  | some t =>
    have hcall : Database.InsertOrGetTag db tagName [] = (.ok t.ID, db, []) := by
      simp [Database.InsertOrGetTag, stmtFails_nil, hfind]
    have hname : t.Name = tagName := by simpa using List.find?_some hfind
    have hlen := filter_key_of_mem Database.Tag.Name db.tags t (List.mem_of_find?_eq_some hfind) hn
    rw [hname] at hlen
    exact ⟨t.ID, db, hcall, hcall, hlen, hn⟩
  | none =>
    have hnone := filter_key_of_find_none Database.Tag.Name db.tags tagName hfind
    have hfresh : tagName ∉ db.tags.map Database.Tag.Name := by
      intro hmem
      obtain ⟨t, ht, htn⟩ := List.mem_map.1 hmem
      rw [List.find?_eq_none] at hfind
      exact hfind t ht (by simpa using htn)
    refine ⟨Database.nextRowID db.tagSeq (db.tags.map Database.Tag.ID),
      { db with tags := db.tags ++
                  [{ ID := Database.nextRowID db.tagSeq (db.tags.map Database.Tag.ID),
                     Name := tagName }],
                tagSeq := Database.nextRowID db.tagSeq (db.tags.map Database.Tag.ID) },
      ?_, ?_, ?_, ?_⟩
    · simp [Database.InsertOrGetTag, stmtFails_nil, hfind]
    · simp [Database.InsertOrGetTag, stmtFails_nil, List.find?_append, hfind]
    · show ((db.tags ++ _).filter fun t => t.Name == tagName).length = 1
      rw [List.filter_append, hnone]
      simp
    · show ((db.tags ++ _).map Database.Tag.Name).Nodup
      rw [List.map_append]
      refine List.Nodup.append hn (by simp) ?_
      intro a ha hb
      simp only [List.map_cons, List.map_nil, List.mem_singleton] at hb
      exact hfresh (hb ▸ ha)

theorem createOrGetTagsLoop_found (now : Nat) (tagName : String) (rest : List String)
    (acc : List Nat) (s : Store) (tag : Tag) (hne : tagName ≠ "")
    (hfind : s.tags.find? (fun t => !t.Deleted && t.Name == tagName) = some tag) :
    createOrGetTagsLoop now (tagName :: rest) acc s [] =
      createOrGetTagsLoop now rest (acc ++ [tag.ID]) s [] := by
  simp [createOrGetTagsLoop, hne, stmtFails_nil, hfind]

theorem createOrGetTagsLoop_new (now : Nat) (tagName color : String) (rest : List String)
    (acc : List Nat) (s : Store) (hne : tagName ≠ "")
    (hfresh : ∀ t ∈ s.tags, t.Name ≠ tagName) (hcolor : generateTagColor tagName = some color) :
    createOrGetTagsLoop now (tagName :: rest) acc s [] =
      createOrGetTagsLoop now rest (acc ++ [nextID s.tagSeq (s.tags.map Tag.ID)])
        (storeWithTag now tagName color s) [] := by
  have hfind : s.tags.find? (fun t => !t.Deleted && t.Name == tagName) = none := by
    rw [List.find?_eq_none]
    intro t ht
    simp [hfresh t ht]
  have hany : (s.tags.any fun t => t.Name == tagName) = false := by
    rw [List.any_eq_false]
    intro t ht
    simp [hfresh t ht]
  simp [createOrGetTagsLoop, hne, stmtFails_nil, hfind, hcolor, hany, storeWithTag]

/-- C15 (counterexample): the empty tag name requested twice from `createOrGetTags` yields
no identifier at all and leaves no tag row with that name. -/
theorem empty_tag_name_is_skipped :
    (createOrGetTags 5 ["", ""] (fragmentStore []) []).map
        (fun r => (r.1.toOption, r.2.1.tags)) = some (some [], []) ∧
    (createOrGetTags 5 [""] (fragmentStore []) []).map
        (fun r => (r.1.toOption, r.2.1.tags)) = some (some [], []) := by
  decide

/-- C15 (amended): tag creation is idempotent where the code finds or creates a tag.  With
no storage failure and tag names unique in the table, `InsertOrGetTag` called twice with any
name returns the same identifier both times, the second call changes nothing, and exactly
one tag row has that name.  For a name other than the empty string that no soft deleted tag
row carries, `createOrGetTags` called twice with the name, or once with the name repeated,
returns the same identifier each time and leaves the same store, in which exactly one tag
row has that name.  For a name that a soft deleted tag row carries, `createOrGetTags`
fails and leaves the store as it is: the lookup does not see the row and the unique index
refuses the insertion. -/
theorem tag_creation_idempotent :
    (∀ (db : Database.DB) (tagName : String), (db.tags.map Database.Tag.Name).Nodup →
      ∃ id db1, Database.InsertOrGetTag db tagName [] = (.ok id, db1, []) ∧
        Database.InsertOrGetTag db1 tagName [] = (.ok id, db1, []) ∧
        (db1.tags.filter fun t => t.Name == tagName).length = 1) ∧
    (∀ (now1 now2 : Nat) (s : Store) (tagName : String), tagName ≠ "" →
      (s.tags.map Tag.Name).Nodup → (∀ t ∈ s.tags, t.Name = tagName → t.Deleted = false) →
      ∃ id s1, createOrGetTags now1 [tagName] s [] = some (.ok [id], s1, []) ∧
        createOrGetTags now2 [tagName] s1 [] = some (.ok [id], s1, []) ∧
        createOrGetTags now1 [tagName, tagName] s [] = some (.ok [id, id], s1, []) ∧
        (s1.tags.filter fun t => t.Name == tagName).length = 1) ∧
    (∀ (now : Nat) (s : Store) (tagName : String), tagName ≠ "" →
      (s.tags.map Tag.Name).Nodup → (∃ t ∈ s.tags, t.Name = tagName ∧ t.Deleted = true) →
      createOrGetTags now [tagName] s [] =
        some (.error ("failed to create tag " ++ tagName), s, [])) := by
  refine ⟨?_, ?_, ?_⟩
  · intro db tagName hn
    obtain ⟨id, db1, h1, h2, h3, _⟩ := InsertOrGetTag_twice db tagName hn
    exact ⟨id, db1, h1, h2, h3⟩
  · intro now1 now2 s tagName hne hn hlive
    cases hfind : s.tags.find? (fun t => !t.Deleted && t.Name == tagName) with
    | some tag =>
      have hname : tag.Name = tagName := by
        have := List.find?_some hfind
        simp only [Bool.and_eq_true, beq_iff_eq] at this
        exact this.2
      have hlen := filter_key_of_mem Tag.Name s.tags tag (List.mem_of_find?_eq_some hfind) hn
      rw [hname] at hlen
      refine ⟨tag.ID, s, ?_, ?_, ?_, hlen⟩
      · rw [createOrGetTags, createOrGetTagsLoop_found now1 tagName [] [] s tag hne hfind]
        rfl
      · rw [createOrGetTags, createOrGetTagsLoop_found now2 tagName [] [] s tag hne hfind]
        rfl
      · rw [createOrGetTags, createOrGetTagsLoop_found now1 tagName _ [] s tag hne hfind,
          createOrGetTagsLoop_found now1 tagName [] _ s tag hne hfind]
        rfl
    | none =>
      have hfresh : ∀ t ∈ s.tags, t.Name ≠ tagName := by
        intro t ht hname
        rw [List.find?_eq_none] at hfind
        exact hfind t ht (by simp [hlive t ht hname, hname])
      obtain ⟨color, hcolor, _⟩ := generateTagColor_total tagName
      have hfind1 : (storeWithTag now1 tagName color s).tags.find?
          (fun t => !t.Deleted && t.Name == tagName) =
          some { ID := nextID s.tagSeq (s.tags.map Tag.ID), CreatedAt := now1,
                 Deleted := false, Name := tagName, Color := color } := by
        simp [storeWithTag, List.find?_append, hfind]
      have hnone : s.tags.filter (fun t => t.Name == tagName) = [] := by
        rw [List.filter_eq_nil_iff]
        intro t ht
        simp [hfresh t ht]
      refine ⟨nextID s.tagSeq (s.tags.map Tag.ID), storeWithTag now1 tagName color s,
        ?_, ?_, ?_, ?_⟩
      · rw [createOrGetTags, createOrGetTagsLoop_new now1 tagName color [] [] s hne hfresh hcolor]
        rfl
      · rw [createOrGetTags, createOrGetTagsLoop_found now2 tagName [] [] _ _ hne hfind1]
        rfl
      · rw [createOrGetTags, createOrGetTagsLoop_new now1 tagName color _ [] s hne hfresh hcolor,
          createOrGetTagsLoop_found now1 tagName [] _ _ _ hne hfind1]
        rfl
      · show ((s.tags ++ _).filter fun t => t.Name == tagName).length = 1
        rw [List.filter_append, hnone]
        simp
  · intro now s tagName hne hn hdel
    obtain ⟨t, ht, htn, htd⟩ := hdel
    have hfind : s.tags.find? (fun t => !t.Deleted && t.Name == tagName) = none := by
      rw [List.find?_eq_none]
      intro t1 ht1 hp
      simp only [Bool.and_eq_true, Bool.not_eq_true', beq_iff_eq] at hp
      have heq : t1 = t := List.inj_on_of_nodup_map hn ht1 ht (hp.2.trans htn.symm)
      rw [heq, htd] at hp
      cases hp.1
    have hany : (s.tags.any fun t => t.Name == tagName) = true := by
      rw [List.any_eq_true]
      exact ⟨t, ht, by simpa using htn⟩
    obtain ⟨color, hcolor, _⟩ := generateTagColor_total tagName
    simp [createOrGetTags, createOrGetTagsLoop, hne, stmtFails_nil, hfind, hcolor, hany]

set_option maxRecDepth 10000 in
/-- C15 (witness): the name "notes" on a database and on a store that hold it already, the
name "todo" that they do not hold, and the name "notes" on a store in which the tag of that
name is soft deleted. -/
theorem tag_creation_idempotent_witness :
    (Database.InsertOrGetTag Database.linked "todo" []).1.toOption = some 2 ∧
    (createOrGetTags 9 ["todo", "todo"] taggedStore []).map (fun r => r.1.toOption) =
      some (some [2, 2]) ∧
    (∃ id db1, Database.InsertOrGetTag Database.linked "notes" [] = (.ok id, db1, []) ∧
      Database.InsertOrGetTag db1 "notes" [] = (.ok id, db1, []) ∧
      (db1.tags.filter fun t => t.Name == "notes").length = 1) ∧
    (∃ id s1, createOrGetTags 9 ["todo"] taggedStore [] = some (.ok [id], s1, []) ∧
      createOrGetTags 10 ["todo"] s1 [] = some (.ok [id], s1, []) ∧
      createOrGetTags 9 ["todo", "todo"] taggedStore [] = some (.ok [id, id], s1, []) ∧
      (s1.tags.filter fun t => t.Name == "todo").length = 1) ∧
    createOrGetTags 9 ["notes"] retiredTagStore [] =
      some (.error ("failed to create tag " ++ "notes"), retiredTagStore, []) :=
  ⟨by decide, by decide,
   tag_creation_idempotent.1 Database.linked "notes" (by decide),
   tag_creation_idempotent.2.1 9 10 taggedStore "todo" (by decide) (by decide) (by decide),
   tag_creation_idempotent.2.2 9 retiredTagStore "notes" (by decide) (by decide)
     ⟨⟨1, 5, true, "notes", "#FF6B6B"⟩, by decide, rfl, rfl⟩⟩

theorem find?_key_spec {α β : Type} [DecidableEq β] (f : α → β) (l : List α) (k : β) :
    ((∀ d ∈ l, f d ≠ k) → l.find? (fun d => f d == k) = none) ∧
    ((∃ d ∈ l, f d = k) → ∃ d, l.find? (fun d => f d == k) = some d ∧ d ∈ l ∧ f d = k) := by
  constructor
  · intro h
    rw [List.find?_eq_none]
    intro d hd
    simpa using h d hd
  · rintro ⟨d, hd, hk⟩
    cases hfind : l.find? (fun d => f d == k) with
    | none =>
      rw [List.find?_eq_none] at hfind
      exact absurd (by simpa using hk) (hfind d hd)
    | some d1 =>
      exact ⟨d1, rfl, List.mem_of_find?_eq_some hfind, by simpa using List.find?_some hfind⟩

/-- C21: `GetDocumentByIDOrTitle`, when its query is not refused, resolves by identifier if
`strconv.Atoi` accepts the input and by exact title otherwise.  If the input parses as the
integer n, the result is a stored document with id n (the only one when ids are unique), or
the error "document not found: <input>" when no document has id n; if it does not parse,
the result is a stored document whose title equals the input, or that error when no title
equals it. -/
theorem GetDocumentByIDOrTitle_resolves (db : Database.DB) (s : String) :
    (∀ n, Atoi s = some n →
      ((∀ d ∈ db.documents, d.ID ≠ n) →
        Database.GetDocumentByIDOrTitle db s [] = (.error ("document not found: " ++ s), [])) ∧
      ((∃ d ∈ db.documents, d.ID = n) →
        ∃ d, Database.GetDocumentByIDOrTitle db s [] = (.ok d, []) ∧ d ∈ db.documents ∧
          d.ID = n ∧
          ((db.documents.map Database.Document.ID).Nodup →
            ∀ d1 ∈ db.documents, d1.ID = n → d1 = d))) ∧
    (Atoi s = none →
      ((∀ d ∈ db.documents, d.Title ≠ s) →
        Database.GetDocumentByIDOrTitle db s [] = (.error ("document not found: " ++ s), [])) ∧
      ((∃ d ∈ db.documents, d.Title = s) →
        ∃ d, Database.GetDocumentByIDOrTitle db s [] = (.ok d, []) ∧ d ∈ db.documents ∧
          d.Title = s)) := by
  refine ⟨?_, ?_⟩
  · intro n hn
    have hspec := find?_key_spec Database.Document.ID db.documents n
    refine ⟨?_, ?_⟩
    · intro hno
      simp [Database.GetDocumentByIDOrTitle, stmtFails_nil, hn, hspec.1 hno]
    · intro hex
      obtain ⟨d, hfind, hmem, hid⟩ := hspec.2 hex
      refine ⟨d, ?_, hmem, hid, ?_⟩
      · simp [Database.GetDocumentByIDOrTitle, stmtFails_nil, hn, hfind]
      · intro hnodup d1 hd1 hid1
        exact List.inj_on_of_nodup_map hnodup hd1 hmem (hid1.trans hid.symm)
  · intro hn
    have hspec := find?_key_spec Database.Document.Title db.documents s
    refine ⟨?_, ?_⟩
    · intro hno
      simp [Database.GetDocumentByIDOrTitle, stmtFails_nil, hn, hspec.1 hno]
    · intro hex
      obtain ⟨d, hfind, hmem, hid⟩ := hspec.2 hex
      exact ⟨d, by simp [Database.GetDocumentByIDOrTitle, stmtFails_nil, hn, hfind], hmem, hid⟩

set_option maxRecDepth 10000 in
/-- C21 (witness): "999" on an empty database is not found; "1" and "Notes" both resolve to
document 1 of a database that holds it. -/
theorem GetDocumentByIDOrTitle_resolves_witness :
    Atoi "999" = some 999 ∧
    Database.GetDocumentByIDOrTitle Database.empty "999" [] =
      (.error ("document not found: " ++ "999"), []) ∧
    (∃ d, Database.GetDocumentByIDOrTitle Database.linked "1" [] = (.ok d, []) ∧
      d ∈ Database.linked.documents ∧ d.ID = 1 ∧
      ((Database.linked.documents.map Database.Document.ID).Nodup →
        ∀ d1 ∈ Database.linked.documents, d1.ID = 1 → d1 = d)) ∧
    (∃ d, Database.GetDocumentByIDOrTitle Database.linked "Notes" [] = (.ok d, []) ∧
      d ∈ Database.linked.documents ∧ d.Title = "Notes") :=
  ⟨by decide,
   ((GetDocumentByIDOrTitle_resolves Database.empty "999").1 999 (by decide)).1
     (by decide),
   ((GetDocumentByIDOrTitle_resolves Database.linked "1").1 1 (by decide)).2 (by decide),
   ((GetDocumentByIDOrTitle_resolves Database.linked "Notes").2 (by decide)).2 (by decide)⟩

/-- C22: `UpdateDocument` overwrites in place.  Whatever the fault schedule, the document
table after the call is the table before it with, when the call succeeds, the title,
content, summary and updated-at of every row with that id replaced; identifiers and
creation timestamps, the number of rows, and every other table, link table and sequence are
unchanged, so no row and no batch is added.  The refresh path `updateSpecificDocument`
persists through this very call. -/
theorem UpdateDocument_frame (now : Nat) (db : Database.DB) (id : Int)
    (title content summary : String) (fs : Faults) :
    (Database.UpdateDocument now db id title content summary fs).2.1.documents =
      (if (Database.UpdateDocument now db id title content summary fs).1 = none then
        db.documents.map fun d =>
          if d.ID = id then refreshedRow now title content summary d else d
       else db.documents) ∧
    (Database.UpdateDocument now db id title content summary fs).2.1.documents.length =
      db.documents.length ∧
    (Database.UpdateDocument now db id title content summary fs).2.1.documents.map
      Database.Document.ID = db.documents.map Database.Document.ID ∧
    (Database.UpdateDocument now db id title content summary fs).2.1.documents.map
      Database.Document.CreatedAt = db.documents.map Database.Document.CreatedAt ∧
    (Database.UpdateDocument now db id title content summary fs).2.1 =
      { db with documents :=
          (Database.UpdateDocument now db id title content summary fs).2.1.documents } ∧
    (∀ response : String, updateGenerated now db id response fs =
      Database.UpdateDocument now db id (parseGeneratedResponse response).Title
        (parseGeneratedResponse response).Content (parseGeneratedResponse response).Summary
        fs) := by
  have hmapID : (db.documents.map fun d =>
      if d.ID = id then refreshedRow now title content summary d else d).map
      Database.Document.ID = db.documents.map Database.Document.ID := by
    rw [List.map_map]
    apply List.map_congr_left
    intro d _
    simp only [Function.comp]
    split <;> rfl
  have hmapC : (db.documents.map fun d =>
      if d.ID = id then refreshedRow now title content summary d else d).map
      Database.Document.CreatedAt = db.documents.map Database.Document.CreatedAt := by
    rw [List.map_map]
    apply List.map_congr_left
    intro d _
    simp only [Function.comp]
    split <;> rfl
  refine ⟨?_, ?_, ?_, ?_, ?_, fun _ => rfl⟩
  all_goals
    simp only [Database.UpdateDocument]
    by_cases h1 : stmtFails fs = true
    · simp [h1]
    · by_cases h2 : stmtFails fs.tail = true
      · simp [h1, h2]
      · first
        | simp [h1, h2, refreshedRow]; done
        | (simp only [h1, h2, if_false, Bool.false_eq_true]
           first | exact hmapID | exact hmapC)

theorem unlinkedRows_eq (db : Database.DB) :
    Database.unlinkedRows db =
      db.fragments.filter fun f => db.document_fragment_links.all fun l => l.2 != f.ID := by
  unfold Database.unlinkedRows Database.leftJoinLinks
  induction db.fragments with
  | nil => rfl
  | cons f rest ih =>
    rw [List.flatMap_cons, List.filter_append, List.map_append, ih, List.filter_cons]
    cases hlinks : db.document_fragment_links.filter (fun l => l.2 == f.ID) with
    | nil =>
      have hall : (db.document_fragment_links.all fun l => l.2 != f.ID) = true := by
        rw [List.all_eq_true]
        intro l hl
        rw [List.filter_eq_nil_iff] at hlinks
        simpa using hlinks l hl
      simp [hall]
    | cons l ls =>
      have hmem : l ∈ db.document_fragment_links.filter (fun l => l.2 == f.ID) := by
        rw [hlinks]; exact List.mem_cons_self _ _
      have hall : (db.document_fragment_links.all fun l => l.2 != f.ID) = false := by
        rw [List.all_eq_false]
        exact ⟨l, (List.mem_filter.1 hmem).1, by simpa using (List.mem_filter.1 hmem).2⟩
      simp only [hall]
      have hnone : ((List.map (fun l => (f, some l)) (l :: ls)).filter
          fun r => r.2.isNone) = [] := by
        rw [List.filter_eq_nil_iff]
        intro r hr
        obtain ⟨l1, _, hl1⟩ := List.mem_map.1 hr
        rw [← hl1]
        simp
      rw [hnone]
      simp

/-- C23: with no storage failure, `GetAllFragments(db, true)` returns a rearrangement of the
fragment rows whose id occurs in no row of `document_fragment_links`: a row is returned
exactly when it is such a fragment, and no row is returned twice when fragment ids are
unique; the third value of `GetCounts` is the length of that list, its first two values are
the numbers of documents and of fragments. -/
theorem unprocessed_queries_agree (db : Database.DB) :
    ∃ l, Database.GetAllFragments db true [] = (.ok l, []) ∧
      l.Perm (db.fragments.filter fun f =>
        db.document_fragment_links.all fun link => link.2 != f.ID) ∧
      (∀ f, f ∈ l ↔ (f ∈ db.fragments ∧ ∀ link ∈ db.document_fragment_links, link.2 ≠ f.ID)) ∧
      ((db.fragments.map Database.Fragment.ID).Nodup → l.Nodup) ∧
      Database.GetCounts db [] =
        (.ok (db.documents.length, db.fragments.length, l.length), []) := by
  have hperm := List.perm_insertionSort (fun a b : Database.Fragment => b.CreatedAt ≤ a.CreatedAt)
    (Database.unlinkedRows db)
  refine ⟨(Database.unlinkedRows db).insertionSort fun a b => b.CreatedAt ≤ a.CreatedAt,
    ?_, ?_, ?_, ?_, ?_⟩
  · simp [Database.GetAllFragments, stmtFails_nil]
  · rw [← unlinkedRows_eq]; exact hperm
  · intro f
    rw [hperm.mem_iff, unlinkedRows_eq, List.mem_filter, List.all_eq_true]
    simp
  · intro hnodup
    rw [hperm.nodup_iff, unlinkedRows_eq]
    exact (List.Nodup.of_map _ hnodup).filter _
  · simp [Database.GetCounts, stmtFails_nil, hperm.length_eq]

/-- C23 (witness): three fragments, the first two linked to document 1: the list is
fragment 3 alone and the counts are 1 document, 3 fragments, 1 unprocessed. -/
theorem unprocessed_queries_agree_witness :
    (Database.GetAllFragments Database.threeFragments true []).1.toOption =
      some [{ ID := 3, Content := "three", CreatedAt := 3 }] ∧
    (Database.GetCounts Database.threeFragments []).1.toOption = some (1, 3, 1) ∧
    (∃ l, Database.GetAllFragments Database.threeFragments true [] = (.ok l, []) ∧
      l.Perm (Database.threeFragments.fragments.filter fun f =>
        Database.threeFragments.document_fragment_links.all fun link => link.2 != f.ID) ∧
      (∀ f, f ∈ l ↔ (f ∈ Database.threeFragments.fragments ∧
        ∀ link ∈ Database.threeFragments.document_fragment_links, link.2 ≠ f.ID)) ∧
      ((Database.threeFragments.fragments.map Database.Fragment.ID).Nodup → l.Nodup) ∧
      Database.GetCounts Database.threeFragments [] =
        (.ok (Database.threeFragments.documents.length,
          Database.threeFragments.fragments.length, l.length), [])) :=
  ⟨by decide, by decide, unprocessed_queries_agree Database.threeFragments⟩

/-- C24: `handleAddCommand` with no storage failure.  When at least one of text, url and
image path is not empty it inserts exactly one fragment, whose content is the JSON object
with exactly the members of the keys "image_path", "text", "url" (in this order) that were
given non-empty, prints the id of the new fragment and returns nil; when all three are empty
it prints the usage line, leaves the database alone and exits with status 1. -/
theorem handleAddCommand_stores_parts (now : Nat) (db : Database.DB)
    (text url imagePath : String) :
    ((text ≠ "" ∨ url ≠ "" ∨ imagePath ≠ "") →
      handleAddCommand now db text url imagePath [] =
        { outcome := .returned none,
          stdout := ["Fragment added with ID: " ++
            toString (Database.nextRowID db.fragmentSeq (db.fragments.map Database.Fragment.ID))],
          db := { db with
            fragments := db.fragments ++
              [{ ID := Database.nextRowID db.fragmentSeq (db.fragments.map Database.Fragment.ID),
                 Content := jsonObject (givenParts text url imagePath), CreatedAt := now }],
            fragmentSeq :=
              Database.nextRowID db.fragmentSeq (db.fragments.map Database.Fragment.ID) },
          faults := [] }) ∧
    ((text = "" ∧ url = "" ∧ imagePath = "") →
      handleAddCommand now db text url imagePath [] =
        { outcome := .exit 1,
          stdout := ["Usage: insight add [text] [--url <url>] [--image <path>]"],
          db := db, faults := [] }) := by
  have h1 : ¬ (['u', 'r', 'l'] ≤ ['i', 'm', 'a', 'g', 'e', '_', 'p', 'a', 't', 'h']) := by
    decide
  have h2 : ¬ (['t', 'e', 'x', 't'] ≤ ['i', 'm', 'a', 'g', 'e', '_', 'p', 'a', 't', 'h']) := by
    decide
  have h3 : ['t', 'e', 'x', 't'] ≤ ['u', 'r', 'l'] := by decide
  by_cases ht : text = "" <;> by_cases hu : url = "" <;> by_cases hi : imagePath = "" <;>
    simp [handleAddCommand, mapSet, marshalMap, jsonObject, givenParts,
      Database.InsertFragment, stmtFails_nil, ht, hu, hi, List.insertionSort,
      List.orderedInsert, h1, h2, h3]

set_option maxRecDepth 100000 in
/-- C24 (witness): the cases of the end to end test of the command. -/
theorem handleAddCommand_stores_parts_witness :
    jsonObject (givenParts "A simple text fragment." "" "") =
      "\x7b\"text\":\"A simple text fragment.\"\x7d" ∧
    jsonObject (givenParts "Interesting article." "https://example.com/article" "") =
      "\x7b\"text\":\"Interesting article.\",\"url\":\"https://example.com/article\"\x7d" ∧
    jsonObject (givenParts "key" "u" "p.png") =
      "\x7b\"image_path\":\"p.png\",\"text\":\"key\",\"url\":\"u\"\x7d" ∧
    (handleAddCommand 7 Database.empty "A simple text fragment." "" "" []).stdout =
      ["Fragment added with ID: 1"] ∧
    (handleAddCommand 7 Database.empty "A simple text fragment." "" "" []).db.fragments =
      [{ ID := 1, Content := jsonObject (givenParts "A simple text fragment." "" ""),
         CreatedAt := 7 }] ∧
    (handleAddCommand 7 Database.empty "" "" "" []).outcome = .exit 1 :=
  ⟨by decide, by decide, by decide, by decide,
   congrArg (fun r => r.db.fragments)
     ((handleAddCommand_stores_parts 7 Database.empty "A simple text fragment." "" "").1
       (Or.inl (by decide))),
   congrArg CommandRun.outcome
     ((handleAddCommand_stores_parts 7 Database.empty "" "" "").2 ⟨rfl, rfl, rfl⟩)⟩


set_option maxRecDepth 100000 in
/-- C25 (code at the failing input): `InsertQuestion` with the fragment ids 1, 2 and the
document ids 3, 4 succeeds and stores the texts "[1 2]" and "[3 4]", which are not JSON
arrays; the JSON array of the same numbers is "[1,2]".  Only a list of a single id is stored
as a JSON array that decodes to the list. -/
theorem context_ids_are_not_json :
    (Database.InsertQuestion 7 Database.empty "which one?" [1, 2] [3, 4] []).1.toOption =
      some 1 ∧
    (Database.InsertQuestion 7 Database.empty "which one?" [1, 2] [3, 4] []).2.1.questions =
      [{ ID := 1, QuestionText := "which one?", ContextFragmentIDs := some "[1 2]",
         ContextDocumentIDs := some "[3 4]", Status := "pending", CreatedAt := 7,
         AnsweredAt := none, AnswerFragmentID := none }] ∧
    decodeIntArray "[1 2]" = none ∧ decodeIntArray "[3 4]" = none ∧
    decodeIntArray "[1,2]" = some [1, 2] ∧ decodeIntArray " [ -3 , 40 ] " = some [-3, 40] ∧
    decodeIntArray (Database.formatInts [5]) = some [5] := by
  decide

/-- C26 (counterexample): question 1 is answered, at time 5 by fragment 3; a second
`AnswerQuestion` for it, at time 8 with fragment 9, succeeds and overwrites its answered
timestamp and its answer-fragment pointer. -/
theorem answered_question_is_overwritten :
    Database.answered.questions.map
        (fun q => (q.ID, q.Status, q.AnsweredAt, q.AnswerFragmentID)) =
      [(1, "answered", some 5, some 3)] ∧
    (Database.AnswerQuestion 8 Database.answered 1 9 []).1 = none ∧
    (Database.AnswerQuestion 8 Database.answered 1 9 []).2.1.questions.map
        (fun q => (q.ID, q.Status, q.AnsweredAt, q.AnswerFragmentID)) =
      [(1, "answered", some 8, some 9)] := by
  decide

theorem questionKept_refl (q : Database.Question) : questionKept q q :=
  ⟨rfl, rfl, rfl, rfl, rfl, fun h => h⟩

theorem questionKept_trans (q q1 q2 : Database.Question) (h1 : questionKept q q1)
    (h2 : questionKept q1 q2) : questionKept q q2 :=
  ⟨h2.1.trans h1.1, h2.2.1.trans h1.2.1, h2.2.2.1.trans h1.2.2.1,
    h2.2.2.2.1.trans h1.2.2.2.1, h2.2.2.2.2.1.trans h1.2.2.2.2.1,
    fun hanswered => h2.2.2.2.2.2 (h1.2.2.2.2.2 hanswered)⟩

theorem applyCall_keeps (c : Database.QuestionCall) (db : Database.DB) (fs : Faults)
    (i : Nat) (q : Database.Question) (hq : db.questions[i]? = some q) :
    ∃ q1, (Database.applyCall c (db, fs)).1.questions[i]? = some q1 ∧ questionKept q q1 ∧
      (answersQuestion q.ID c = false → q1 = q) := by
  cases c with
  | insert now text fids dids =>
    simp only [Database.applyCall, Database.InsertQuestion]
    by_cases h1 : stmtFails fs = true
    · exact ⟨q, by simpa [h1] using hq, questionKept_refl q, fun _ => rfl⟩
    · by_cases h2 : stmtFails fs.tail = true
      · exact ⟨q, by simpa [h1, h2] using hq, questionKept_refl q, fun _ => rfl⟩
      · refine ⟨q, ?_, questionKept_refl q, fun _ => rfl⟩
        simp only [h1, h2, if_false, Bool.false_eq_true]
        have hlt : i < db.questions.length := by
          rcases Nat.lt_or_ge i db.questions.length with h | h
          · exact h
          · rw [List.getElem?_eq_none h] at hq; cases hq
        rw [List.getElem?_append_left hlt]
        exact hq
  | answer now qid fid =>
    simp only [Database.applyCall, Database.AnswerQuestion]
    by_cases h1 : stmtFails fs = true
    · exact ⟨q, by simpa [h1] using hq, questionKept_refl q, fun _ => rfl⟩
    · by_cases h2 : stmtFails fs.tail = true
      · exact ⟨q, by simpa [h1, h2] using hq, questionKept_refl q, fun _ => rfl⟩
      · simp only [h1, h2, if_false, Bool.false_eq_true, List.getElem?_map, hq, Option.map_some']
        by_cases hid : q.ID = qid
        · rw [if_pos hid]
          refine ⟨_, rfl, ⟨rfl, rfl, rfl, rfl, rfl, fun _ => rfl⟩, ?_⟩
          intro hno
          simp [answersQuestion, hid] at hno
        · rw [if_neg hid]
          exact ⟨q, rfl, questionKept_refl q, fun _ => rfl⟩

/-- C26 (amended): a question never goes back to `pending`.  For every sequence of
`InsertQuestion` and `AnswerQuestion` calls, every fault schedule and every question row,
the row is still at its place after the sequence, with the same identifier, text, context
lists and creation time; if it was answered before, it is answered after; and if no call of
the sequence is an `AnswerQuestion` for its identifier, the row is unchanged, its answered
timestamp and answer-fragment pointer included. -/
theorem question_stays_answered (cs : List Database.QuestionCall) (db : Database.DB)
    (fs : Faults) (i : Nat) (q : Database.Question) (hq : db.questions[i]? = some q) :
    ∃ q1, (Database.applyCalls cs (db, fs)).1.questions[i]? = some q1 ∧ questionKept q q1 ∧
      ((∀ c ∈ cs, answersQuestion q.ID c = false) → q1 = q) := by
  induction cs generalizing db fs q with
  | nil => exact ⟨q, hq, questionKept_refl q, fun _ => rfl⟩
  | cons c rest ih =>
    obtain ⟨q1, h1, h2, h3⟩ := applyCall_keeps c db fs i q hq
    obtain ⟨q2, k1, k2, k3⟩ := ih (Database.applyCall c (db, fs)).1
      (Database.applyCall c (db, fs)).2 q1 h1
    refine ⟨q2, ?_, questionKept_trans q q1 q2 h2 k2, ?_⟩
    · simpa [Database.applyCalls] using k1
    · intro hno
      have e1 : q1 = q := h3 (hno c (List.mem_cons_self _ _))
      have e2 : q2 = q1 := k3 (fun c1 hc1 => by
        rw [h2.1]; exact hno c1 (List.mem_cons_of_mem _ hc1))
      rw [e2, e1]

set_option maxRecDepth 100000 in
/-- C26 (witness): question 1, answered, through an insertion, an answer to question 2 and a
second answer to question 1. -/
theorem question_stays_answered_witness :
    ((Database.applyCalls
        [.insert 6 "and then?" [2] [], .answer 7 2 4, .answer 8 1 9]
        (Database.answered, [])).1.questions.map fun q => (q.ID, q.Status, q.AnsweredAt)) =
      [(1, "answered", some 8), (2, "answered", some 7)] ∧
    (∃ q1, (Database.applyCalls
        [.insert 6 "and then?" [2] [], .answer 7 2 4, .answer 8 1 9]
        (Database.answered, [])).1.questions[0]? = some q1 ∧
      questionKept
        { ID := 1, QuestionText := "which one?", ContextFragmentIDs := some "[1]",
          ContextDocumentIDs := some "", Status := "answered", CreatedAt := 4,
          AnsweredAt := some 5, AnswerFragmentID := some 3 } q1 ∧
      ((∀ c ∈ [Database.QuestionCall.insert 6 "and then?" [2] [], .answer 7 2 4, .answer 8 1 9],
        answersQuestion 1 c = false) →
        q1 = { ID := 1, QuestionText := "which one?", ContextFragmentIDs := some "[1]",
               ContextDocumentIDs := some "", Status := "answered", CreatedAt := 4,
               AnsweredAt := some 5, AnswerFragmentID := some 3 })) :=
  ⟨by decide,
   question_stays_answered [.insert 6 "and then?" [2] [], .answer 7 2 4, .answer 8 1 9]
     Database.answered [] 0 _ (by decide)⟩

theorem compressionStep_malformed (i : Nat) (a : Action) (st : RunState) (h : malformed a) :
    compressionStep i a st =
      some ⟨st.store, st.faults, st.log ++ [LogLine.actionHeader (i + 1) a]⟩ := by
  have h1 : ¬ (a.Type_ = "merge" ∧ a.FragmentIDs.length > 1) := by
    rintro ⟨ht, hl⟩
    rcases h with h | h | h
    · rw [h] at hl; simp at hl
    · omega
    · exact h.1 ht
  have h2 : ¬ (a.Type_ = "delete" ∧ a.FragmentIDs.length > 0) := by
    rintro ⟨ht, hl⟩
    rcases h with h | h | h
    · rw [h] at hl; simp at hl
    · rw [ht] at h; exact absurd h.1 (by decide)
    · exact h.2 ht
  simp only [compressionStep, if_neg h1, if_neg h2]

theorem compressionStep_proj (a : Action) (s : Store) (fs : Faults) :
    ∃ s1 fs1, ∀ (i : Nat) (log : List LogLine), ∃ log1,
      compressionStep i a ⟨s, fs, log⟩ = some ⟨s1, fs1, log1⟩ := by
  by_cases hm : a.Type_ = "merge" ∧ a.FragmentIDs.length > 1
  · obtain ⟨first, rest, hids⟩ : ∃ first rest, a.FragmentIDs = first :: rest := by
      cases h : a.FragmentIDs with
      | nil => rw [h] at hm; simp at hm
      | cons x xs => exact ⟨x, xs, rfl⟩
    have hspec := mergeFragments_cons first rest a.NewContent s fs
    by_cases hf : true ∈ fs.take (rest.length + 3)
    · obtain ⟨e, fs1, he⟩ := hspec.1 hf
      refine ⟨s, fs1, fun i log =>
        ⟨(log ++ [LogLine.actionHeader (i + 1) a]) ++ [LogLine.mergeFailed a.FragmentIDs e], ?_⟩⟩
      simp only [compressionStep, if_pos hm]
      rw [← hids] at he
      rw [he]
    · obtain ⟨s1, fs1, he⟩ : ∃ s1 fs1,
          mergeFragments a.FragmentIDs a.NewContent s fs = some (none, s1, fs1) :=
        ⟨_, _, by rw [hids]; exact hspec.2 hf⟩
      refine ⟨s1, fs1, fun i log =>
        ⟨(log ++ [LogLine.actionHeader (i + 1) a]) ++ [LogLine.merged a.FragmentIDs], ?_⟩⟩
      simp only [compressionStep, if_pos hm]
      rw [he]
  · by_cases hd : a.Type_ = "delete" ∧ a.FragmentIDs.length > 0
    · cases hr : deleteFragments a.FragmentIDs s fs with
      | mk e r =>
        cases e with
        | none =>
          refine ⟨r.1, r.2, fun i log =>
            ⟨(log ++ [LogLine.actionHeader (i + 1) a]) ++ [LogLine.deleted a.FragmentIDs], ?_⟩⟩
          simp only [compressionStep, if_neg hm, if_pos hd, hr]
        | some e =>
          refine ⟨r.1, r.2, fun i log =>
            ⟨(log ++ [LogLine.actionHeader (i + 1) a]) ++ [LogLine.deleteFailed a.FragmentIDs e],
              ?_⟩⟩
          simp only [compressionStep, if_neg hm, if_pos hd, hr]
    · refine ⟨s, fs, fun i log => ⟨log ++ [LogLine.actionHeader (i + 1) a], ?_⟩⟩
      simp only [compressionStep, if_neg hm, if_neg hd]

theorem actionsLoop_filter (as : List Action) (s : Store) (fs : Faults) :
    ∃ s1 fs1,
      (∀ (i : Nat) (log : List LogLine), ∃ log1,
        actionsLoop i as ⟨s, fs, log⟩ = some ⟨s1, fs1, log1⟩) ∧
      (∀ (i : Nat) (log : List LogLine), ∃ log1,
        actionsLoop i (as.filter fun a => decide (¬ malformed a)) ⟨s, fs, log⟩ =
          some ⟨s1, fs1, log1⟩) := by
  induction as generalizing s fs with
  | nil => exact ⟨s, fs, fun i log => ⟨log, rfl⟩, fun i log => ⟨log, rfl⟩⟩
  | cons a rest ih =>
    by_cases hmal : malformed a
    · obtain ⟨s1, fs1, h1, h2⟩ := ih s fs
      refine ⟨s1, fs1, ?_, ?_⟩
      · intro i log
        obtain ⟨log1, hl⟩ := h1 (i + 1) (log ++ [LogLine.actionHeader (i + 1) a])
        exact ⟨log1, by simp only [actionsLoop, compressionStep_malformed i a _ hmal]; exact hl⟩
      · intro i log
        obtain ⟨log1, hl⟩ := h2 i log
        refine ⟨log1, ?_⟩
        rw [List.filter_cons_of_neg (by simpa using hmal)]
        exact hl
    · obtain ⟨s0, fs0, hstep⟩ := compressionStep_proj a s fs
      obtain ⟨s1, fs1, h1, h2⟩ := ih s0 fs0
      refine ⟨s1, fs1, ?_, ?_⟩
      · intro i log
        obtain ⟨log0, hl0⟩ := hstep i log
        obtain ⟨log1, hl⟩ := h1 (i + 1) log0
        exact ⟨log1, by simp only [actionsLoop, hl0]; exact hl⟩
      · intro i log
        obtain ⟨log0, hl0⟩ := hstep i log
        obtain ⟨log1, hl⟩ := h2 (i + 1) log0
        refine ⟨log1, ?_⟩
        rw [List.filter_cons_of_pos (by simpa using hmal)]
        simp only [actionsLoop, hl0]
        exact hl

/-- C27: `executeCompressionActions` is total on malformed output of the collaborator.  For
every action list, store and fault schedule the run returns nil without a run time panic;
`mergeFragments` panics on the empty id list only, and the loop calls it only with two ids
or more; an iteration on a malformed action (no id, a merge of fewer than two ids, a type
other than "merge" and "delete") issues no statement and leaves the store as it is; and
the run ends in the same store as the run on the list without its malformed actions. -/
theorem compression_total_on_malformed :
    (∀ (response : compressionResponse) (s : Store) (fs : Faults),
      ∃ s1 fs1 log log1,
        executeCompressionActions response s fs = some (none, ⟨s1, fs1, log⟩) ∧
        executeCompressionActions
            ⟨response.Actions.filter fun a => decide (¬ malformed a), response.Summary⟩ s fs =
          some (none, ⟨s1, fs1, log1⟩)) ∧
    (∀ (i : Nat) (a : Action) (st : RunState), malformed a →
      compressionStep i a st =
        some ⟨st.store, st.faults, st.log ++ [LogLine.actionHeader (i + 1) a]⟩) ∧
    (∀ (fragmentIDs : List Int) (newContent : String) (s : Store) (fs : Faults),
      mergeFragments fragmentIDs newContent s fs = none ↔ fragmentIDs = []) := by
  refine ⟨?_, compressionStep_malformed, ?_⟩
  · intro response s fs
    obtain ⟨s1, fs1, h1, h2⟩ := actionsLoop_filter response.Actions s fs
    obtain ⟨log, hl⟩ := h1 0 []
    obtain ⟨log1, hl1⟩ := h2 0 []
    exact ⟨s1, fs1, log ++ [LogLine.completed], log1 ++ [LogLine.completed],
      by simp only [executeCompressionActions, hl],
      by simp only [executeCompressionActions, hl1]⟩
  · intro fragmentIDs newContent s fs
    cases fragmentIDs with
    | nil => simp [mergeFragments]
    | cons first rest =>
      simp only [mergeFragments]
      constructor
      · intro h
        split at h <;> cases h
      · intro h; cases h

set_option maxRecDepth 100000 in
/-- C27 (witness): five actions of which only the deletion of fragment 2 is well formed: the
run ends with fragment 1 alone live; the merge of a single id changes nothing. -/
theorem compression_total_on_malformed_witness :
    (executeCompressionActions ⟨mostlyMalformed, "five"⟩ store2 []).map
        (fun r => (r.1, liveFragments r.2.store)) = some (none, [mkFragment 1 "alpha"]) ∧
    compressionStep 0 ⟨"merge", [1], "one", "a"⟩ ⟨store2, [], []⟩ =
      some ⟨store2, [], [] ++ [LogLine.actionHeader (0 + 1) ⟨"merge", [1], "one", "a"⟩]⟩ :=
  ⟨by decide,
   compression_total_on_malformed.2.1 0 ⟨"merge", [1], "one", "a"⟩ ⟨store2, [], []⟩
     (by decide)⟩

set_option maxRecDepth 100000 in
/-- C28: `generateTagColor` is total and stays in its palette.  For every tag name the hue
lies in [0, 360), the palette index lies in [0, 6), no index is out of range, and the
result is one of the six colours; the colour is a function of the name.  The empty name has
hash 0 and the first colour; a name of fourteen letters z has a negative hash, after wrap
around, and still a colour of the palette. -/
theorem generateTagColor_in_palette :
    (∀ tagName : String,
      0 ≤ tagHue tagName ∧ tagHue tagName < 360 ∧
      0 ≤ Int.tmod (tagHue tagName) 6 ∧ Int.tmod (tagHue tagName) 6 < 6 ∧
      ∃ c, generateTagColor tagName = some c ∧
        c ∈ ["#3B82F6", "#EF4444", "#10B981", "#F59E0B", "#8B5CF6", "#EC4899"]) ∧
    (∀ a b : String, a = b → generateTagColor a = generateTagColor b) ∧
    (tagHash "" = 0 ∧ generateTagColor "" = some "#3B82F6") ∧
    (tagHash "zzzzzzzzzzzzzz" = -2367590411590083904 ∧
      generateTagColor "zzzzzzzzzzzzzz" = some "#10B981") := by
  refine ⟨?_, fun a b h => by rw [h], by decide, by decide⟩
  intro tagName
  have h := tagHue_range tagName
  obtain ⟨c, hc, hmem⟩ := generateTagColor_total tagName
  exact ⟨h.1, h.2, Int.tmod_nonneg 6 h.1, Int.tmod_lt_of_pos _ (by norm_num), c, hc, hmem⟩


/-- C30 (counterexample): the name made of the letter a, a vertical tab and the letter b
is returned as it is; the vertical tab, byte 11, is an ASCII white space character
(`unicode.IsSpace`) that the class `\s` does not contain.  A space, for comparison, becomes
an underscore. -/
theorem vertical_tab_is_kept :
    sanitizeFilename tabbedName = tabbedName ∧ (11 : UInt8) ∈ sanitizeFilename tabbedName ∧
    isSpace (Char.ofNat 11) = true ∧ sanitizeFilename (gs "a b") = gs "a_b" := by
  decide

theorem collapseRuns_bytes (inRun : Bool) (l : GoString) (hl : ∀ b ∈ l, unsafeByte b = false) :
    ∀ b ∈ collapseRuns inRun l, unsafeByte b = false ∧ regexpSpace b = false := by
  induction l generalizing inRun with
  | nil => intro b hb; simp [collapseRuns] at hb
  | cons x rest ih =>
    have hrest : ∀ b ∈ rest, unsafeByte b = false := fun b hb => hl b (List.mem_cons_of_mem _ hb)
    intro b hb
    simp only [collapseRuns] at hb
    by_cases hx : spaceOrUnderscore x = true
    · rw [if_pos hx] at hb
      cases inRun with
      | true => exact ih true hrest b hb
      | false =>
        simp only [Bool.false_eq_true, if_false, List.mem_cons] at hb
        rcases hb with h | h
        · subst h; exact ⟨by decide, by decide⟩
        · exact ih true hrest b h
    · rw [if_neg hx, List.mem_cons] at hb
      rcases hb with h | h
      · subst h
        refine ⟨hl b (List.mem_cons_self _ _), ?_⟩
        simp only [spaceOrUnderscore, Bool.or_eq_true, not_or, Bool.not_eq_true] at hx
        exact hx.1
      · exact ih false hrest b h

theorem mem_trimCutset (l : GoString) (b : UInt8) (hb : b ∈ trimCutset l) : b ∈ l := by
  unfold trimCutset at hb
  rw [List.mem_reverse] at hb
  have h1 := (List.dropWhile_sublist inCutset (l := (l.dropWhile inCutset).reverse)).subset hb
  rw [List.mem_reverse] at h1
  exact (List.dropWhile_sublist inCutset).subset h1

/-- C30 (amended): for every title the result of `sanitizeFilename` is not empty
("untitled" when nothing is left after trimming), is at most 100 bytes long, and contains
none of the characters of the class `[<>:"/\\|?*]` and none of the characters of the class
`\s`: tab, line feed, form feed, carriage return and space. -/
theorem sanitizeFilename_usable (filename : GoString) :
    sanitizeFilename filename ≠ [] ∧ (sanitizeFilename filename).length ≤ 100 ∧
    (∀ b ∈ sanitizeFilename filename, unsafeByte b = false ∧ regexpSpace b = false) ∧
    (trimCutset (collapseRuns false (replaceUnsafe filename)) = [] →
      sanitizeFilename filename = gs "untitled") := by
  have hclean : ∀ b ∈ trimCutset (collapseRuns false (replaceUnsafe filename)),
      unsafeByte b = false ∧ regexpSpace b = false := by
    intro b hb
    apply collapseRuns_bytes false (replaceUnsafe filename) _ b (mem_trimCutset _ b hb)
    intro c hc
    unfold replaceUnsafe at hc
    obtain ⟨d, _, hd⟩ := List.mem_map.1 hc
    by_cases hu : unsafeByte d = true
    · rw [if_pos hu] at hd; subst hd; decide
    · rw [if_neg hu] at hd; subst hd; simpa using hu
  simp only [sanitizeFilename]
  generalize trimCutset (collapseRuns false (replaceUnsafe filename)) = t at hclean
  by_cases hlen : t.length > 100
  · have hne : t.take 100 ≠ [] := by
      intro h
      have h1 : (t.take 100).length = 0 := by rw [h]; rfl
      rw [List.length_take] at h1
      omega
    have htne : t ≠ [] := by
      intro h; rw [h] at hlen; simp at hlen
    simp only [if_pos hlen, if_neg hne]
    refine ⟨hne, ?_, ?_, fun h => absurd h htne⟩
    · rw [List.length_take]; omega
    · intro b hb
      exact hclean b (List.mem_of_mem_take hb)
  · simp only [if_neg hlen]
    by_cases he : t = []
    · simp only [if_pos he]
      exact ⟨by decide, by decide, by decide, fun _ => trivial⟩
    · simp only [if_neg he]
      exact ⟨he, by omega, hclean, fun h => absurd h he⟩

set_option maxRecDepth 100000 in
/-- C30 (witness): a title of spaces and dots only leaves nothing and gives "untitled"; a
title with unsafe characters and runs of spaces is cleaned. -/
theorem sanitizeFilename_usable_witness :
    sanitizeFilename (gs " .. ") = gs "untitled" ∧
    sanitizeFilename (gs "  My: Doc / v2?  .md ") = gs "My_Doc_v2_.md" :=
  ⟨(sanitizeFilename_usable (gs " .. ")).2.2.2 (by decide), by decide⟩


theorem splitLinesAux_append (l r : List Char) (h : '\n' ∉ l) :
    splitLinesAux (l ++ '\n' :: r) = l :: splitLinesAux r := by
  induction l with
  | nil => simp [splitLinesAux]
  | cons c l ih =>
    have hc : c ≠ '\n' := fun e => h (e ▸ List.mem_cons_self _ _)
    have hl : '\n' ∉ l := fun e => h (List.mem_cons_of_mem _ e)
    rw [List.cons_append, splitLinesAux, if_neg hc, ih hl]

theorem splitLinesAux_single (l : List Char) (h : '\n' ∉ l) : splitLinesAux l = [l] := by
  induction l with
  | nil => rfl
  | cons c l ih =>
    have hc : c ≠ '\n' := fun e => h (e ▸ List.mem_cons_self _ _)
    have hl : '\n' ∉ l := fun e => h (List.mem_cons_of_mem _ e)
    rw [splitLinesAux, if_neg hc, ih hl]

theorem joinLines_cons_cons (c d : String) (r : List String) :
    joinLines (c :: d :: r) = c ++ "\n" ++ joinLines (d :: r) := rfl

theorem splitLinesAux_joinLines (c : String) (rest : List String)
    (h : ∀ x ∈ c :: rest, '\n' ∉ x.data) :
    splitLinesAux (joinLines (c :: rest)).data = (c :: rest).map String.data := by
  induction rest generalizing c with
  | nil => exact splitLinesAux_single c.data (h c (List.mem_cons_self _ _))
  | cons d r ih =>
    have hnl : ("\n" : String).data = ['\n'] := rfl
    rw [joinLines_cons_cons, String.data_append, String.data_append, hnl, List.append_assoc,
      List.singleton_append, splitLinesAux_append _ _ (h c (List.mem_cons_self _ _)),
      ih d (fun x hx => h x (List.mem_cons_of_mem _ hx))]
    rfl

theorem joinLines_prepend (p c : String) (rest : List String) :
    joinLines ((p ++ c) :: rest) = p ++ joinLines (c :: rest) := by
  cases rest with
  | nil => rfl
  | cons d r =>
    rw [joinLines_cons_cons, joinLines_cons_cons]
    apply String.ext
    simp only [String.data_append, List.append_assoc]

theorem trim_last_not_space (l : List Char)
    (h : ((l.dropWhile isSpace).reverse.dropWhile isSpace).reverse = l) (hne : l ≠ []) :
    ∃ a tl, l.reverse = a :: tl ∧ isSpace a = false := by
  have hy : (l.dropWhile isSpace).reverse.dropWhile isSpace = l.reverse := by
    have := congrArg List.reverse h
    rwa [List.reverse_reverse] at this
  have hh := List.head?_dropWhile_not isSpace (l.dropWhile isSpace).reverse
  rw [hy] at hh
  cases hr : l.reverse with
  | nil => exact absurd (List.reverse_eq_nil_iff.1 hr) hne
  | cons a tl =>
    rw [hr] at hh
    exact ⟨a, tl, rfl, by simpa using hh⟩

theorem data_ne_nil (x : String) (hx : x ≠ "") : x.data ≠ [] :=
  fun h => hx (String.ext h)

theorem trimSpace_prepend (p x : String) (c : Char) (cs : List Char) (hp : p.data = c :: cs)
    (hc : isSpace c = false) (h : trimSpace x = x) (hx : x ≠ "") :
    trimSpace (p ++ x) = p ++ x := by
  have hd : ((x.data.dropWhile isSpace).reverse.dropWhile isSpace).reverse = x.data :=
    congrArg String.data h
  obtain ⟨a, tl, hrev, ha⟩ := trim_last_not_space x.data hd (data_ne_nil x hx)
  apply String.ext
  show (((p ++ x).data.dropWhile isSpace).reverse.dropWhile isSpace).reverse = (p ++ x).data
  rw [String.data_append, hp, List.cons_append,
    List.dropWhile_cons_of_neg (by simp [hc]), ← List.cons_append, List.reverse_append, hrev,
    List.cons_append, List.dropWhile_cons_of_neg (by simp [ha]), ← List.cons_append, ← hrev,
    ← List.reverse_append, List.reverse_reverse]

theorem trimSpace_space (x : String) (h : trimSpace x = x) : trimSpace (" " ++ x) = x := by
  have hd : ((x.data.dropWhile isSpace).reverse.dropWhile isSpace).reverse = x.data :=
    congrArg String.data h
  apply String.ext
  show (((" " ++ x).data.dropWhile isSpace).reverse.dropWhile isSpace).reverse = x.data
  rw [String.data_append]
  have hsp : (" " : String).data = [' '] := rfl
  rw [hsp, List.singleton_append, List.dropWhile_cons_of_pos (by decide)]
  exact hd

theorem hasPrefix_append (p k x : String) (h : k.data.isPrefixOf p.data = true) :
    hasPrefix (p ++ x) k = true := by
  unfold hasPrefix
  rw [List.isPrefixOf_iff_prefix] at h ⊢
  rw [String.data_append]
  exact h.trans (List.prefix_append _ _)

theorem hasPrefix_head_ne (p k x : String) (c d : Char) (cs ds : List Char)
    (hp : p.data = c :: cs) (hk : k.data = d :: ds) (hne : d ≠ c) :
    hasPrefix (p ++ x) k = false := by
  unfold hasPrefix
  rw [String.data_append, hp, hk, List.cons_append]
  simp [List.isPrefixOf, hne]

theorem trimPrefix_append (p k x : String) (rest : String)
    (h : k.data.isPrefixOf p.data = true) (hrest : p.data.drop k.data.length = rest.data) :
    trimPrefix (p ++ x) k = rest ++ x := by
  unfold trimPrefix
  rw [hasPrefix_append p k x h, if_pos rfl]
  apply String.ext
  show (p ++ x).data.drop k.data.length = (rest ++ x).data
  have hlen : k.data.length ≤ p.data.length :=
    (List.isPrefixOf_iff_prefix.1 h).length_le
  rw [String.data_append, String.data_append, List.drop_append_of_le_length hlen, hrest]


theorem parseLine_title (st : ParseState) (t : String) (ht : t ≠ "")
    (h : trimSpace t = t) :
    parseLine st ("TITLE: " ++ t) =
      { st with doc := { st.doc with Title := t }, currentSection := "title" } := by
  have e1 : trimSpace ("TITLE: " ++ t) = "TITLE: " ++ t :=
    trimSpace_prepend "TITLE: " t 'T' _ rfl (by decide) h ht
  have e2 : hasPrefix ("TITLE: " ++ t) "TITLE:" = true :=
    hasPrefix_append "TITLE: " "TITLE:" t (by decide)
  have e3 : trimPrefix ("TITLE: " ++ t) "TITLE:" = " " ++ t :=
    trimPrefix_append "TITLE: " "TITLE:" t " " (by decide) (by decide)
  simp only [parseLine, e1, e2, e3, trimSpace_space t h, if_true]

theorem parseLine_summary (st : ParseState) (s : String) (hs : s ≠ "")
    (h : trimSpace s = s) :
    parseLine st ("SUMMARY: " ++ s) =
      { st with doc := { st.doc with Summary := s }, currentSection := "summary" } := by
  have e1 : trimSpace ("SUMMARY: " ++ s) = "SUMMARY: " ++ s :=
    trimSpace_prepend "SUMMARY: " s 'S' _ rfl (by decide) h hs
  have e0 : hasPrefix ("SUMMARY: " ++ s) "TITLE:" = false :=
    hasPrefix_head_ne "SUMMARY: " "TITLE:" s 'S' 'T' _ _ rfl rfl (by decide)
  have e2 : hasPrefix ("SUMMARY: " ++ s) "SUMMARY:" = true :=
    hasPrefix_append "SUMMARY: " "SUMMARY:" s (by decide)
  have e3 : trimPrefix ("SUMMARY: " ++ s) "SUMMARY:" = " " ++ s :=
    trimPrefix_append "SUMMARY: " "SUMMARY:" s " " (by decide) (by decide)
  simp only [parseLine, e1, e0, e2, e3, trimSpace_space s h, if_true, Bool.false_eq_true,
    if_false]

theorem parseLine_content (st : ParseState) (c : String) (hc : c ≠ "")
    (h : trimSpace c = c) :
    parseLine st ("CONTENT: " ++ c) =
      { st with currentSection := "content", contentLines := st.contentLines ++ [c] } := by
  have e1 : trimSpace ("CONTENT: " ++ c) = "CONTENT: " ++ c :=
    trimSpace_prepend "CONTENT: " c 'C' _ rfl (by decide) h hc
  have e0 : hasPrefix ("CONTENT: " ++ c) "TITLE:" = false :=
    hasPrefix_head_ne "CONTENT: " "TITLE:" c 'C' 'T' _ _ rfl rfl (by decide)
  have e00 : hasPrefix ("CONTENT: " ++ c) "SUMMARY:" = false :=
    hasPrefix_head_ne "CONTENT: " "SUMMARY:" c 'C' 'S' _ _ rfl rfl (by decide)
  have e2 : hasPrefix ("CONTENT: " ++ c) "CONTENT:" = true :=
    hasPrefix_append "CONTENT: " "CONTENT:" c (by decide)
  have e3 : trimPrefix ("CONTENT: " ++ c) "CONTENT:" = " " ++ c :=
    trimPrefix_append "CONTENT: " "CONTENT:" c " " (by decide) (by decide)
  simp only [parseLine, e1, e0, e00, e2, e3, trimSpace_space c h, if_true, Bool.false_eq_true,
    if_false, ne_eq, hc, not_false_eq_true]

theorem parseLine_raw (st : ParseState) (line : String) (hsec : st.currentSection = "content")
    (hk : startsWithKeyword line = false) :
    parseLine st line = { st with contentLines := st.contentLines ++ [line] } := by
  simp only [startsWithKeyword, Bool.or_eq_false_iff] at hk
  simp only [parseLine, hk.1.1, hk.1.2, hk.2, hsec, Bool.false_eq_true, if_false, if_true]

theorem foldl_parseLine_raw (lines : List String) (st : ParseState)
    (hsec : st.currentSection = "content")
    (hk : ∀ line ∈ lines, startsWithKeyword line = false) :
    lines.foldl parseLine st = { st with contentLines := st.contentLines ++ lines } := by
  induction lines generalizing st with
  | nil => simp
  | cons line rest ih =>
    have hstep := ih { st with contentLines := st.contentLines ++ [line] } hsec
      (fun l hl => hk l (List.mem_cons_of_mem _ hl))
    rw [List.foldl_cons, parseLine_raw st line hsec (hk line (List.mem_cons_self _ _)), hstep]
    simp

theorem splitLines_layoutText (t s c1 : String) (rest : List String)
    (ht : '\n' ∉ t.data) (hs : '\n' ∉ s.data)
    (hc : ∀ c ∈ c1 :: rest, '\n' ∉ c.data) :
    splitLines (layoutText t s (c1 :: rest)) =
      ("TITLE: " ++ t) :: ("SUMMARY: " ++ s) :: ("CONTENT: " ++ c1) :: rest := by
  have hdata : (layoutText t s (c1 :: rest)).data =
      ("TITLE: " ++ t).data ++ '\n' :: (("SUMMARY: " ++ s).data ++
        '\n' :: (joinLines (("CONTENT: " ++ c1) :: rest)).data) := by
    have h1 : ("\nSUMMARY: " : String).data = '\n' :: ("SUMMARY: " : String).data := rfl
    have h2 : ("\nCONTENT: " : String).data = '\n' :: ("CONTENT: " : String).data := rfl
    rw [joinLines_prepend]
    simp only [layoutText, String.data_append, h1, h2, List.append_assoc, List.cons_append]
  have hT : '\n' ∉ ("TITLE: " ++ t).data := by
    rw [String.data_append, List.mem_append]
    rintro (h | h)
    · exact absurd h (by decide)
    · exact ht h
  have hS : '\n' ∉ ("SUMMARY: " ++ s).data := by
    rw [String.data_append, List.mem_append]
    rintro (h | h)
    · exact absurd h (by decide)
    · exact hs h
  have hC : ∀ x ∈ ("CONTENT: " ++ c1) :: rest, '\n' ∉ x.data := by
    intro x hx
    rcases List.mem_cons.1 hx with h | h
    · rw [h, String.data_append, List.mem_append]
      rintro (h1 | h1)
      · exact absurd h1 (by decide)
      · exact hc c1 (List.mem_cons_self _ _) h1
    · exact hc x (List.mem_cons_of_mem _ h)
  unfold splitLines
  rw [hdata, splitLinesAux_append _ _ hT, splitLinesAux_append _ _ hS,
    splitLinesAux_joinLines _ _ hC]
  simp only [List.map_cons, List.map_map]
  have hid : (String.mk ∘ String.data) = id := rfl
  rw [hid, List.map_id]

/-- C29: `parseGeneratedResponse` inverts the requested layout.  For a title and a summary
that are not empty, hold no line feed and have no white space at their ends, and content
lines without line feed, the first of them not empty and without white space at its ends,
the others not starting, after trimming, with "TITLE:", "SUMMARY:" or "CONTENT:", parsing
the text of the layout returns that title, that summary and the content lines joined by
line feeds. -/
theorem parseGeneratedResponse_inverts (t s c1 : String) (rest : List String)
    (ht : t ≠ "") (ht1 : '\n' ∉ t.data) (ht2 : trimSpace t = t)
    (hs : s ≠ "") (hs1 : '\n' ∉ s.data) (hs2 : trimSpace s = s)
    (hc : c1 ≠ "") (hc2 : trimSpace c1 = c1)
    (hlines : ∀ c ∈ c1 :: rest, '\n' ∉ c.data)
    (hrest : ∀ c ∈ rest, startsWithKeyword c = false) :
    parseGeneratedResponse (layoutText t s (c1 :: rest)) =
      { Title := t, Content := joinLines (c1 :: rest), Summary := s } := by
  unfold parseGeneratedResponse
  rw [splitLines_layoutText t s c1 rest ht1 hs1 hlines]
  simp only [List.foldl_cons]
  rw [parseLine_title _ t ht ht2, parseLine_summary _ s hs hs2, parseLine_content _ c1 hc hc2,
    foldl_parseLine_raw rest _ rfl hrest]
  simp [ht, hs]

set_option maxRecDepth 100000 in
/-- C29 (witness): a layout with three content lines, the second of them empty. -/
theorem parseGeneratedResponse_inverts_witness :
    layoutText "Plan" "Short." ["# Plan", "", "  - step"] =
      "TITLE: Plan\nSUMMARY: Short.\nCONTENT: # Plan\n\n  - step" ∧
    parseGeneratedResponse (layoutText "Plan" "Short." ["# Plan", "", "  - step"]) =
      { Title := "Plan", Content := joinLines ["# Plan", "", "  - step"],
        Summary := "Short." } :=
  ⟨by decide,
   parseGeneratedResponse_inverts "Plan" "Short." "# Plan" ["", "  - step"] (by decide)
     (by decide) (by decide) (by decide) (by decide) (by decide) (by decide) (by decide)
     (by decide) (by decide)⟩

end Insight
